import Mathlib

/-!
# Hair inpainting engine

A shallow embedding of `src/HairRemoval/hair_inpainting_CPU.cpp`
(`normalizeImage`, `convertToMatArrayFormat`, `hairInpaintingCPU`,
`PDEHeatDiffusionCPU`) and of the parameter block of
`src/hair_detection/parameters.h`.

Conventions of the embedding.

* `int` values are `Int`; image dimensions are assumed small enough that no
  index computation overflows.  The products in the constructor of the
  parameter block are the exception: they are wrapped to 32 bits (`wrap32`).
* A buffer reached through a pointer is a total map `Int → α` from element
  index to content; a store is a pointwise update.
* `float` is an abstract carrier `F` together with a record `FloatOps F` of the
  operations the code applies to it.  A theorem stated for every `FloatOps F`
  holds for any arithmetic, IEEE binary32 included.  Two interpretations are
  given: `exactOps` (rationals, no rounding) and `binary32Ops` (rationals
  rounded to binary32 after every operation, with infinities and NaN).
* Counted loops are `forLoop`; the two loops of `normalizeImage` whose step is
  `width - 1` and `height - 1` are `strideLoop`, which carries an iteration
  budget and yields `none` when the budget does not suffice.
* The `#pragma omp parallel for` annotations are read sequentially, in index
  order.
-/

namespace HairRemoval

/-! ## Machine types and loops -/

/-- A byte, the C++ type `uchar`. -/
abbrev UChar := Fin 256

/-- The operations on `float` that the inpainting code uses: the literals
`0.0f` and `1.0f`, conversion from an integer, the four arithmetic operations,
the comparison `>`, and the conversion `(uchar)` (`none` where C++ leaves it
undefined). -/
structure FloatOps (F : Type) where
  zero : F
  one : F
  ofInt : Int → F
  add : F → F → F
  sub : F → F → F
  mul : F → F → F
  div : F → F → F
  gt : F → F → Bool
  toUchar : F → Option UChar

/-- The store `buf[i] = v`. -/
def store {α : Type} (buf : Int → α) (i : Int) (v : α) : Int → α :=
  fun j => if j = i then v else buf j

/-- The loop `for (int i = lo; i < hi; i++) body`, threading the state `s`. -/
def forLoop {σ : Type} (lo hi : Int) (body : Int → σ → σ) (s : σ) : σ :=
  (List.range (hi - lo).toNat).foldl (fun acc (n : Nat) => body (lo + (n : Int)) acc) s

/-- The loop `for (int i = lo; i < hi; i++) body` for a body that may fail. -/
def forLoopM {σ : Type} (lo hi : Int) (body : Int → σ → Option σ) (s : σ) : Option σ :=
  (List.range (hi - lo).toNat).foldlM (fun acc (n : Nat) => body (lo + (n : Int)) acc) s

/-- The loop `for (int x = x0; x < hi; x += step) body` with an iteration
budget: `none` when the budget is used up before the loop condition fails. -/
def strideLoop {σ : Type} : Nat → Int → Int → Int → (Int → σ → σ) → σ → Option σ
  | 0, _, _, _, _, _ => none
  | fuel + 1, x, hi, step, body, s =>
    if x < hi then strideLoop fuel (x + step) hi step body (body x s) else some s

/-! ## Parameter block -/

/-- Modelled from the spec: the members `Dt`, `Cw`, `MinRgb` and `MaxRgb` of
`HairInpaintInfo`, which `hair_inpainting_CPU.cpp` reads and writes but which
the header under `src/` does not declare.  `Dt` (time step) and `Cw`
(diffusion/decay coefficient) are floats; `MinRgb[k]` and `MaxRgb[k]` are the
per-channel integer intensity range. -/
structure RangeAndStep (F : Type) where
  Dt : F
  Cw : F
  MinRgb : Int → Int
  MaxRgb : Int → Int

/-- The class `HairInpaintInfo` of `parameters.h`. -/
structure HairInpaintInfo (F : Type) extends RangeAndStep F where
  Width : Int
  Height : Int
  Channels : Int
  Rescale : Int
  NumberOfC1Elements : Int
  NumberOfC3Elements : Int
  Iters : Int

/-! ## normalizeImage -/

/-- The three output buffers of `normalizeImage`. -/
structure Planes (F : Type) where
  dstImage : Int → F
  dstMask : Int → F
  dstMaskImage : Int → F

/-- Lines 9-11: the float mask. -/
def buildMask {F : Type} (ops : FloatOps F) (width height : Int)
    (src_mask_ptr : Int → UChar) (dstMask : Int → F) : Int → F :=
  forLoop 0 (height * width)
    (fun i m => store m i (if src_mask_ptr i ≠ 0 then ops.zero else ops.one)) dstMask

/-- Lines 18-20: one pixel value against the running range of channel `k`. -/
def scanPixel {F : Type} (pixel k : Int) (info : HairInpaintInfo F) : HairInpaintInfo F :=
  let info1 := if pixel > info.MaxRgb k then
    { info with MaxRgb := store info.MaxRgb k pixel } else info
  if pixel < info1.MinRgb k then { info1 with MinRgb := store info1.MinRgb k pixel } else info1

/-- Lines 12-23: the range scan over the interleaved source image. -/
def scanRange {F : Type} (width height : Int) (src_image_ptr : Int → UChar)
    (info : HairInpaintInfo F) : HairInpaintInfo F :=
  forLoop 0 height (fun y info =>
    forLoop 0 width (fun x info =>
      let index := y * (width * 3) + (x * 3)
      forLoop 0 3 (fun k info =>
        scanPixel (((src_image_ptr (index + k)).val : Nat) : Int) k info) info) info) info

/-- Line 33: the normalized value of the byte of channel `k` at pixel
`(y, x)`. -/
def normalizedValue {F : Type} (ops : FloatOps F) (width : Int)
    (src_image_ptr : Int → UChar) (range_list : Int → Int) (info : HairInpaintInfo F)
    (k y x : Int) : F :=
  let srcI := y * (width * 3) + (x * 3) + k
  ops.div
    (ops.sub (ops.ofInt (((src_image_ptr srcI).val : Nat) : Int)) (ops.ofInt (info.MinRgb k)))
    (ops.ofInt (range_list k))

/-- Lines 28-37: both planes of channel `k`. -/
def fillChannel {F : Type} (ops : FloatOps F) (width height : Int)
    (src_image_ptr : Int → UChar) (range_list : Int → Int) (info : HairInpaintInfo F)
    (k : Int) (p : Planes F) : Planes F :=
  let channel_offset := k * width * height
  forLoop 0 height (fun y p =>
    forLoop 0 width (fun x p =>
      let maskI := y * width + x
      let dstI := channel_offset + maskI
      let value := normalizedValue ops width src_image_ptr range_list info k y x
      { p with
        dstImage := store p.dstImage dstI value
        dstMaskImage := store p.dstMaskImage dstI
          (if ops.gt (p.dstMask maskI) ops.zero then value else ops.one) }) p) p

/-- Lines 41-43 and 48-50: the masked-source plane takes the normalized value
at pixel `(y, x)` of channel `k`. -/
def fixPixel {F : Type} (width height k y x : Int) (p : Planes F) : Planes F :=
  let channel_offset := k * width * height
  let maskI := y * width + x
  let dstI := channel_offset + maskI
  { p with dstMaskImage := store p.dstMaskImage dstI (p.dstImage dstI) }

/-- Lines 40-44: column `x` of channel `k`. -/
def fixColumn {F : Type} (width height k x : Int) (p : Planes F) : Planes F :=
  forLoop 0 height (fun y p => fixPixel width height k y x p) p

/-- Lines 47-51: row `y` of channel `k`. -/
def fixRow {F : Type} (width height k y : Int) (p : Planes F) : Planes F :=
  forLoop 0 width (fun x p => fixPixel width height k y x p) p

/-- Lines 39-45: the first and last column of channel `k` take the normalized
value; the loop steps by `width - 1`. -/
def fixColumns {F : Type} (fuel : Nat) (width height k : Int) (p : Planes F) :
    Option (Planes F) :=
  strideLoop fuel 0 width (width - 1) (fun x p => fixColumn width height k x p) p

/-- Lines 46-52: the first and last row of channel `k` take the normalized
value; the loop steps by `height - 1`. -/
def fixRows {F : Type} (fuel : Nat) (width height k : Int) (p : Planes F) :
    Option (Planes F) :=
  strideLoop fuel 0 height (height - 1) (fun y p => fixRow width height k y p) p

/-- Lines 25-53: the body of the channel loop. -/
def normalizeChannel {F : Type} (ops : FloatOps F) (fuel : Nat) (width height : Int)
    (src_image_ptr : Int → UChar) (range_list : Int → Int) (info : HairInpaintInfo F)
    (k : Int) (p : Planes F) : Option (Planes F) :=
  (fixColumns fuel width height k
    (fillChannel ops width height src_image_ptr range_list info k p)).bind
    (fixRows fuel width height k)

/-- The function `normalizeImage`.  `width` and `height` are `srcImage.cols` and
`srcImage.rows`; the result holds the three output buffers and the local copy
of the parameter block (passed by value) after the range scan.  `fuel` bounds
the iterations of each of the two strided loops. -/
def normalizeImage {F : Type} (ops : FloatOps F) (fuel : Nat) (width height : Int)
    (src_image_ptr src_mask_ptr : Int → UChar) (dstImage dstMask dstMaskImage : Int → F)
    (info : HairInpaintInfo F) : Option (Planes F × HairInpaintInfo F) :=
  let dstMask1 := buildMask ops width height src_mask_ptr dstMask
  let info1 := scanRange width height src_image_ptr info
  let range_list : Int → Int := fun k => info1.MaxRgb k - info1.MinRgb k
  (forLoopM 0 3 (normalizeChannel ops fuel width height src_image_ptr range_list info1)
    { dstImage := dstImage, dstMask := dstMask1, dstMaskImage := dstMaskImage }).map
    (fun p => (p, info1))

/-- The planes after the body of the channel loop (lines 25-53) for channel
`k` when its two strided loops terminate: the column loop visits the columns
`0` and `width - 1` when `2 ≤ width` and no column when `width ≤ 0`, and
likewise the row loop (see `normalizeChannel_eq`). -/
def channelResult {F : Type} (ops : FloatOps F) (width height : Int)
    (src_image_ptr : Int → UChar) (range_list : Int → Int) (info : HairInpaintInfo F)
    (k : Int) (p : Planes F) : Planes F :=
  let p1 := fillChannel ops width height src_image_ptr range_list info k p
  let p2 := if 2 ≤ width then
    fixColumn width height k (width - 1) (fixColumn width height k 0 p1) else p1
  if 2 ≤ height then fixRow width height k (height - 1) (fixRow width height k 0 p2) else p2

/-! ## convertToMatArrayFormat -/

/-- Lines 58-68: the body of the channel loop of `convertToMatArrayFormat`. -/
def convertChannel {F : Type} (ops : FloatOps F) (srcImage : Int → F)
    (info : HairInpaintInfo F) (k : Int) (dstImage : Int → Option UChar) :
    Int → Option UChar :=
  let channel_offset := k * info.Width * info.Height
  let range := info.MaxRgb k - info.MinRgb k
  let offset := info.MinRgb k
  forLoop 0 info.Height (fun y dst =>
    forLoop 0 info.Width (fun x dst =>
      let dstI := y * (info.Width * info.Channels) + (x * info.Channels) + k
      let srcI := channel_offset + y * info.Width + x
      store dst dstI
        (ops.toUchar (ops.add (ops.mul (ops.ofInt range) (srcImage srcI)) (ops.ofInt offset))))
      dst) dstImage

/-- The function `convertToMatArrayFormat`.  A cell of the byte buffer is
`none` when the conversion `(uchar)` stored there is undefined. -/
def convertToMatArrayFormat {F : Type} (ops : FloatOps F) (srcImage : Int → F)
    (dstImage : Int → Option UChar) (info : HairInpaintInfo F) : Int → Option UChar :=
  forLoop 0 info.Channels (fun k dst => convertChannel ops srcImage info k dst) dstImage

/-! ## The diffusion solver -/

/-- Lines 129-138: the scalar update of pixel `(y, x)` of the channel that
starts at `channel_offset`. -/
def updatePixel {F : Type} (ops : FloatOps F) (normalized_mask normalized_masked_src : Int → F)
    (info : HairInpaintInfo F) (channel_offset y x : Int) (dst : Int → F) : Int → F :=
  let c1i := y * info.Width + x
  let c3i := channel_offset + c1i
  let c3ui := channel_offset + (y - 1) * info.Width + x
  let c3di := channel_offset + (y + 1) * info.Width + x
  let c3li := channel_offset + y * info.Width + (x - 1)
  let c3ri := channel_offset + y * info.Width + (x + 1)
  store dst c3i
    (ops.sub
      (ops.add (dst c3i)
        (ops.mul info.Dt
          (ops.sub (ops.add (ops.add (ops.add (dst c3ui) (dst c3di)) (dst c3li)) (dst c3ri))
            (ops.mul info.Cw (dst c3i)))))
      (ops.mul (ops.mul info.Dt (normalized_mask c1i))
        (ops.sub (dst c3i) (normalized_masked_src c3i))))

/-- Lines 128-139: the scalar inner loop over the interior columns of row `y`
of channel `k`. -/
def scalarRow {F : Type} (ops : FloatOps F) (normalized_mask normalized_masked_src : Int → F)
    (info : HairInpaintInfo F) (k y : Int) (dst : Int → F) : Int → F :=
  let x_boundary := info.Width - 1
  let channel_offset := k * info.Width * info.Height
  forLoop 1 x_boundary
    (fun x dst => updatePixel ops normalized_mask normalized_masked_src info channel_offset y x dst)
    dst

/-- Line 85: the loop over the interior rows of one channel; `row y` is the
inner loop of row `y`. -/
def channelRows {F σ : Type} (info : HairInpaintInfo F) (row : Int → σ → σ) (s : σ) : σ :=
  forLoop 1 (info.Height - 1) row s

/-- Lines 81-85 and 141-143: the loops over iterations, channels and interior
rows; `row k y` is the inner loop of row `y` of channel `k`. -/
def sweepRows {F σ : Type} (info : HairInpaintInfo F) (ch : Int) (row : Int → Int → σ → σ)
    (s : σ) : σ :=
  forLoop 0 info.Iters (fun _ s =>
    forLoop 0 ch (fun k s => channelRows info (row k) s) s) s

/-- One sequential sweep of the scalar path over the channel `k`: lines 85-141
for one value of `i` and of `k`. -/
def sweepChannel {F : Type} (ops : FloatOps F) (normalized_mask normalized_masked_src : Int → F)
    (info : HairInpaintInfo F) (k : Int) (dst : Int → F) : Int → F :=
  channelRows info (scalarRow ops normalized_mask normalized_masked_src info k) dst

/-- The function `PDEHeatDiffusionCPU`, scalar path (`ISAVX` off). -/
def PDEHeatDiffusionCPU {F : Type} (ops : FloatOps F)
    (normalized_mask normalized_masked_src dst : Int → F) (ch : Int)
    (info : HairInpaintInfo F) : Int → F :=
  sweepRows info ch (scalarRow ops normalized_mask normalized_masked_src info) dst

/-- The element `buf[y][x]` of the plane of channel `k`: the planar index is
`k * Width * Height + y * Width + x`. -/
def planeAt {F α : Type} (info : HairInpaintInfo F) (k : Int) (buf : Int → α) (y x : Int) : α :=
  buf (k * info.Width * info.Height + (y * info.Width + x))

/-- The three buffers the solver works on. -/
inductive BufferId where
  | normalized_mask
  | normalized_masked_src
  | dst
  deriving DecidableEq, Repr

/-- One access to an element of a buffer. -/
inductive Access where
  | load (buf : BufferId) (index : Int)
  | save (buf : BufferId) (index : Int)
  deriving DecidableEq, Repr

/-- The accesses of the scalar update of pixel `(y, x)`, lines 136-138: the
loads in the order of the expression, then the store to `dst[c3i]`. -/
def pixelAccesses {F : Type} (info : HairInpaintInfo F) (channel_offset y x : Int) :
    List Access :=
  let c1i := y * info.Width + x
  let c3i := channel_offset + c1i
  let c3ui := channel_offset + (y - 1) * info.Width + x
  let c3di := channel_offset + (y + 1) * info.Width + x
  let c3li := channel_offset + y * info.Width + (x - 1)
  let c3ri := channel_offset + y * info.Width + (x + 1)
  [Access.load BufferId.dst c3i, Access.load BufferId.dst c3ui, Access.load BufferId.dst c3di,
   Access.load BufferId.dst c3li, Access.load BufferId.dst c3ri, Access.load BufferId.dst c3i,
   Access.load BufferId.normalized_mask c1i, Access.load BufferId.dst c3i,
   Access.load BufferId.normalized_masked_src c3i, Access.save BufferId.dst c3i]

/-- The log of buffer accesses of `PDEHeatDiffusionCPU` (scalar path): the loop
nest of the solver with each pixel update replaced by the record of its
accesses. -/
def PDEHeatDiffusionCPU_accesses {F : Type} (ch : Int) (info : HairInpaintInfo F) :
    List Access :=
  sweepRows info ch (fun k y log =>
    forLoop 1 (info.Width - 1)
      (fun x log => log ++ pixelAccesses info (k * info.Width * info.Height) y x) log) []

/-- The copy `memcpy(img_u, src, n * sizeof(float))` into a fresh block whose
content before the copy is `fresh`. -/
def memcpy {F : Type} (n : Int) (src fresh : Int → F) : Int → F :=
  fun i => if 0 ≤ i ∧ i < n then src i else fresh i

/-- The function `hairInpaintingCPU`; the result is the buffer that `dst` points
to on return.  `fresh` is the content of the block that `malloc` returns. -/
def hairInpaintingCPU {F : Type} (ops : FloatOps F)
    (normalized_mask normalized_masked_src fresh : Int → F) (info : HairInpaintInfo F) :
    Int → F :=
  let img_u := memcpy info.NumberOfC3Elements normalized_masked_src fresh
  PDEHeatDiffusionCPU ops normalized_mask normalized_masked_src img_u info.Channels info

/-- Modelled from the spec: the macros `SET8F`, `SET8FE`, `GETMASK`, `MASKLOAD`,
`MASKSTORE`, `ADD8F`, `SUB8F` and `MUL8F` of the `ISAVX` branch, whose header is
not under `src/`.  They are read as the eight-lane AVX operations: lane `j` of
the group that starts at column `x` is enabled when `x + j < x_boundary`, a
masked load yields `0.0f` in a disabled lane, and a masked store writes the
enabled lanes only.  This is lane `j` of the value stored by lines 116-125,
all loads taken from the buffer `dst` as it is before the store. -/
def avxLaneValue {F : Type} (ops : FloatOps F) (normalized_mask normalized_masked_src : Int → F)
    (info : HairInpaintInfo F) (channel_offset y x j : Int) (dst : Int → F) : F :=
  let x_boundary := info.Width - 1
  let c1i := y * info.Width + x
  let c3i := channel_offset + c1i
  let c3ui := channel_offset + (y - 1) * info.Width + x
  let c3di := channel_offset + (y + 1) * info.Width + x
  let c3li := channel_offset + y * info.Width + (x - 1)
  let c3ri := channel_offset + y * info.Width + (x + 1)
  let load : (Int → F) → Int → F := fun buf base =>
    if x + j < x_boundary then buf (base + j) else ops.zero
  let c := load dst c3i
  let u := load dst c3ui
  let d := load dst c3di
  let l := load dst c3li
  let r := load dst c3ri
  let mc := load normalized_mask c1i
  let oc := load normalized_masked_src c3i
  ops.sub
    (ops.add c (ops.mul info.Dt
      (ops.sub (ops.add u (ops.add d (ops.add l r))) (ops.mul info.Cw c))))
    (ops.mul info.Dt (ops.mul mc (ops.sub c oc)))

/-- Lines 98-126: the vectorized inner loop over row `y` of channel `k`, in
groups of eight columns.  The loop steps by 8, so `fuel` iterations suffice
when `8 * fuel ≥ Width`. -/
def avxRow {F : Type} (ops : FloatOps F) (normalized_mask normalized_masked_src : Int → F)
    (info : HairInpaintInfo F) (fuel : Nat) (k y : Int) (dst : Int → F) : Option (Int → F) :=
  let x_boundary := info.Width - 1
  let channel_offset := k * info.Width * info.Height
  strideLoop fuel 1 x_boundary 8 (fun x dst =>
    let c3i := channel_offset + (y * info.Width + x)
    forLoop 0 8 (fun j out =>
      if x + j < x_boundary then
        store out (c3i + j)
          (avxLaneValue ops normalized_mask normalized_masked_src info channel_offset y x j dst)
      else out) dst) dst

/-! ## Two interpretations of `float` -/

/-- Truncation toward zero of a rational. -/
def truncQ (q : ℚ) : Int := if 0 ≤ q then ⌊q⌋ else ⌈q⌉

/-- The conversion `(uchar)q` of a finite value: defined when the truncated
value is a byte. -/
def toUcharQ (q : ℚ) : Option UChar :=
  if 0 ≤ truncQ q ∧ truncQ q < 256 then some (Fin.ofNat (truncQ q).toNat) else none

/-- Exact arithmetic on the rationals: no rounding.  (Division by zero yields
zero here; the claims that use this interpretation divide by nonzero values
only.) -/
def exactOps : FloatOps ℚ where
  zero := 0
  one := 1
  ofInt := fun i => (i : ℚ)
  add := fun a b => a + b
  sub := fun a b => a - b
  mul := fun a b => a * b
  div := fun a b => a / b
  gt := fun a b => decide (b < a)
  toUchar := toUcharQ

/-! ### IEEE binary32 -/

/-- The power `2 ^ e` for an integer exponent. -/
def pow2 (e : Int) : ℚ :=
  if 0 ≤ e then ((2 ^ e.toNat : Nat) : ℚ) else 1 / ((2 ^ (-e).toNat : Nat) : ℚ)

/-- Binary logarithm with a recursion budget: `⌊log₂ n⌋` when `n ≤ 2 ^ fuel`. -/
def log2Fuel : Nat → Nat → Nat
  | 0, _ => 0
  | fuel + 1, n => if n < 2 then 0 else log2Fuel fuel (n / 2) + 1

/-- One bisection stage of the binary logarithm: a value of at least `2 ^ k`
is shifted right by `k` bits, and `k` is added to the count. -/
def log2Stage (k : Nat) (p : Nat × Nat) : Nat × Nat :=
  if 2 ^ k ≤ p.1 then (p.1 / 2 ^ k, p.2 + k) else p

/-- The binary logarithm `⌊log₂ n⌋` of a positive natural number, by bisection
below `2 ^ 256` and by repeated halving above. -/
def natLog2 (n : Nat) : Nat :=
  if n < 2 ^ 256 then
    (log2Stage 1 (log2Stage 2 (log2Stage 4 (log2Stage 8 (log2Stage 16 (log2Stage 32
      (log2Stage 64 (log2Stage 128 (n, 0))))))))).2
  else log2Fuel n n

/-- The exponent `⌊log₂ (n / d)⌋` of a positive fraction. -/
def ilog2 (n d : Nat) : Int :=
  let e0 : Int := (natLog2 n : Int) - (natLog2 d : Int)
  if 0 ≤ e0 then (if d * 2 ^ e0.toNat ≤ n then e0 else e0 - 1)
  else (if d ≤ n * 2 ^ (-e0).toNat then e0 else e0 - 1)

/-- The nearest natural number to the fraction `a / b`, ties to the even one. -/
def roundDivEven (a b : Nat) : Nat :=
  let q := a / b
  let r := a % b
  if 2 * r < b then q else if b < 2 * r then q + 1 else if q % 2 = 0 then q else q + 1

/-- Rounding of a rational to the nearest binary32 value, ties to even, with
unbounded exponent above: 24 significant bits, least exponent -126 (below
`2 ^ (-126)` the spacing is that of the subnormal numbers, `2 ^ (-149)`).  With
`e` the exponent of `|x|`, the result is the multiple of `2 ^ (e - 23)` nearest
to `x`. -/
def roundBinary32 (x : ℚ) : ℚ :=
  let n := x.num.natAbs
  let d := x.den
  if n = 0 then 0 else
    let e := max (ilog2 n d) (-126)
    let m := if 23 ≤ e then roundDivEven n (d * 2 ^ (e - 23).toNat)
      else roundDivEven (n * 2 ^ (23 - e).toNat) d
    let s : Int := if x.num < 0 then -(m : Int) else (m : Int)
    if 23 ≤ e then ((s * 2 ^ (e - 23).toNat : Int) : ℚ) else mkRat s (2 ^ (23 - e).toNat)

/-- A binary32 value: a finite number, an infinity, or a NaN.  The sign of zero
is not represented. -/
inductive Binary32 where
  | finite (q : ℚ)
  | posInf
  | negInf
  | nan
  deriving DecidableEq

namespace Binary32

/-- The binary32 value that a real result rounds to; overflow gives an
infinity. -/
def ofRat (x : ℚ) : Binary32 :=
  let r := roundBinary32 x
  if pow2 128 ≤ r then posInf else if r ≤ -pow2 128 then negInf else finite r

/-- Negation. -/
def neg : Binary32 → Binary32
  | finite q => finite (-q)
  | posInf => negInf
  | negInf => posInf
  | nan => nan

/-- Addition. -/
def add : Binary32 → Binary32 → Binary32
  | finite a, finite b => ofRat (a + b)
  | nan, _ => nan
  | _, nan => nan
  | posInf, negInf => nan
  | negInf, posInf => nan
  | posInf, _ => posInf
  | negInf, _ => negInf
  | _, posInf => posInf
  | _, negInf => negInf

/-- Subtraction. -/
def sub (a b : Binary32) : Binary32 := add a (neg b)

/-- An infinity of the sign of `s * t`, NaN when the product is zero. -/
def infOfSign (s t : ℚ) : Binary32 :=
  if s * t = 0 then nan else if 0 < s * t then posInf else negInf

/-- The sign of a non-NaN value as a rational. -/
def signOf : Binary32 → ℚ
  | finite q => q
  | posInf => 1
  | negInf => -1
  | nan => 0

/-- Multiplication. -/
def mul : Binary32 → Binary32 → Binary32
  | finite a, finite b => ofRat (a * b)
  | nan, _ => nan
  | _, nan => nan
  | a, b => infOfSign (signOf a) (signOf b)

/-- Division.  A nonzero finite value divided by zero is an infinity of the
sign of the dividend; zero by zero is NaN. -/
def div : Binary32 → Binary32 → Binary32
  | finite a, finite b => if b = 0 then infOfSign a 1 else ofRat (a / b)
  | nan, _ => nan
  | _, nan => nan
  | finite _, _ => finite 0
  | posInf, finite b => if 0 ≤ b then posInf else negInf
  | negInf, finite b => if 0 ≤ b then negInf else posInf
  | _, _ => nan

/-- The comparison `a > b`; false when either side is NaN. -/
def gt : Binary32 → Binary32 → Bool
  | finite a, finite b => decide (b < a)
  | nan, _ => false
  | _, nan => false
  | posInf, posInf => false
  | posInf, _ => true
  | negInf, _ => false
  | finite _, posInf => false
  | finite _, negInf => true

/-- The conversion `(uchar)`: undefined for infinities and NaN. -/
def toUchar : Binary32 → Option UChar
  | finite q => toUcharQ q
  | _ => none

/-- The comparison `a <= b` of two binary32 values; false when either side is
NaN. -/
def le : Binary32 → Binary32 → Bool
  | finite a, finite b => decide (a ≤ b)
  | nan, _ => false
  | _, nan => false
  | negInf, _ => true
  | _, posInf => true
  | _, _ => false

end Binary32

/-- IEEE binary32 arithmetic, round to nearest even after every operation. -/
def binary32Ops : FloatOps Binary32 where
  zero := Binary32.finite 0
  one := Binary32.finite 1
  ofInt := fun i => Binary32.ofRat (i : ℚ)
  add := Binary32.add
  sub := Binary32.sub
  mul := Binary32.mul
  div := Binary32.div
  gt := Binary32.gt
  toUchar := Binary32.toUchar

/-! ## Test data -/

/-- A test image: the byte at interleaved index `i` is `(37 * i + 11) mod 256`. -/
def sampleImage : Int → UChar := fun i => Fin.ofNat ((37 * i + 11).toNat)

/-- A mask that marks every pixel as hair. -/
def allHairMask : Int → UChar := fun _ => 255

/-- A parameter block over the rationals with `Dt = 1/10`, `Cw = 4` and the
range fields at their sentinel extremes. -/
def rationalInfo (width height channels iters : Int) : HairInpaintInfo ℚ :=
  { Dt := 1 / 10, Cw := 4, MinRgb := fun _ => 255, MaxRgb := fun _ => 0,
    Width := width, Height := height, Channels := channels, Rescale := 1,
    NumberOfC1Elements := width * height, NumberOfC3Elements := width * height * channels,
    Iters := iters }

/-- A parameter block for a 3x3 image with three channels. -/
def sampleInfo : HairInpaintInfo ℚ := rationalInfo 3 3 3 500

/-- A buffer over the rationals: element `i` is `i / 100`. -/
def rampBuffer : Int → ℚ := fun i => (i : ℚ) / 100

/-- A mask that marks the centre pixel of a 3x3 image as hair. -/
def centreHairMask : Int → UChar := fun i => if i = 4 then 255 else 0

/-- The 5x5 single-channel scenario: the working buffer and the masked-source
plane, 100 everywhere except 0 at the centre pixel `(2, 2)` (index 12). -/
def scenarioBuffer {F : Type} (ops : FloatOps F) : Int → F :=
  fun i => if i = 12 then ops.ofInt 0 else ops.ofInt 100

/-- The mask plane of the scenario: 1 at the centre pixel, 0 elsewhere. -/
def scenarioMask {F : Type} (ops : FloatOps F) : Int → F :=
  fun i => if i = 12 then ops.one else ops.zero

/-- The parameter block of the scenario: a 5x5 plane, one channel, time step
`dt`, `Cw = 4` and `iters` iterations. -/
def scenarioInfo {F : Type} (ops : FloatOps F) (dt : F) (iters : Int) : HairInpaintInfo F :=
  { Dt := dt, Cw := ops.ofInt 4, MinRgb := fun _ => 255, MaxRgb := fun _ => 0,
    Width := 5, Height := 5, Channels := 1, Rescale := 1,
    NumberOfC1Elements := 25, NumberOfC3Elements := 25, Iters := iters }

/-- The centre value of the scenario after `n` iterations of the solver. -/
def scenarioCentre {F : Type} (ops : FloatOps F) (dt : F) (n : Nat) : F :=
  PDEHeatDiffusionCPU ops (scenarioMask ops) (scenarioBuffer ops) (scenarioBuffer ops) 1
    (scenarioInfo ops dt n) 12

/-- The test of the scenario on two successive centre values, exact
arithmetic: no decrease, and the new value within `[0, 100]`. -/
def stepOkQ (a b : ℚ) : Bool := decide (a ≤ b ∧ 0 ≤ b ∧ b ≤ 100)

/-- The test of the scenario on two successive centre values, binary32. -/
def stepOkB (a b : Binary32) : Bool :=
  Binary32.le a b && Binary32.le (Binary32.finite 0) b && Binary32.le b (Binary32.finite 100)

/-- The indices of the nine interior pixels of the 5x5 scenario plane. -/
def scenarioCells : List Int := [6, 7, 8, 11, 12, 13, 16, 17, 18]

/-- The buffer of the scenario whose nine interior pixels are `vals` and whose
other elements are 100. -/
def cellsBuffer {F : Type} (ops : FloatOps F) (vals : List F) : Int → F := fun i =>
  if i = 6 then vals.getD 0 (ops.ofInt 100)
  else if i = 7 then vals.getD 1 (ops.ofInt 100)
  else if i = 8 then vals.getD 2 (ops.ofInt 100)
  else if i = 11 then vals.getD 3 (ops.ofInt 100)
  else if i = 12 then vals.getD 4 (ops.ofInt 100)
  else if i = 13 then vals.getD 5 (ops.ofInt 100)
  else if i = 16 then vals.getD 6 (ops.ofInt 100)
  else if i = 17 then vals.getD 7 (ops.ofInt 100)
  else if i = 18 then vals.getD 8 (ops.ofInt 100)
  else ops.ofInt 100

/-- A check of `n` successive steps from the buffer `s`: `ok` holds of the
centre value before and after each step, and after the `n` steps the nine
interior pixels are those of `t`. -/
def chunkOk {F : Type} [DecidableEq F] (step : (Int → F) → (Int → F)) (ok : F → F → Bool) :
    Nat → (Int → F) → (Int → F) → Bool
  | 0, s, t => scenarioCells.all (fun j => decide (s j = t j))
  | n + 1, s, t => ok (s 12) (step s 12) && chunkOk step ok n (step s) t

/-- The interior of the scenario plane every five iterations in exact
arithmetic (`Dt = 1/10`): row `i` lists the pixels 6, 7, 8, 11, 12, 13, 16, 17,
18 after `5 * i` iterations. -/
def scenarioStatesQ : List (List ℚ) :=
  [[100, 100, 100, 100, 0, 100, 100, 100, 100],
   [2368649 / 25000, 110686683 / 1250000, 297796587 / 3125000, 110686683 / 1250000,
    217072419 / 3125000, 5641163477 / 62500000, 297796587 / 3125000, 5641163477 / 62500000,
    29897232927 / 312500000],
   [3704526622884593 / 39062500000000, 7045450230726619 / 78125000000000,
    92874629056831913 / 976562500000000, 7045450230726619 / 78125000000000,
    70395287472157081 / 976562500000000, 353634130330467653 / 3906250000000000,
    92874629056831913 / 976562500000000, 353634130330467653 / 3906250000000000,
    372139385730681651 / 3906250000000000],
   [232463563249075961096129 / 2441406250000000000000,
    11065158219142103276693083 / 122070312500000000000000,
    29080868459940208624164587 / 305175781250000000000000,
    11065158219142103276693083 / 122070312500000000000000,
    22122420334760390216863419 / 305175781250000000000000,
    553780222575840062067593077 / 6103515625000000000000000,
    29080868459940208624164587 / 305175781250000000000000,
    553780222575840062067593077 / 6103515625000000000000000,
    2909584281573560173733970527 / 30517578125000000000000000],
   [363785619274903157297845254538993 / 3814697265625000000000000000000,
    692794651081458647306146534445499 / 7629394531250000000000000000000,
    9096726749621140614314202413088913 / 95367431640625000000000000000000,
    692794651081458647306146534445499 / 7629394531250000000000000000000,
    6926568513852676323742840244366081 / 95367431640625000000000000000000,
    34649220921203914732802937660855973 / 381469726562500000000000000000000,
    9096726749621140614314202413088913 / 95367431640625000000000000000000,
    34649220921203914732802937660855973 / 381469726562500000000000000000000,
    7278568038907398469741890148984247 / 76293945312500000000000000000000],
   [22749620548522633715969349590346546216609 / 238418579101562500000000000000000000000,
    1083223368740682615900921197084573063139483 / 11920928955078125000000000000000000000000,
    2843916409284337031832167268077819456407587 / 29802322387695312500000000000000000000000,
    1083223368740682615900921197084573063139483 / 11920928955078125000000000000000000000000,
    2166241096313879298425511382573016269154419 / 29802322387695312500000000000000000000000,
    54166121739619954435280494123485492241682677 / 596046447753906250000000000000000000000000,
    2843916409284337031832167268077819456407587 / 29802322387695312500000000000000000000000,
    54166121739619954435280494123485492241682677 / 596046447753906250000000000000000000000000,
    284407955233324318056250857223727177141668127 / 2980232238769531250000000000000000000000000],
   [35554189065556364253117451286944523782823266433393 / 372529029846191406250000000000000000000000000000,
    67719777010301563721737731928463951127167834852379 / 745058059692382812500000000000000000000000000000,
    888879014923586846738337270741069167919719142345913 / 9313225746154785156250000000000000000000000000000,
    67719777010301563721737731928463951127167834852379 / 745058059692382812500000000000000000000000000000,
    677169337062629107141425933869899299912507617575081 / 9313225746154785156250000000000000000000000000000,
    3386103061828227923598550721986380791175777212476293 / 37252902984619140625000000000000000000000000000000,
    888879014923586846738337270741069167919719142345913 / 9313225746154785156250000000000000000000000000000,
    3386103061828227923598550721986380791175777212476293 / 37252902984619140625000000000000000000000000000000,
    3555593639453977078621074406053621601305162725039219 / 37252902984619140625000000000000000000000000000000],
   [2222335509695990631937560340114511496283136969584832185089 / 23283064365386962890625000000000000000000000000000000000,
    105823851892313189758698442888063061048008772109226173025883 / 1164153218269348144531250000000000000000000000000000000000,
    277794884413911673056169731285209736629266261123875915650587 / 2910383045673370361328125000000000000000000000000000000000,
    105823851892313189758698442888063061048008772109226173025883 / 1164153218269348144531250000000000000000000000000000000000,
    211643901496458617202904791466808253761774687303808220445419 / 2910383045673370361328125000000000000000000000000000000000,
    5291262461765518568810854456814690300943055673329742261932277 / 58207660913467407226562500000000000000000000000000000000000,
    277794884413911673056169731285209736629266261123875915650587 / 2910383045673370361328125000000000000000000000000000000000,
    5291262461765518568810854456814690300943055673329742261932277 / 58207660913467407226562500000000000000000000000000000000000,
    27779729677572262088133747393882665131740627481786322116325727 / 291038304567337036132812500000000000000000000000000000000000],
   [3472526341665319867775286955022730940575929472542332637274122567793 / 36379788070917129516601562500000000000000000000000000000000000000,
    6614292622097740697220199558599539139266823344012402573448888747259 / 72759576141834259033203125000000000000000000000000000000000000000,
    86813528837947602152335094865703000528105601902730378737763744602913 / 909494701772928237915039062500000000000000000000000000000000000000,
    6614292622097740697220199558599539139266823344012402573448888747259 / 72759576141834259033203125000000000000000000000000000000000000000,
    66142425248752020279319674746111713306999674308801276994878591784081 / 909494701772928237915039062500000000000000000000000000000000000000,
    330716395641706833082465461888986145984690096480302807554195740528613 / 3637978807091712951660156250000000000000000000000000000000000000000,
    86813528837947602152335094865703000528105601902730378737763744602913 / 909494701772928237915039062500000000000000000000000000000000000000,
    330716395641706833082465461888986145984690096480302807554195740528613 / 3637978807091712951660156250000000000000000000000000000000000000000,
    347255343974685601137751270000756083035510507353567989069543377275603 / 3637978807091712951660156250000000000000000000000000000000000000000],
   [217036177956921744519963984196179847146053579576799653209629027305151801569 / 2273736754432320594787597656250000000000000000000000000000000000000000000,
    10335027833761855822243674740195922903537063046264420335259054309514590352283 / 113686837721616029739379882812500000000000000000000000000000000000000000000,
    27129569640853349081011019961032130091772459043706572487783964703181001893587 / 284217094304040074348449707031250000000000000000000000000000000000000000000,
    10335027833761855822243674740195922903537063046264420335259054309514590352283 / 113686837721616029739379882812500000000000000000000000000000000000000000000,
    20669990105435575131346425805689141207962761686171554003463221285777070736419 / 284217094304040074348449707031250000000000000000000000000000000000000000000,
    516752523452644606277174579682916935398326949232216921990122764960650704341877 / 5684341886080801486968994140625000000000000000000000000000000000000000000000,
    27129569640853349081011019961032130091772459043706572487783964703181001893587 / 284217094304040074348449707031250000000000000000000000000000000000000000000,
    516752523452644606277174579682916935398326949232216921990122764960650704341877 / 5684341886080801486968994140625000000000000000000000000000000000000000000000,
    2712960919979275030470108569543085547147669034993474571023096277183750113943327 / 28421709430404007434844970703125000000000000000000000000000000000000000000000],
   [339121155102090503549718417845062839456057421874161072291926944763252845696686942193 / 3552713678800500929355621337890625000000000000000000000000000000000000000000000000,
    645944320591191391043182999048179336609262195390155850205565236299580954983932930139 / 7105427357601001858711242675781250000000000000000000000000000000000000000000000000,
    8478034997105887205143446883631349480671842621555142698115113646417832285033219859913 / 88817841970012523233890533447265625000000000000000000000000000000000000000000000000,
    645944320591191391043182999048179336609262195390155850205565236299580954983932930139 / 7105427357601001858711242675781250000000000000000000000000000000000000000000000000,
    6459434652358586534055013116796514542632637656435395925843567150158669042442166993081 / 88817841970012523233890533447265625000000000000000000000000000000000000000000000000,
    32297245285828113316123865724321354754937089694524149476000319392845564908978720212933 / 355271367880050092935562133789062500000000000000000000000000000000000000000000000000,
    8478034997105887205143446883631349480671842621555142698115113646417832285033219859913 / 88817841970012523233890533447265625000000000000000000000000000000000000000000000000,
    32297245285828113316123865724321354754937089694524149476000319392845564908978720212933 / 355271367880050092935562133789062500000000000000000000000000000000000000000000000000,
    33912160479091875517348854219895910218138622162558781142409847952100119774970871870387 / 355271367880050092935562133789062500000000000000000000000000000000000000000000000000]]

/-- The interior of the scenario plane every five iterations in binary32
arithmetic (`Dt = 0.1f`), as the rational values of the floats. -/
def scenarioStatesB : List (List ℚ) :=
  [[100, 100, 100, 100, 0, 100, 100, 100, 100],
   [6209271 / 65536, 2901585 / 32768, 6245247 / 65536, 2901585 / 32768, 9104677 / 131072,
    11830377 / 131072, 6245247 / 65536, 11830377 / 131072, 391869 / 4096],
   [1553791 / 16384, 11820303 / 131072, 6232711 / 65536, 11820303 / 131072, 9448295 / 131072,
    1483249 / 16384, 12465421 / 131072, 1483249 / 16384, 12486925 / 131072],
   [12480293 / 131072, 11881123 / 131072, 6245069 / 65536, 11881123 / 131072, 2375377 / 32768,
    11892339 / 131072, 6245069 / 65536, 2973085 / 32768, 12496569 / 131072],
   [12499579 / 131072, 11902121 / 131072, 6251223 / 65536, 11902121 / 131072, 9519803 / 131072,
    5952691 / 65536, 6251223 / 65536, 5952691 / 65536, 12504485 / 131072],
   [12506735 / 131072, 11910167 / 131072, 12507677 / 131072, 11910167 / 131072,
    4763615 / 65536, 11911257 / 131072, 3126919 / 32768, 1488907 / 16384, 6254197 / 65536],
   [6254759 / 65536, 11913389 / 131072, 3127465 / 32768, 11913389 / 131072, 9530311 / 131072,
    11913791 / 131072, 12509859 / 131072, 11913791 / 131072, 12510133 / 131072],
   [3127659 / 32768, 5957353 / 65536, 12510769 / 131072, 5957353 / 65536, 4765797 / 65536,
    11914863 / 131072, 781923 / 8192, 11914863 / 131072, 6255439 / 65536],
   [6255547 / 65536, 5957625 / 65536, 12511149 / 131072, 5957625 / 65536, 297879 / 4096,
    5957657 / 65536, 3127787 / 32768, 5957657 / 65536, 1563899 / 16384],
   [3127821 / 32768, 2978869 / 32768, 6255653 / 65536, 2978869 / 32768, 4766175 / 65536,
    5957751 / 65536, 6255653 / 65536, 5957751 / 65536, 3127831 / 32768],
   [6255681 / 65536, 11915569 / 131072, 12511371 / 131072, 11915569 / 131072, 9532443 / 131072,
    2978895 / 32768, 12511371 / 131072, 2978895 / 32768, 12511379 / 131072]]

/-- The scenario buffer after `5 * i` iterations, exact arithmetic. -/
def scenarioBoundaryQ (i : Nat) : Int → ℚ :=
  cellsBuffer exactOps (scenarioStatesQ.getD i [])

/-- The scenario buffer after `5 * i` iterations, binary32 arithmetic. -/
def scenarioBoundaryB (i : Nat) : Int → Binary32 :=
  cellsBuffer binary32Ops ((scenarioStatesB.getD i []).map Binary32.finite)

/-- One iteration of the scenario in exact arithmetic: the sweep of the only
channel. -/
def scenarioStepQ (d : Int → ℚ) : Int → ℚ :=
  sweepChannel exactOps (scenarioMask exactOps) (scenarioBuffer exactOps)
    (scenarioInfo exactOps (1 / 10) 0) 0 d

/-- One iteration of the scenario in binary32 arithmetic. -/
def scenarioStepB (d : Int → Binary32) : Int → Binary32 :=
  sweepChannel binary32Ops (scenarioMask binary32Ops) (scenarioBuffer binary32Ops)
    (scenarioInfo binary32Ops (Binary32.ofRat (1 / 10)) 0) 0 d

/-- A row of a 4x3 plane whose left border pixel (index 4) is 1 and whose other
pixels are 0. -/
def leftEdgeBuffer : Int → ℚ := fun i => if i = 4 then 1 else 0

/-- A 3x3 binary32 plane: 0 at the centre (index 4), `1/2` above it (index 1)
and `2 ^ (-26)` below, left and right of it (indices 7, 3, 5). -/
def tinyNeighbours : Int → Binary32 := fun i =>
  if i = 1 then Binary32.finite (1 / 2)
  else if i = 3 ∨ i = 5 ∨ i = 7 then Binary32.finite (1 / 67108864)
  else Binary32.finite 0

/-- A binary32 parameter block for a 3x3 plane with `Dt = 1` and `Cw = 4`. -/
def unitStepInfo : HairInpaintInfo Binary32 :=
  { Dt := Binary32.finite 1, Cw := Binary32.finite 4, MinRgb := fun _ => 255,
    MaxRgb := fun _ => 0, Width := 3, Height := 3, Channels := 1, Rescale := 1,
    NumberOfC1Elements := 9, NumberOfC3Elements := 9, Iters := 1 }

/-- A binary32 parameter block with `Dt = 0.1f`, `Cw = 4` and the range fields
at their sentinel extremes. -/
def binary32Info (width height channels iters : Int) : HairInpaintInfo Binary32 :=
  { Dt := Binary32.ofRat (1 / 10), Cw := Binary32.finite 4, MinRgb := fun _ => 255,
    MaxRgb := fun _ => 0, Width := width, Height := height, Channels := channels, Rescale := 1,
    NumberOfC1Elements := width * height, NumberOfC3Elements := width * height * channels,
    Iters := iters }

/-- A 2x2 image with three equal channels: the pixels are 0, 22, 13, 13. -/
def roundTripImage : Int → UChar := fun i =>
  if i / 3 = 0 then 0 else if i / 3 = 1 then 22 else 13

/-- A 5x3 plane: `1/2` at the interior pixels `(1, 1)` and `(1, 3)` (indices 6
and 8) and `5/8` at every other element, so that both pixels have the same
value and the same four neighbour values. -/
def trustBuffer {F : Type} (ops : FloatOps F) : Int → F := fun i =>
  if i = 6 ∨ i = 8 then ops.div (ops.ofInt 1) (ops.ofInt 2)
  else ops.div (ops.ofInt 5) (ops.ofInt 8)

/-- A mask plane for the 5x3 plane: 0 at pixel `(1, 1)` (index 6), 1 at pixel
`(1, 3)` (index 8). -/
def trustMask {F : Type} (ops : FloatOps F) : Int → F := fun i =>
  if i = 8 then ops.one else ops.zero

/-- A parameter block for the 5x3 plane: one channel, time step `dt`,
`Cw = 4`. -/
def trustInfo {F : Type} (ops : FloatOps F) (dt : F) : HairInpaintInfo F :=
  { Dt := dt, Cw := ops.ofInt 4, MinRgb := fun _ => 255, MaxRgb := fun _ => 0,
    Width := 5, Height := 3, Channels := 1, Rescale := 1,
    NumberOfC1Elements := 15, NumberOfC3Elements := 15, Iters := 1 }

/-- A source image whose every byte is 7. -/
def constantImage : Int → UChar := fun _ => 7

/-- A binary32 parameter block of a 2x2 image with three channels whose recorded
range is the single value 7 in every channel. -/
def flatInfo : HairInpaintInfo Binary32 :=
  { Dt := Binary32.ofRat (1 / 10), Cw := Binary32.finite 4, MinRgb := fun _ => 7,
    MaxRgb := fun _ => 7, Width := 2, Height := 2, Channels := 3, Rescale := 1,
    NumberOfC1Elements := 4, NumberOfC3Elements := 12, Iters := 1 }

/-- A binary32 parameter block of a 2x2 image with three channels whose range
fields are seeded with `MinRgb = -16777219` and `MaxRgb = 0`. -/
def wideSeedInfo : HairInpaintInfo Binary32 :=
  { Dt := Binary32.ofRat (1 / 10), Cw := Binary32.finite 4, MinRgb := fun _ => -16777219,
    MaxRgb := fun _ => 0, Width := 2, Height := 2, Channels := 3, Rescale := 1,
    NumberOfC1Elements := 4, NumberOfC3Elements := 12, Iters := 1 }

/-! ## The matrices passed to normalizeImage -/

/-- The members of `cv::Mat` that `normalizeImage` reads: the dimensions `cols`
and `rows` and the byte buffer `data`. -/
structure Mat where
  cols : Int
  rows : Int
  data : Int → UChar

/-- Lines 3-7: `normalizeImage` as called, with the two matrices.  The
dimensions are taken from `srcImage`; of `srcMask` only `data` is read. -/
def normalizeImageMat {F : Type} (ops : FloatOps F) (fuel : Nat) (srcImage srcMask : Mat)
    (dstImage dstMask dstMaskImage : Int → F) (info : HairInpaintInfo F) :
    Option (Planes F × HairInpaintInfo F) :=
  let width := srcImage.cols
  let height := srcImage.rows
  let src_image_ptr := srcImage.data
  let src_mask_ptr := srcMask.data
  normalizeImage ops fuel width height src_image_ptr src_mask_ptr dstImage dstMask dstMaskImage
    info

/-- The indices at which lines 9-11 read the mask buffer, in order. -/
def maskReads (srcImage : Mat) : List Int :=
  forLoop 0 (srcImage.rows * srcImage.cols) (fun i log => log ++ [i]) []

/-- A 3x3 binary32 plane: 1 at the centre (index 4) and `2 ^ (-25)` at every
other element. -/
def spikeBuffer : Int → Binary32 := fun i =>
  if i = 4 then Binary32.finite 1 else Binary32.finite (1 / 33554432)

/-- A binary32 parameter block for a 3x3 plane with one channel, `Dt = 1/4`,
`Cw = 4` and one iteration. -/
def quarterStepInfo : HairInpaintInfo Binary32 :=
  { Dt := Binary32.finite (1 / 4), Cw := Binary32.finite 4, MinRgb := fun _ => 255,
    MaxRgb := fun _ => 0, Width := 3, Height := 3, Channels := 1, Rescale := 1,
    NumberOfC1Elements := 9, NumberOfC3Elements := 9, Iters := 1 }

/-! ## The constructor of the parameter block -/

/-- The value of an `int` expression whose mathematical value is `n`: wrapped
to 32 bits, two's complement.  (Signed overflow is undefined in C++; this is
what the usual targets compute.) -/
def wrap32 (n : Int) : Int := (n + 2147483648) % 4294967296 - 2147483648

/-- The constructor `HairInpaintInfo(int width, int height, int channels,
int rescale)` of `parameters.h`, lines 59-67.  `/` is the division of C++
(`Int.tdiv`, truncation toward zero) and the products are `int` products
(`wrap32`).  The members that the header under `src/` does not declare are
taken from `rest`. -/
def newHairInpaintInfo {F : Type} (rest : RangeAndStep F) (width height channels rescale : Int) :
    HairInpaintInfo F :=
  { rest with
    Width := Int.tdiv width rescale
    Height := Int.tdiv height rescale
    Channels := channels
    Rescale := rescale
    Iters := 500
    NumberOfC1Elements := Int.tdiv (Int.tdiv (wrap32 (width * height)) rescale) rescale
    NumberOfC3Elements :=
      Int.tdiv (Int.tdiv (wrap32 (wrap32 (width * height) * channels)) rescale) rescale }

/-- A 3x3 test image: `sampleImage` with the three bytes of the centre pixel
(indices 12, 13, 14) replaced by `v`. -/
def centreImage (v : UChar) : Int → UChar := fun i =>
  if i = 12 ∨ i = 13 ∨ i = 14 then v else sampleImage i

/-- A binary32 parameter block of a 3x3 image with three channels whose range
fields are seeded with the extremes of `int`: `MinRgb = 2147483647` and
`MaxRgb = -2147483648`. -/
def extremeSeedInfo : HairInpaintInfo Binary32 :=
  { Dt := Binary32.ofRat (1 / 10), Cw := Binary32.finite 4, MinRgb := fun _ => 2147483647,
    MaxRgb := fun _ => -2147483648, Width := 3, Height := 3, Channels := 3, Rescale := 1,
    NumberOfC1Elements := 9, NumberOfC3Elements := 27, Iters := 1 }

/-! ## Loop rules -/

theorem forLoop_of_le {σ : Type} (lo hi : Int) (body : Int → σ → σ) (s : σ) (h : hi ≤ lo) :
    forLoop lo hi body s = s := by
  have h0 : (hi - lo).toNat = 0 := by omega
  simp [forLoop, h0]

theorem forLoop_succ {σ : Type} (lo hi : Int) (body : Int → σ → σ) (s : σ) (h : lo ≤ hi) :
    forLoop lo (hi + 1) body s = body hi (forLoop lo hi body s) := by
  have h0 : (hi + 1 - lo).toNat = (hi - lo).toNat + 1 := by omega
  have h1 : lo + (((hi - lo).toNat : Nat) : Int) = hi := by omega
  unfold forLoop
  rw [h0, List.range_succ, List.foldl_append, List.foldl_cons, List.foldl_nil, h1]

/-- Invariant rule: a property that every iteration preserves holds after the
loop. -/
theorem forLoop_inv {σ : Type} (Q : σ → Prop) (lo hi : Int) (body : Int → σ → σ) (s : σ)
    (h0 : Q s) (hstep : ∀ i t, lo ≤ i → i < hi → Q t → Q (body i t)) :
    Q (forLoop lo hi body s) := by
  by_cases hle : hi ≤ lo
  · rw [forLoop_of_le _ _ _ _ hle]; exact h0
  · have key : ∀ n : Nat, lo + n ≤ hi → Q (forLoop lo (lo + n) body s) := by
      intro n
      induction n with
      | zero => intro _; rw [forLoop_of_le _ _ _ _ (by simp)]; exact h0
      | succ m ih =>
        intro hm
        have : lo + ((m + 1 : Nat) : Int) = (lo + m) + 1 := by push_cast; ring
        rw [this, forLoop_succ _ _ _ _ (by omega)]
        exact hstep _ _ (by omega) (by omega) (ih (by omega))
    have := key (hi - lo).toNat (by omega)
    have e : lo + (((hi - lo).toNat : Nat) : Int) = hi := by omega
    rwa [e] at this

theorem forLoop_split {σ : Type} (lo mid hi : Int) (body : Int → σ → σ) (s : σ)
    (h1 : lo ≤ mid) (h2 : mid ≤ hi) :
    forLoop lo hi body s = forLoop mid hi body (forLoop lo mid body s) := by
  have key : ∀ n : Nat,
      forLoop lo (mid + n) body s = forLoop mid (mid + n) body (forLoop lo mid body s) := by
    intro n
    induction n with
    | zero => rw [forLoop_of_le mid _ body _ (by simp)]; simp
    | succ m ih =>
      have : mid + ((m + 1 : Nat) : Int) = (mid + m) + 1 := by push_cast; ring
      rw [this, forLoop_succ _ _ _ _ (by omega), forLoop_succ _ _ _ _ (by omega), ih]
  have := key (hi - mid).toNat
  have e : mid + (((hi - mid).toNat : Nat) : Int) = hi := by omega
  rwa [e] at this

/-- Splitting a loop around the iteration `i0`. -/
theorem forLoop_around {σ : Type} (lo i0 hi : Int) (body : Int → σ → σ) (s : σ)
    (h1 : lo ≤ i0) (h2 : i0 < hi) :
    forLoop lo hi body s = forLoop (i0 + 1) hi body (body i0 (forLoop lo i0 body s)) := by
  rw [forLoop_split lo (i0 + 1) hi body s (by omega) (by omega),
    forLoop_succ _ _ _ _ h1]

/-- Hit rule: what iteration `i0` establishes and the later iterations
preserve holds after the loop; `Q` is an invariant of all iterations. -/
theorem forLoop_hit {σ : Type} (Q R : σ → Prop) (lo i0 hi : Int) (body : Int → σ → σ) (s : σ)
    (h1 : lo ≤ i0) (h2 : i0 < hi) (h0 : Q s)
    (hQ : ∀ i t, lo ≤ i → i < hi → Q t → Q (body i t))
    (hest : ∀ t, Q t → R (body i0 t))
    (hpres : ∀ i t, i0 < i → i < hi → Q t → R t → R (body i t)) :
    R (forLoop lo hi body s) := by
  rw [forLoop_around lo i0 hi body s h1 h2]
  have hq0 : Q (forLoop lo i0 body s) :=
    forLoop_inv Q lo i0 body s h0 (fun i t a b c => hQ i t a (by omega) c)
  have := forLoop_inv (fun t => Q t ∧ R t) (i0 + 1) hi body (body i0 (forLoop lo i0 body s))
    ⟨hQ i0 _ h1 h2 hq0, hest _ hq0⟩
    (fun i t a b c => ⟨hQ i t (by omega) b c.1, hpres i t (by omega) b c.1 c.2⟩)
  exact this.2

theorem strideLoop_fix {σ : Type} (fuel : Nat) (n : Int) (body : Int → σ → σ) (s : σ)
    (hn : n ≠ 1) (hf : 3 ≤ fuel) :
    strideLoop fuel 0 n (n - 1) body s =
      some (if 2 ≤ n then body (n - 1) (body 0 s) else s) := by
  obtain ⟨f, rfl⟩ : ∃ f, fuel = f + 3 := ⟨fuel - 3, by omega⟩
  by_cases h2 : 2 ≤ n
  · have a : (0 : Int) < n := by omega
    have b : n - 1 < n := by omega
    have c : ¬ (n - 1 + (n - 1) < n) := by omega
    simp [strideLoop, a, b, c, h2]
  · have a : ¬ ((0 : Int) < n) := by omega
    simp [strideLoop, a, h2]

theorem strideLoop_stuck {σ : Type} (fuel : Nat) (x : Int) (body : Int → σ → σ) (s : σ)
    (hx : x < 1) : strideLoop fuel x 1 0 body s = none := by
  induction fuel generalizing s with
  | zero => rfl
  | succ f ih => simp [strideLoop, hx, ih]

/-! ## Index arithmetic -/

theorem idx2_lt (w a x a' x' : Int) (hx : 0 ≤ x) (hx0 : 0 ≤ x') (hx' : x' < w) (h : a' < a) :
    a' * w + x' < a * w + x := by
  have hw : 0 ≤ w := by omega
  nlinarith [mul_le_mul_of_nonneg_right (show a' + 1 ≤ a by omega) hw]

theorem idx2_inj (w a x a' x' : Int) (hx : 0 ≤ x) (hxw : x < w) (hx' : 0 ≤ x') (hxw' : x' < w)
    (h : a * w + x = a' * w + x') : a = a' ∧ x = x' := by
  rcases lt_trichotomy a a' with hlt | heq | hgt
  · have := idx2_lt w a' x' a x hx' hx hxw hlt; omega
  · subst heq; exact ⟨rfl, by omega⟩
  · have := idx2_lt w a x a' x' hx hx' hxw' hgt; omega

theorem idx3_inj (w h k y x k' y' x' : Int) (hx : 0 ≤ x) (hxw : x < w) (hx' : 0 ≤ x')
    (hxw' : x' < w) (hy : 0 ≤ y) (hyh : y < h) (hy' : 0 ≤ y') (hyh' : y' < h)
    (e : k * w * h + (y * w + x) = k' * w * h + (y' * w + x')) :
    k = k' ∧ y = y' ∧ x = x' := by
  have e1 : (k * h + y) * w + x = (k' * h + y') * w + x' := by linarith [e, (by ring : (k * h + y) * w + x = k * w * h + (y * w + x)), (by ring : (k' * h + y') * w + x' = k' * w * h + (y' * w + x'))]
  obtain ⟨e2, e3⟩ := idx2_inj w _ x _ x' hx hxw hx' hxw' e1
  obtain ⟨e4, e5⟩ := idx2_inj h k y k' y' hy hyh hy' hyh' e2
  exact ⟨e4, e5, e3⟩

/-- Invariant rule for two nested loops. -/
theorem forLoop2_inv {σ : Type} (Q : σ → Prop) (ly hy lx hx : Int) (f : Int → Int → σ → σ)
    (s : σ) (h0 : Q s)
    (hQ : ∀ y x t, ly ≤ y → y < hy → lx ≤ x → x < hx → Q t → Q (f y x t)) :
    Q (forLoop ly hy (fun y s => forLoop lx hx (fun x s => f y x s) s) s) :=
  forLoop_inv Q ly hy _ s h0 (fun y t a b c =>
    forLoop_inv Q lx hx _ t c (fun x u d e g => hQ y x u a b d e g))

/-- Hit rule for two nested loops. -/
theorem forLoop2_hit {σ : Type} (Q R : σ → Prop) (ly hy lx hx y0 x0 : Int)
    (f : Int → Int → σ → σ) (s : σ)
    (hy1 : ly ≤ y0) (hy2 : y0 < hy) (hx1 : lx ≤ x0) (hx2 : x0 < hx) (h0 : Q s)
    (hQ : ∀ y x t, ly ≤ y → y < hy → lx ≤ x → x < hx → Q t → Q (f y x t))
    (hest : ∀ t, Q t → R (f y0 x0 t))
    (hpres : ∀ y x t, ly ≤ y → y < hy → lx ≤ x → x < hx → (y ≠ y0 ∨ x ≠ x0) →
      Q t → R t → R (f y x t)) :
    R (forLoop ly hy (fun y s => forLoop lx hx (fun x s => f y x s) s) s) := by
  refine forLoop_hit Q R ly y0 hy _ s hy1 hy2 h0 ?_ ?_ ?_
  · intro y t a b c
    exact forLoop_inv Q lx hx _ t c (fun x u d e g => hQ y x u a b d e g)
  · intro t ht
    exact forLoop_hit Q R lx x0 hx _ t hx1 hx2 ht (fun x u d e g => hQ y0 x u hy1 hy2 d e g)
      hest (fun x u d e g r => hpres y0 x u hy1 hy2 (by omega) e (Or.inr (by omega)) g r)
  · intro y t a b c r
    have := forLoop_inv (fun u => Q u ∧ R u) lx hx (fun x s => f y x s) t ⟨c, r⟩
      (fun x u d e g => ⟨hQ y x u (by omega) b d e g.1,
        hpres y x u (by omega) b d e (Or.inl (by omega)) g.1 g.2⟩)
    exact this.2

/-! ## normalizeImage: the channel loop -/

section Normalize
variable {F : Type}

theorem store_same {α : Type} (b : Int → α) (i : Int) (v : α) : store b i v i = v := by
  simp [store]

theorem store_other {α : Type} (b : Int → α) (i j : Int) (v : α) (h : j ≠ i) :
    store b i v j = b j := by
  simp [store, h]

theorem buildMask_hit (ops : FloatOps F) (width height : Int) (src_mask_ptr : Int → UChar)
    (dstMask : Int → F) (i : Int) (h0 : 0 ≤ i) (h1 : i < height * width) :
    buildMask ops width height src_mask_ptr dstMask i =
      if src_mask_ptr i ≠ 0 then ops.zero else ops.one := by
  unfold buildMask
  refine forLoop_hit (fun (_ : Int → F) => True)
    (fun (m : Int → F) => m i = if src_mask_ptr i ≠ 0 then ops.zero else ops.one) 0 i _ _ _ h0 h1 trivial
    (fun _ _ _ _ _ => trivial) ?_ ?_
  · intro t _
    exact store_same _ _ _
  · intro i' t hi _ _ ht
    rw [store_other _ _ _ _ (by omega)]
    exact ht

theorem fixPixel_dstImage (width height k y x : Int) (p : Planes F) :
    (fixPixel width height k y x p).dstImage = p.dstImage := rfl

theorem fixPixel_dstMask (width height k y x : Int) (p : Planes F) :
    (fixPixel width height k y x p).dstMask = p.dstMask := rfl

theorem fixPixel_agree (width height k y x j : Int) (p : Planes F)
    (h : p.dstMaskImage j = p.dstImage j) :
    (fixPixel width height k y x p).dstMaskImage j = (fixPixel width height k y x p).dstImage j := by
  unfold fixPixel
  by_cases e : j = k * width * height + (y * width + x)
  · subst e; simp [store]
  · simp [store, e, h]

theorem fixPixel_hit (width height k y x : Int) (p : Planes F) :
    (fixPixel width height k y x p).dstMaskImage (k * width * height + (y * width + x)) =
      (fixPixel width height k y x p).dstImage (k * width * height + (y * width + x)) := by
  simp [fixPixel, store]

theorem fixPixel_frame (width height k y x j : Int) (p : Planes F)
    (h : j ≠ k * width * height + (y * width + x)) :
    (fixPixel width height k y x p).dstMaskImage j = p.dstMaskImage j := by
  simp [fixPixel, store, h]

end Normalize

section NormalizeLoops
variable {F : Type}

theorem fixColumn_dstImage (width height k x : Int) (p : Planes F) :
    (fixColumn width height k x p).dstImage = p.dstImage :=
  forLoop_inv (fun (t : Planes F) => t.dstImage = p.dstImage) 0 height _ p rfl
    (fun _ _ _ _ h => h)

theorem fixColumn_dstMask (width height k x : Int) (p : Planes F) :
    (fixColumn width height k x p).dstMask = p.dstMask :=
  forLoop_inv (fun (t : Planes F) => t.dstMask = p.dstMask) 0 height _ p rfl
    (fun _ _ _ _ h => h)

theorem fixColumn_agree (width height k x j : Int) (p : Planes F)
    (h : p.dstMaskImage j = p.dstImage j) :
    (fixColumn width height k x p).dstMaskImage j = (fixColumn width height k x p).dstImage j :=
  forLoop_inv (fun (t : Planes F) => t.dstMaskImage j = t.dstImage j) 0 height _ p h
    (fun y t _ _ ht => fixPixel_agree width height k y x j t ht)

theorem fixColumn_hit (width height k x y0 : Int) (p : Planes F) (h0 : 0 ≤ y0)
    (h1 : y0 < height) :
    (fixColumn width height k x p).dstMaskImage (k * width * height + (y0 * width + x)) =
      (fixColumn width height k x p).dstImage (k * width * height + (y0 * width + x)) :=
  forLoop_hit (fun (_ : Planes F) => True)
    (fun (t : Planes F) => t.dstMaskImage (k * width * height + (y0 * width + x)) =
      t.dstImage (k * width * height + (y0 * width + x))) 0 y0 height _ p h0 h1 trivial
    (fun _ _ _ _ _ => trivial) (fun t _ => fixPixel_hit width height k y0 x t)
    (fun y t _ _ _ ht => fixPixel_agree width height k y x _ t ht)

theorem fixColumn_frame (width height k x j : Int) (p : Planes F)
    (h : ∀ y, 0 ≤ y → y < height → j ≠ k * width * height + (y * width + x)) :
    (fixColumn width height k x p).dstMaskImage j = p.dstMaskImage j :=
  forLoop_inv (fun (t : Planes F) => t.dstMaskImage j = p.dstMaskImage j) 0 height _ p rfl
    (fun y t a b ht => (fixPixel_frame width height k y x j t (h y a b)).trans ht)

theorem fixRow_dstImage (width height k y : Int) (p : Planes F) :
    (fixRow width height k y p).dstImage = p.dstImage :=
  forLoop_inv (fun (t : Planes F) => t.dstImage = p.dstImage) 0 width _ p rfl
    (fun _ _ _ _ h => h)

theorem fixRow_dstMask (width height k y : Int) (p : Planes F) :
    (fixRow width height k y p).dstMask = p.dstMask :=
  forLoop_inv (fun (t : Planes F) => t.dstMask = p.dstMask) 0 width _ p rfl
    (fun _ _ _ _ h => h)

theorem fixRow_agree (width height k y j : Int) (p : Planes F)
    (h : p.dstMaskImage j = p.dstImage j) :
    (fixRow width height k y p).dstMaskImage j = (fixRow width height k y p).dstImage j :=
  forLoop_inv (fun (t : Planes F) => t.dstMaskImage j = t.dstImage j) 0 width _ p h
    (fun x t _ _ ht => fixPixel_agree width height k y x j t ht)

theorem fixRow_hit (width height k y x0 : Int) (p : Planes F) (h0 : 0 ≤ x0)
    (h1 : x0 < width) :
    (fixRow width height k y p).dstMaskImage (k * width * height + (y * width + x0)) =
      (fixRow width height k y p).dstImage (k * width * height + (y * width + x0)) :=
  forLoop_hit (fun (_ : Planes F) => True)
    (fun (t : Planes F) => t.dstMaskImage (k * width * height + (y * width + x0)) =
      t.dstImage (k * width * height + (y * width + x0))) 0 x0 width _ p h0 h1 trivial
    (fun _ _ _ _ _ => trivial) (fun t _ => fixPixel_hit width height k y x0 t)
    (fun x t _ _ _ ht => fixPixel_agree width height k y x _ t ht)

theorem fixRow_frame (width height k y j : Int) (p : Planes F)
    (h : ∀ x, 0 ≤ x → x < width → j ≠ k * width * height + (y * width + x)) :
    (fixRow width height k y p).dstMaskImage j = p.dstMaskImage j :=
  forLoop_inv (fun (t : Planes F) => t.dstMaskImage j = p.dstMaskImage j) 0 width _ p rfl
    (fun x t a b ht => (fixPixel_frame width height k y x j t (h x a b)).trans ht)

theorem fixColumns_eq (fuel : Nat) (width height k : Int) (p : Planes F) (hw : width ≠ 1)
    (hf : 3 ≤ fuel) :
    fixColumns fuel width height k p =
      some (if 2 ≤ width then
        fixColumn width height k (width - 1) (fixColumn width height k 0 p) else p) :=
  strideLoop_fix fuel width _ p hw hf

theorem fixRows_eq (fuel : Nat) (width height k : Int) (p : Planes F) (hh : height ≠ 1)
    (hf : 3 ≤ fuel) :
    fixRows fuel width height k p =
      some (if 2 ≤ height then
        fixRow width height k (height - 1) (fixRow width height k 0 p) else p) :=
  strideLoop_fix fuel height _ p hh hf

theorem fillChannel_dstMask (ops : FloatOps F) (width height : Int)
    (src_image_ptr : Int → UChar) (range_list : Int → Int) (info : HairInpaintInfo F)
    (k : Int) (p : Planes F) :
    (fillChannel ops width height src_image_ptr range_list info k p).dstMask = p.dstMask :=
  forLoop2_inv (fun (t : Planes F) => t.dstMask = p.dstMask) 0 height 0 width _ p rfl
    (fun _ _ _ _ _ _ _ h => h)

theorem fillChannel_frame (ops : FloatOps F) (width height : Int)
    (src_image_ptr : Int → UChar) (range_list : Int → Int) (info : HairInpaintInfo F)
    (k j : Int) (p : Planes F)
    (h : ∀ y x, 0 ≤ y → y < height → 0 ≤ x → x < width →
      j ≠ k * width * height + (y * width + x)) :
    (fillChannel ops width height src_image_ptr range_list info k p).dstImage j = p.dstImage j ∧
    (fillChannel ops width height src_image_ptr range_list info k p).dstMaskImage j =
      p.dstMaskImage j :=
  forLoop2_inv (fun (t : Planes F) => t.dstImage j = p.dstImage j ∧
      t.dstMaskImage j = p.dstMaskImage j) 0 height 0 width _ p ⟨rfl, rfl⟩
    (fun y x t a b c d ht => by
      have hne := h y x a b c d
      exact ⟨by simp only [store_other _ _ _ _ hne]; exact ht.1,
        by simp only [store_other _ _ _ _ hne]; exact ht.2⟩)

theorem fillChannel_hit (ops : FloatOps F) (width height : Int)
    (src_image_ptr : Int → UChar) (range_list : Int → Int) (info : HairInpaintInfo F)
    (k y0 x0 : Int) (p : Planes F) (hy0 : 0 ≤ y0) (hy1 : y0 < height) (hx0 : 0 ≤ x0)
    (hx1 : x0 < width) :
    (fillChannel ops width height src_image_ptr range_list info k p).dstImage
        (k * width * height + (y0 * width + x0)) =
      normalizedValue ops width src_image_ptr range_list info k y0 x0 ∧
    (fillChannel ops width height src_image_ptr range_list info k p).dstMaskImage
        (k * width * height + (y0 * width + x0)) =
      (if ops.gt (p.dstMask (y0 * width + x0)) ops.zero then
        normalizedValue ops width src_image_ptr range_list info k y0 x0 else ops.one) := by
  refine forLoop2_hit (fun (t : Planes F) => t.dstMask = p.dstMask)
    (fun (t : Planes F) => t.dstImage (k * width * height + (y0 * width + x0)) =
        normalizedValue ops width src_image_ptr range_list info k y0 x0 ∧
      t.dstMaskImage (k * width * height + (y0 * width + x0)) =
        (if ops.gt (p.dstMask (y0 * width + x0)) ops.zero then
          normalizedValue ops width src_image_ptr range_list info k y0 x0 else ops.one))
    0 height 0 width y0 x0 _ p hy0 hy1 hx0 hx1 rfl (fun _ _ _ _ _ _ _ h => h) ?_ ?_
  · intro t ht
    simp only [store_same, ht, and_self]
  · intro y x t a b c d hne _ hr
    have hidx : k * width * height + (y0 * width + x0) ≠ k * width * height + (y * width + x) := by
      intro e
      obtain ⟨_, e1, e2⟩ := idx3_inj width height k y0 x0 k y x hx0 hx1 c d hy0 hy1 a b e
      rcases hne with hne | hne
      · exact hne e1.symm
      · exact hne e2.symm
    exact ⟨by simp only [store_other _ _ _ _ hidx]; exact hr.1,
      by simp only [store_other _ _ _ _ hidx]; exact hr.2⟩

end NormalizeLoops

section NormalizeChannel
variable {F : Type}

theorem normalizeChannel_eq (ops : FloatOps F) (fuel : Nat) (width height : Int)
    (src_image_ptr : Int → UChar) (range_list : Int → Int) (info : HairInpaintInfo F)
    (k : Int) (p : Planes F) (hw : width ≠ 1) (hh : height ≠ 1) (hf : 3 ≤ fuel) :
    normalizeChannel ops fuel width height src_image_ptr range_list info k p =
      some (channelResult ops width height src_image_ptr range_list info k p) := by
  unfold normalizeChannel channelResult
  rw [fixColumns_eq fuel width height k _ hw hf, Option.some_bind,
    fixRows_eq fuel width height k _ hh hf]

theorem normalizeImage_eq (ops : FloatOps F) (fuel : Nat) (width height : Int)
    (src_image_ptr src_mask_ptr : Int → UChar) (dstImage dstMask dstMaskImage : Int → F)
    (info : HairInpaintInfo F) (hw : width ≠ 1) (hh : height ≠ 1) (hf : 3 ≤ fuel) :
    normalizeImage ops fuel width height src_image_ptr src_mask_ptr dstImage dstMask
        dstMaskImage info =
      some
        (channelResult ops width height src_image_ptr
          (fun k => (scanRange width height src_image_ptr info).MaxRgb k -
            (scanRange width height src_image_ptr info).MinRgb k)
          (scanRange width height src_image_ptr info) 2
          (channelResult ops width height src_image_ptr
            (fun k => (scanRange width height src_image_ptr info).MaxRgb k -
              (scanRange width height src_image_ptr info).MinRgb k)
            (scanRange width height src_image_ptr info) 1
            (channelResult ops width height src_image_ptr
              (fun k => (scanRange width height src_image_ptr info).MaxRgb k -
                (scanRange width height src_image_ptr info).MinRgb k)
              (scanRange width height src_image_ptr info) 0
              { dstImage := dstImage
                dstMask := buildMask ops width height src_mask_ptr dstMask
                dstMaskImage := dstMaskImage })),
          scanRange width height src_image_ptr info) := by
  unfold normalizeImage forLoopM
  have e : ((3 : Int) - 0).toNat = 3 := rfl
  simp only [e, List.range_succ, List.range_zero, List.nil_append, List.cons_append,
    List.foldlM_cons, List.foldlM_nil]
  simp [normalizeChannel_eq _ _ _ _ _ _ _ _ _ hw hh hf]

theorem channelResult_dstMask (ops : FloatOps F) (width height : Int)
    (src_image_ptr : Int → UChar) (range_list : Int → Int) (info : HairInpaintInfo F)
    (k : Int) (p : Planes F) :
    (channelResult ops width height src_image_ptr range_list info k p).dstMask = p.dstMask := by
  unfold channelResult
  split_ifs <;>
    simp only [fixRow_dstMask, fixColumn_dstMask, fillChannel_dstMask]

theorem channelResult_dstImage (ops : FloatOps F) (width height : Int)
    (src_image_ptr : Int → UChar) (range_list : Int → Int) (info : HairInpaintInfo F)
    (k : Int) (p : Planes F) :
    (channelResult ops width height src_image_ptr range_list info k p).dstImage =
      (fillChannel ops width height src_image_ptr range_list info k p).dstImage := by
  unfold channelResult
  split_ifs <;> simp only [fixRow_dstImage, fixColumn_dstImage]

/-- The channel loop body keeps an agreement of the two planes at an index
outside the plane of channel `k`. -/
theorem channelResult_agree (ops : FloatOps F) (width height : Int)
    (src_image_ptr : Int → UChar) (range_list : Int → Int) (info : HairInpaintInfo F)
    (k j : Int) (p : Planes F)
    (hj : ∀ y x, 0 ≤ y → y < height → 0 ≤ x → x < width →
      j ≠ k * width * height + (y * width + x))
    (h : p.dstMaskImage j = p.dstImage j) :
    (channelResult ops width height src_image_ptr range_list info k p).dstMaskImage j =
      (channelResult ops width height src_image_ptr range_list info k p).dstImage j := by
  have h1 : (fillChannel ops width height src_image_ptr range_list info k p).dstMaskImage j =
      (fillChannel ops width height src_image_ptr range_list info k p).dstImage j := by
    obtain ⟨a, b⟩ := fillChannel_frame ops width height src_image_ptr range_list info k j p hj
    rw [a, b]; exact h
  unfold channelResult
  split_ifs
  · exact fixRow_agree _ _ _ _ _ _ (fixRow_agree _ _ _ _ _ _
      (fixColumn_agree _ _ _ _ _ _ (fixColumn_agree _ _ _ _ _ _ h1)))
  · exact fixColumn_agree _ _ _ _ _ _ (fixColumn_agree _ _ _ _ _ _ h1)
  · exact fixRow_agree _ _ _ _ _ _ (fixRow_agree _ _ _ _ _ _ h1)
  · exact h1

/-- After the channel loop body for channel `k` the two planes agree on the
border of the plane of channel `k`. -/
theorem channelResult_border (ops : FloatOps F) (width height : Int)
    (src_image_ptr : Int → UChar) (range_list : Int → Int) (info : HairInpaintInfo F)
    (k y x : Int) (p : Planes F) (hy0 : 0 ≤ y) (hy1 : y < height) (hx0 : 0 ≤ x) (hx1 : x < width)
    (hw : width ≠ 1) (hh : height ≠ 1)
    (hb : y = 0 ∨ y = height - 1 ∨ x = 0 ∨ x = width - 1) :
    (channelResult ops width height src_image_ptr range_list info k p).dstMaskImage
        (k * width * height + (y * width + x)) =
      (channelResult ops width height src_image_ptr range_list info k p).dstImage
        (k * width * height + (y * width + x)) := by
  have hw2 : 2 ≤ width := by omega
  have hh2 : 2 ≤ height := by omega
  unfold channelResult
  simp only [hw2, hh2, if_true]
  rcases hb with hb | hb | hb | hb
  · subst hb
    exact fixRow_agree _ _ _ _ _ _ (fixRow_hit _ _ _ _ _ _ hx0 hx1)
  · subst hb
    exact fixRow_hit _ _ _ _ _ _ hx0 hx1
  · subst hb
    exact fixRow_agree _ _ _ _ _ _ (fixRow_agree _ _ _ _ _ _
      (fixColumn_agree _ _ _ _ _ _ (fixColumn_hit _ _ _ _ _ _ hy0 hy1)))
  · subst hb
    exact fixRow_agree _ _ _ _ _ _ (fixRow_agree _ _ _ _ _ _
      (fixColumn_hit _ _ _ _ _ _ hy0 hy1))

end NormalizeChannel

section NormalizeChannel2
variable {F : Type}

theorem idx_nonneg (w y x : Int) (hy : 0 ≤ y) (hx0 : 0 ≤ x) (hx1 : x < w) : 0 ≤ y * w + x := by
  have : 0 ≤ y * w := mul_nonneg hy (by omega)
  omega

theorem idx_lt (w h y x : Int) (hy : y < h) (hx0 : 0 ≤ x) (hx1 : x < w) :
    y * w + x < h * w := by
  have := idx2_lt w h 0 y x (le_refl 0) hx0 hx1 hy
  omega

/-- The channel loop body for channel `k` leaves the masked-source plane
unchanged outside the plane of channel `k`. -/
theorem channelResult_frame (ops : FloatOps F) (width height : Int)
    (src_image_ptr : Int → UChar) (range_list : Int → Int) (info : HairInpaintInfo F)
    (k j : Int) (p : Planes F)
    (hj : ∀ y x, 0 ≤ y → y < height → 0 ≤ x → x < width →
      j ≠ k * width * height + (y * width + x)) :
    (channelResult ops width height src_image_ptr range_list info k p).dstMaskImage j =
      p.dstMaskImage j := by
  have h1 := (fillChannel_frame ops width height src_image_ptr range_list info k j p hj).2
  unfold channelResult
  split_ifs with hw hh hh
  · rw [fixRow_frame _ _ _ _ _ _ (fun x a b => hj _ x (by omega) (by omega) a b),
      fixRow_frame _ _ _ _ _ _ (fun x a b => hj _ x (by omega) (by omega) a b),
      fixColumn_frame _ _ _ _ _ _ (fun y a b => hj y _ a b (by omega) (by omega)),
      fixColumn_frame _ _ _ _ _ _ (fun y a b => hj y _ a b (by omega) (by omega)), h1]
  · rw [fixColumn_frame _ _ _ _ _ _ (fun y a b => hj y _ a b (by omega) (by omega)),
      fixColumn_frame _ _ _ _ _ _ (fun y a b => hj y _ a b (by omega) (by omega)), h1]
  · rw [fixRow_frame _ _ _ _ _ _ (fun x a b => hj _ x (by omega) (by omega) a b),
      fixRow_frame _ _ _ _ _ _ (fun x a b => hj _ x (by omega) (by omega) a b), h1]
  · exact h1

/-- After the channel loop body for channel `k` an interior pixel of channel
`k` holds what line 35 stored. -/
theorem channelResult_interior (ops : FloatOps F) (width height : Int)
    (src_image_ptr : Int → UChar) (range_list : Int → Int) (info : HairInpaintInfo F)
    (k y x : Int) (p : Planes F) (hy0 : 1 ≤ y) (hy1 : y ≤ height - 2) (hx0 : 1 ≤ x)
    (hx1 : x ≤ width - 2) :
    (channelResult ops width height src_image_ptr range_list info k p).dstMaskImage
        (k * width * height + (y * width + x)) =
      (if ops.gt (p.dstMask (y * width + x)) ops.zero then
        normalizedValue ops width src_image_ptr range_list info k y x else ops.one) := by
  have hfill := (fillChannel_hit ops width height src_image_ptr range_list info k y x p
    (by omega) (by omega) (by omega) (by omega)).2
  have hcol : ∀ x', (x' = 0 ∨ x' = width - 1) → ∀ y', 0 ≤ y' → y' < height →
      k * width * height + (y * width + x) ≠ k * width * height + (y' * width + x') := by
    intro x' hx' y' a b e
    have := (idx3_inj width height k y x k y' x' (by omega) (by omega) (by omega) (by omega)
      (by omega) (by omega) a b e).2.2
    omega
  have hrow : ∀ y', (y' = 0 ∨ y' = height - 1) → ∀ x', 0 ≤ x' → x' < width →
      k * width * height + (y * width + x) ≠ k * width * height + (y' * width + x') := by
    intro y' hy' x' a b e
    have := (idx3_inj width height k y x k y' x' (by omega) (by omega) a b
      (by omega) (by omega) (by omega) (by omega) e).2.1
    omega
  have hw2 : 2 ≤ width := by omega
  have hh2 : 2 ≤ height := by omega
  unfold channelResult
  simp only [hw2, hh2, if_true]
  rw [fixRow_frame _ _ _ _ _ _ (hrow _ (Or.inr rfl)), fixRow_frame _ _ _ _ _ _ (hrow _ (Or.inl rfl)),
    fixColumn_frame _ _ _ _ _ _ (hcol _ (Or.inr rfl)),
    fixColumn_frame _ _ _ _ _ _ (hcol _ (Or.inl rfl)), hfill]

end NormalizeChannel2

theorem normalizeImage_dstMask {F : Type} (ops : FloatOps F) (fuel : Nat) (width height : Int)
    (src_image_ptr src_mask_ptr : Int → UChar) (dstImage dstMask dstMaskImage : Int → F)
    (info : HairInpaintInfo F) (hw : width ≠ 1) (hh : height ≠ 1) (hf : 3 ≤ fuel) :
    ∃ r, normalizeImage ops fuel width height src_image_ptr src_mask_ptr dstImage dstMask
        dstMaskImage info = some r ∧
      r.1.dstMask = buildMask ops width height src_mask_ptr dstMask := by
  refine ⟨_, normalizeImage_eq ops fuel width height src_image_ptr src_mask_ptr dstImage dstMask
    dstMaskImage info hw hh hf, ?_⟩
  simp only [channelResult_dstMask]

/-! ## The solver: frame rules -/

section SolverFrame
variable {F : Type}

theorem updatePixel_frame (ops : FloatOps F) (mask src : Int → F) (info : HairInpaintInfo F)
    (off y x j : Int) (dst : Int → F) (h : j ≠ off + (y * info.Width + x)) :
    updatePixel ops mask src info off y x dst j = dst j := by
  unfold updatePixel
  exact store_other _ _ _ _ h

/-- A run of pixel updates along row `y` changes no index it does not visit. -/
theorem columns_frame (ops : FloatOps F) (mask src : Int → F) (info : HairInpaintInfo F)
    (off y a b j : Int) (dst : Int → F)
    (h : ∀ x, a ≤ x → x < b → j ≠ off + (y * info.Width + x)) :
    forLoop a b (fun x d => updatePixel ops mask src info off y x d) dst j = dst j :=
  forLoop_inv (fun (t : Int → F) => t j = dst j) a b _ dst rfl
    (fun x t h1 h2 ht => (updatePixel_frame ops mask src info off y x j t (h x h1 h2)).trans ht)

theorem scalarRow_frame (ops : FloatOps F) (mask src : Int → F) (info : HairInpaintInfo F)
    (k y j : Int) (dst : Int → F)
    (h : ∀ x, 1 ≤ x → x < info.Width - 1 →
      j ≠ k * info.Width * info.Height + (y * info.Width + x)) :
    scalarRow ops mask src info k y dst j = dst j :=
  columns_frame ops mask src info _ y 1 (info.Width - 1) j dst h

/-- A run of row sweeps changes no index outside the interior of the rows it
visits. -/
theorem rows_frame (ops : FloatOps F) (mask src : Int → F) (info : HairInpaintInfo F)
    (k a b j : Int) (dst : Int → F)
    (h : ∀ y x, a ≤ y → y < b → 1 ≤ x → x < info.Width - 1 →
      j ≠ k * info.Width * info.Height + (y * info.Width + x)) :
    forLoop a b (scalarRow ops mask src info k) dst j = dst j :=
  forLoop_inv (fun (t : Int → F) => t j = dst j) a b _ dst rfl
    (fun y t h1 h2 ht =>
      (scalarRow_frame ops mask src info k y j t (fun x a b => h y x h1 h2 a b)).trans ht)

theorem sweepChannel_frame (ops : FloatOps F) (mask src : Int → F) (info : HairInpaintInfo F)
    (k j : Int) (dst : Int → F)
    (h : ∀ y x, 1 ≤ y → y < info.Height - 1 → 1 ≤ x → x < info.Width - 1 →
      j ≠ k * info.Width * info.Height + (y * info.Width + x)) :
    sweepChannel ops mask src info k dst j = dst j :=
  rows_frame ops mask src info k 1 (info.Height - 1) j dst h

/-- The solver is the iteration of the channel sweeps. -/
theorem PDEHeatDiffusionCPU_eq (ops : FloatOps F) (mask src dst : Int → F) (ch : Int)
    (info : HairInpaintInfo F) :
    PDEHeatDiffusionCPU ops mask src dst ch info =
      forLoop 0 info.Iters (fun _ d =>
        forLoop 0 ch (fun k d => sweepChannel ops mask src info k d) d) dst := rfl

/-- The solver changes no index outside the interiors of the planes of the
channels `0 ≤ k < ch`. -/
theorem PDEHeatDiffusionCPU_frame (ops : FloatOps F) (mask src dst : Int → F) (ch : Int)
    (info : HairInpaintInfo F) (j : Int)
    (h : ∀ k y x, 0 ≤ k → k < ch → 1 ≤ y → y < info.Height - 1 → 1 ≤ x → x < info.Width - 1 →
      j ≠ k * info.Width * info.Height + (y * info.Width + x)) :
    PDEHeatDiffusionCPU ops mask src dst ch info j = dst j := by
  rw [PDEHeatDiffusionCPU_eq]
  exact forLoop2_inv (fun (t : Int → F) => t j = dst j) 0 info.Iters 0 ch
    (fun _ k d => sweepChannel ops mask src info k d) dst rfl
    (fun _ k t _ _ h1 h2 ht =>
      (sweepChannel_frame ops mask src info k j t (fun y x a b c d => h k y x h1 h2 a b c d)).trans
        ht)

/-- Two pixels of one plane with different coordinates have different
indices. -/
theorem cell_ne (w off y x y' x' : Int) (hx0 : 0 ≤ x) (hx1 : x < w) (hx0' : 0 ≤ x')
    (hx1' : x' < w) (h : y ≠ y' ∨ x ≠ x') : off + (y * w + x) ≠ off + (y' * w + x') := by
  intro e
  obtain ⟨e1, e2⟩ := idx2_inj w y x y' x' hx0 hx1 hx0' hx1' (by omega)
  rcases h with h | h
  · exact h e1
  · exact h e2

end SolverFrame

section SolverValue
variable {F : Type}

/-- The value that the update of pixel `(y, x)` stores, in terms of the buffer
before the update. -/
theorem updatePixel_self (ops : FloatOps F) (mask src : Int → F) (info : HairInpaintInfo F)
    (off y x : Int) (dst : Int → F) :
    updatePixel ops mask src info off y x dst (off + (y * info.Width + x)) =
      ops.sub
        (ops.add (dst (off + (y * info.Width + x)))
          (ops.mul info.Dt
            (ops.sub
              (ops.add
                (ops.add
                  (ops.add (dst (off + ((y - 1) * info.Width + x)))
                    (dst (off + ((y + 1) * info.Width + x))))
                  (dst (off + (y * info.Width + (x - 1)))))
                (dst (off + (y * info.Width + (x + 1)))))
              (ops.mul info.Cw (dst (off + (y * info.Width + x)))))))
        (ops.mul (ops.mul info.Dt (mask (y * info.Width + x)))
          (ops.sub (dst (off + (y * info.Width + x))) (src (off + (y * info.Width + x))))) := by
  unfold updatePixel
  rw [store_same]
  simp only [add_assoc]

/-- The channel sweep around the update of pixel `(y, x)`: what the sweep
leaves at an index that no later update visits is what the update of `(y, x)`
left there. -/
theorem sweepChannel_after (ops : FloatOps F) (mask src old : Int → F)
    (info : HairInpaintInfo F) (k y x j : Int)
    (hy0 : 1 ≤ y) (hy1 : y ≤ info.Height - 2) (hx0 : 1 ≤ x) (hx1 : x ≤ info.Width - 2)
    (hrows : ∀ y' x', y < y' → y' < info.Height - 1 → 1 ≤ x' → x' < info.Width - 1 →
      j ≠ k * info.Width * info.Height + (y' * info.Width + x'))
    (hcols : ∀ x', x < x' → x' < info.Width - 1 →
      j ≠ k * info.Width * info.Height + (y * info.Width + x')) :
    sweepChannel ops mask src info k old j =
      updatePixel ops mask src info (k * info.Width * info.Height) y x
        (forLoop 1 x (fun x d =>
          updatePixel ops mask src info (k * info.Width * info.Height) y x d)
          (forLoop 1 y (scalarRow ops mask src info k) old)) j := by
  unfold sweepChannel channelRows
  rw [forLoop_around 1 y (info.Height - 1) _ old hy0 (by omega),
    rows_frame ops mask src info k (y + 1) (info.Height - 1) j _
      (fun y' x' a b c d => hrows y' x' (by omega) b c d)]
  show forLoop 1 (info.Width - 1) (fun x d =>
    updatePixel ops mask src info (k * info.Width * info.Height) y x d) _ j = _
  rw [forLoop_around 1 x (info.Width - 1) _ _ hx0 (by omega),
    columns_frame ops mask src info _ y (x + 1) (info.Width - 1) j _
      (fun x' a b => hcols x' (by omega) b)]

/-- The buffer right before the update of pixel `(y, x)` still holds the old
value at every index that no earlier update visits. -/
theorem sweepChannel_before (ops : FloatOps F) (mask src old : Int → F)
    (info : HairInpaintInfo F) (k y x j : Int)
    (hrows : ∀ y' x', 1 ≤ y' → y' < y → 1 ≤ x' → x' < info.Width - 1 →
      j ≠ k * info.Width * info.Height + (y' * info.Width + x'))
    (hcols : ∀ x', 1 ≤ x' → x' < x →
      j ≠ k * info.Width * info.Height + (y * info.Width + x')) :
    forLoop 1 x (fun x d =>
        updatePixel ops mask src info (k * info.Width * info.Height) y x d)
      (forLoop 1 y (scalarRow ops mask src info k) old) j = old j := by
  rw [columns_frame ops mask src info _ y 1 x j _ hcols,
    rows_frame ops mask src info k 1 y j _ hrows]

end SolverValue

section SolverSmall
variable {F : Type}

/-- The loop nest of the solver does nothing when there is no interior row or
every row loop does nothing. -/
theorem sweepRows_id {σ : Type} (info : HairInpaintInfo F) (ch : Int)
    (row : Int → Int → σ → σ) (s : σ)
    (h : info.Height ≤ 2 ∨ ∀ k y t, row k y t = t) :
    sweepRows info ch row s = s := by
  unfold sweepRows
  refine forLoop2_inv (fun t => t = s) 0 info.Iters 0 ch
    (fun _ k t => channelRows info (row k) t) s rfl ?_
  intro _ k t _ _ _ _ ht
  show channelRows info (row k) t = s
  unfold channelRows
  rcases h with h | h
  · rw [forLoop_of_le _ _ _ _ (by omega)]; exact ht
  · exact forLoop_inv (fun u => u = s) 1 (info.Height - 1) (row k) t ht
      (fun y u _ _ hu => (h k y u).trans hu)

theorem memcpy_inside (n i : Int) (src fresh : Int → F) (h0 : 0 ≤ i) (h1 : i < n) :
    memcpy n src fresh i = src i := by
  simp [memcpy, h0, h1]

end SolverSmall

/-! ## The 5x5 scenario -/

theorem chunkOk_sound {F : Type} [DecidableEq F] (step : (Int → F) → (Int → F))
    (ok : F → F → Bool) (n : Nat) (s t : Int → F) (h : chunkOk step ok n s t = true) :
    (∀ m, m < n → ok ((step^[m]) s 12) ((step^[m + 1]) s 12) = true) ∧
      ∀ j ∈ scenarioCells, (step^[n]) s j = t j := by
  induction n generalizing s with
  | zero =>
    refine ⟨fun m hm => by omega, ?_⟩
    simpa [chunkOk] using h
  | succ k ih =>
    simp only [chunkOk, Bool.and_eq_true] at h
    obtain ⟨a, b⟩ := ih (step s) h.2
    refine ⟨?_, ?_⟩
    · intro m hm
      cases m with
      | zero => simpa using h.1
      | succ j =>
        have := a j (by omega)
        simpa [Function.iterate_succ_apply] using this
    · intro j hj
      simpa [Function.iterate_succ_apply] using b j hj

/-- Chunks of five steps chain: if the step changes the nine interior pixels
only, the boundary buffers agree elsewhere, and every chunk passes its check,
then the test `ok` holds along the whole run. -/
theorem chunks_chain {F : Type} [DecidableEq F] (step : (Int → F) → (Int → F))
    (ok : F → F → Bool) (b : Nat → Int → F) (K : Nat)
    (hframe : ∀ d j, j ∉ scenarioCells → step d j = d j)
    (hout : ∀ i j, j ∉ scenarioCells → b i j = b 0 j)
    (hchunk : ∀ i, i < K → chunkOk step ok 5 (b i) (b (i + 1)) = true) :
    ∀ n, n < 5 * K → ok ((step^[n]) (b 0) 12) ((step^[n + 1]) (b 0) 12) = true := by
  have iter_frame : ∀ (m : Nat) (d : Int → F) (j : Int), j ∉ scenarioCells →
      (step^[m]) d j = d j := by
    intro m
    induction m with
    | zero => intro d j _; rfl
    | succ k ih =>
      intro d j hj
      rw [Function.iterate_succ_apply', hframe _ j hj, ih d j hj]
  have hb : ∀ i, i ≤ K → (step^[5 * i]) (b 0) = b i := by
    intro i
    induction i with
    | zero => intro _; rfl
    | succ k ih =>
      intro hk
      have e : 5 * (k + 1) = 5 + 5 * k := by ring
      rw [e, Function.iterate_add_apply, ih (by omega)]
      funext j
      by_cases hj : j ∈ scenarioCells
      · exact (chunkOk_sound step ok 5 (b k) (b (k + 1)) (hchunk k (by omega))).2 j hj
      · rw [iter_frame 5 (b k) j hj, hout k j hj, hout (k + 1) j hj]
  intro n hn
  obtain ⟨i, m, hm, rfl⟩ : ∃ i m, m < 5 ∧ n = m + 5 * i :=
    ⟨n / 5, n % 5, Nat.mod_lt _ (by decide), by omega⟩
  have e : m + 5 * i + 1 = (m + 1) + 5 * i := by ring
  rw [e, Function.iterate_add_apply, Function.iterate_add_apply, hb i (by omega)]
  exact (chunkOk_sound step ok 5 (b i) (b (i + 1)) (hchunk i (by omega))).1 m hm

theorem cellsBuffer_outside {F : Type} (ops : FloatOps F) (vals : List F) (j : Int)
    (hj : j ∉ scenarioCells) : cellsBuffer ops vals j = ops.ofInt 100 := by
  simp only [scenarioCells, List.mem_cons, List.mem_singleton, not_or, List.not_mem_nil,
    or_false] at hj
  obtain ⟨h1, h2, h3, h4, h5, h6, h7, h8, h9⟩ := hj
  simp [cellsBuffer, h1, h2, h3, h4, h5, h6, h7, h8, h9]

theorem scenario_step_frame {F : Type} (ops : FloatOps F) (dt : F) (d : Int → F) (j : Int)
    (hj : j ∉ scenarioCells) :
    sweepChannel ops (scenarioMask ops) (scenarioBuffer ops) (scenarioInfo ops dt 0) 0 d j =
      d j := by
  simp only [scenarioCells, List.mem_cons, List.mem_singleton, not_or, List.not_mem_nil,
    or_false] at hj
  refine sweepChannel_frame ops _ _ _ 0 j d ?_
  intro y x hy0 hy1 hx0 hx1
  have hy1' : y < 4 := hy1
  have hx1' : x < 4 := hx1
  show j ≠ 0 * 5 * 5 + (y * 5 + x)
  omega

/-- With one channel the solver is the iterated sweep of channel 0. -/
theorem PDEHeatDiffusionCPU_iterate {F : Type} (ops : FloatOps F) (mask src dst : Int → F)
    (info : HairInpaintInfo F) (n : Nat) (hn : info.Iters = n) :
    PDEHeatDiffusionCPU ops mask src dst 1 info =
      ((fun d => sweepChannel ops mask src info 0 d)^[n]) dst := by
  rw [PDEHeatDiffusionCPU_eq, hn]
  clear hn
  have one : ∀ d : Int → F,
      forLoop 0 1 (fun k d => sweepChannel ops mask src info k d) d =
        sweepChannel ops mask src info 0 d := by
    intro d
    have := forLoop_succ 0 0 (fun k d => sweepChannel ops mask src info k d) d (le_refl 0)
    rw [forLoop_of_le 0 0 _ _ (le_refl 0)] at this
    simpa using this
  induction n with
  | zero => rw [forLoop_of_le _ _ _ _ (by simp)]; rfl
  | succ k ih =>
    have e : ((k + 1 : Nat) : Int) = (k : Int) + 1 := by push_cast; ring
    rw [e, forLoop_succ _ _ _ _ (by omega), ih, one, Function.iterate_succ_apply']

theorem scenarioCentre_eq {F : Type} (ops : FloatOps F) (dt : F) (n : Nat) :
    scenarioCentre ops dt n =
      ((fun d => sweepChannel ops (scenarioMask ops) (scenarioBuffer ops)
        (scenarioInfo ops dt 0) 0 d)^[n]) (scenarioBuffer ops) 12 := by
  unfold scenarioCentre
  rw [PDEHeatDiffusionCPU_iterate ops _ _ _ (scenarioInfo ops dt n) n rfl]
  rfl

set_option maxRecDepth 100000 in
theorem scenario_chunk_exact_0 :
    chunkOk scenarioStepQ stepOkQ 5 (scenarioBoundaryQ 0) (scenarioBoundaryQ 1) = true := by
  decide!

set_option maxRecDepth 100000 in
theorem scenario_chunk_exact_1 :
    chunkOk scenarioStepQ stepOkQ 5 (scenarioBoundaryQ 1) (scenarioBoundaryQ 2) = true := by
  decide!

set_option maxRecDepth 100000 in
theorem scenario_chunk_exact_2 :
    chunkOk scenarioStepQ stepOkQ 5 (scenarioBoundaryQ 2) (scenarioBoundaryQ 3) = true := by
  decide!

set_option maxRecDepth 100000 in
theorem scenario_chunk_exact_3 :
    chunkOk scenarioStepQ stepOkQ 5 (scenarioBoundaryQ 3) (scenarioBoundaryQ 4) = true := by
  decide!

set_option maxRecDepth 100000 in
theorem scenario_chunk_exact_4 :
    chunkOk scenarioStepQ stepOkQ 5 (scenarioBoundaryQ 4) (scenarioBoundaryQ 5) = true := by
  decide!

set_option maxRecDepth 100000 in
theorem scenario_chunk_exact_5 :
    chunkOk scenarioStepQ stepOkQ 5 (scenarioBoundaryQ 5) (scenarioBoundaryQ 6) = true := by
  decide!

set_option maxRecDepth 100000 in
theorem scenario_chunk_exact_6 :
    chunkOk scenarioStepQ stepOkQ 5 (scenarioBoundaryQ 6) (scenarioBoundaryQ 7) = true := by
  decide!

set_option maxRecDepth 100000 in
theorem scenario_chunk_exact_7 :
    chunkOk scenarioStepQ stepOkQ 5 (scenarioBoundaryQ 7) (scenarioBoundaryQ 8) = true := by
  decide!

set_option maxRecDepth 100000 in
theorem scenario_chunk_exact_8 :
    chunkOk scenarioStepQ stepOkQ 5 (scenarioBoundaryQ 8) (scenarioBoundaryQ 9) = true := by
  decide!

set_option maxRecDepth 100000 in
theorem scenario_chunk_exact_9 :
    chunkOk scenarioStepQ stepOkQ 5 (scenarioBoundaryQ 9) (scenarioBoundaryQ 10) = true := by
  decide!

set_option maxRecDepth 100000 in
theorem scenario_chunk_binary32_0 :
    chunkOk scenarioStepB stepOkB 5 (scenarioBoundaryB 0) (scenarioBoundaryB 1) = true := by
  decide!

set_option maxRecDepth 100000 in
theorem scenario_chunk_binary32_1 :
    chunkOk scenarioStepB stepOkB 5 (scenarioBoundaryB 1) (scenarioBoundaryB 2) = true := by
  decide!

set_option maxRecDepth 100000 in
theorem scenario_chunk_binary32_2 :
    chunkOk scenarioStepB stepOkB 5 (scenarioBoundaryB 2) (scenarioBoundaryB 3) = true := by
  decide!

set_option maxRecDepth 100000 in
theorem scenario_chunk_binary32_3 :
    chunkOk scenarioStepB stepOkB 5 (scenarioBoundaryB 3) (scenarioBoundaryB 4) = true := by
  decide!

set_option maxRecDepth 100000 in
theorem scenario_chunk_binary32_4 :
    chunkOk scenarioStepB stepOkB 5 (scenarioBoundaryB 4) (scenarioBoundaryB 5) = true := by
  decide!

set_option maxRecDepth 100000 in
theorem scenario_chunk_binary32_5 :
    chunkOk scenarioStepB stepOkB 5 (scenarioBoundaryB 5) (scenarioBoundaryB 6) = true := by
  decide!

set_option maxRecDepth 100000 in
theorem scenario_chunk_binary32_6 :
    chunkOk scenarioStepB stepOkB 5 (scenarioBoundaryB 6) (scenarioBoundaryB 7) = true := by
  decide!

set_option maxRecDepth 100000 in
theorem scenario_chunk_binary32_7 :
    chunkOk scenarioStepB stepOkB 5 (scenarioBoundaryB 7) (scenarioBoundaryB 8) = true := by
  decide!

set_option maxRecDepth 100000 in
theorem scenario_chunk_binary32_8 :
    chunkOk scenarioStepB stepOkB 5 (scenarioBoundaryB 8) (scenarioBoundaryB 9) = true := by
  decide!

set_option maxRecDepth 100000 in
theorem scenario_chunk_binary32_9 :
    chunkOk scenarioStepB stepOkB 5 (scenarioBoundaryB 9) (scenarioBoundaryB 10) = true := by
  decide!

theorem scenario_chunks_exact (i : Nat) (hi : i < 10) :
    chunkOk scenarioStepQ stepOkQ 5 (scenarioBoundaryQ i) (scenarioBoundaryQ (i + 1)) = true := by
  interval_cases i
  · exact scenario_chunk_exact_0
  · exact scenario_chunk_exact_1
  · exact scenario_chunk_exact_2
  · exact scenario_chunk_exact_3
  · exact scenario_chunk_exact_4
  · exact scenario_chunk_exact_5
  · exact scenario_chunk_exact_6
  · exact scenario_chunk_exact_7
  · exact scenario_chunk_exact_8
  · exact scenario_chunk_exact_9

theorem scenario_chunks_binary32 (i : Nat) (hi : i < 10) :
    chunkOk scenarioStepB stepOkB 5 (scenarioBoundaryB i) (scenarioBoundaryB (i + 1)) = true := by
  interval_cases i
  · exact scenario_chunk_binary32_0
  · exact scenario_chunk_binary32_1
  · exact scenario_chunk_binary32_2
  · exact scenario_chunk_binary32_3
  · exact scenario_chunk_binary32_4
  · exact scenario_chunk_binary32_5
  · exact scenario_chunk_binary32_6
  · exact scenario_chunk_binary32_7
  · exact scenario_chunk_binary32_8
  · exact scenario_chunk_binary32_9

theorem stepOkQ_iff (a b : ℚ) : stepOkQ a b = true ↔ a ≤ b ∧ 0 ≤ b ∧ b ≤ 100 := by
  simp [stepOkQ]

theorem stepOkB_iff (a b : Binary32) :
    stepOkB a b = true ↔
      Binary32.le a b = true ∧ Binary32.le (Binary32.finite 0) b = true ∧
        Binary32.le b (Binary32.finite 100) = true := by
  simp [stepOkB, and_assoc]

theorem scenarioCentre_exact (n : Nat) :
    scenarioCentre exactOps (1 / 10) n = (scenarioStepQ^[n]) (scenarioBuffer exactOps) 12 :=
  scenarioCentre_eq exactOps (1 / 10) n

theorem scenarioCentre_binary32 (n : Nat) :
    scenarioCentre binary32Ops (Binary32.ofRat (1 / 10)) n =
      (scenarioStepB^[n]) (scenarioBuffer binary32Ops) 12 :=
  scenarioCentre_eq binary32Ops (Binary32.ofRat (1 / 10)) n

theorem scenarioBoundaryQ_zero : scenarioBoundaryQ 0 = scenarioBuffer exactOps := by
  funext j
  by_cases hj : j ∈ scenarioCells
  · simp only [scenarioCells, List.mem_cons, List.mem_singleton, List.not_mem_nil,
      or_false] at hj
    rcases hj with rfl | rfl | rfl | rfl | rfl | rfl | rfl | rfl | rfl <;> decide!
  · rw [scenarioBoundaryQ, cellsBuffer_outside _ _ j hj]
    have : j ≠ 12 := by
      intro e; apply hj; rw [e]; decide
    simp [scenarioBuffer, this]

theorem scenarioBoundaryB_zero : scenarioBoundaryB 0 = scenarioBuffer binary32Ops := by
  funext j
  by_cases hj : j ∈ scenarioCells
  · simp only [scenarioCells, List.mem_cons, List.mem_singleton, List.not_mem_nil,
      or_false] at hj
    rcases hj with rfl | rfl | rfl | rfl | rfl | rfl | rfl | rfl | rfl <;> decide!
  · rw [scenarioBoundaryB, cellsBuffer_outside _ _ j hj]
    have : j ≠ 12 := by
      intro e; apply hj; rw [e]; decide
    simp [scenarioBuffer, this]

/-- The test on successive centre values holds along the 50 iterations, exact
arithmetic. -/
theorem scenario_run_exact (n : Nat) (hn : n < 50) :
    stepOkQ ((scenarioStepQ^[n]) (scenarioBuffer exactOps) 12)
      ((scenarioStepQ^[n + 1]) (scenarioBuffer exactOps) 12) = true := by
  have h := chunks_chain scenarioStepQ stepOkQ scenarioBoundaryQ 10
    (fun d j hj => scenario_step_frame exactOps (1 / 10) d j hj)
    (fun i j hj => by
      rw [scenarioBoundaryQ, scenarioBoundaryQ, cellsBuffer_outside _ _ j hj,
        cellsBuffer_outside _ _ j hj])
    scenario_chunks_exact n (by omega)
  rwa [scenarioBoundaryQ_zero] at h

/-- The test on successive centre values holds along the 50 iterations,
binary32 arithmetic. -/
theorem scenario_run_binary32 (n : Nat) (hn : n < 50) :
    stepOkB ((scenarioStepB^[n]) (scenarioBuffer binary32Ops) 12)
      ((scenarioStepB^[n + 1]) (scenarioBuffer binary32Ops) 12) = true := by
  have h := chunks_chain scenarioStepB stepOkB scenarioBoundaryB 10
    (fun d j hj => scenario_step_frame binary32Ops (Binary32.ofRat (1 / 10)) d j hj)
    (fun i j hj => by
      rw [scenarioBoundaryB, scenarioBoundaryB, cellsBuffer_outside _ _ j hj,
        cellsBuffer_outside _ _ j hj])
    scenario_chunks_binary32 n (by omega)
  rwa [scenarioBoundaryB_zero] at h

section NormalizeResult
variable {F : Type}

/-- The fully-normalized plane after the channel loop body for channel `k`
holds the normalized value at every pixel of channel `k`. -/
theorem channelResult_dstImage_hit (ops : FloatOps F) (width height : Int)
    (src_image_ptr : Int → UChar) (range_list : Int → Int) (info : HairInpaintInfo F)
    (k y x : Int) (p : Planes F) (hy0 : 0 ≤ y) (hy1 : y < height) (hx0 : 0 ≤ x)
    (hx1 : x < width) :
    (channelResult ops width height src_image_ptr range_list info k p).dstImage
        (k * width * height + (y * width + x)) =
      normalizedValue ops width src_image_ptr range_list info k y x := by
  rw [channelResult_dstImage]
  exact (fillChannel_hit ops width height src_image_ptr range_list info k y x p hy0 hy1 hx0 hx1).1

/-- The channel loop body for channel `k` leaves the fully-normalized plane
unchanged outside the plane of channel `k`. -/
theorem channelResult_dstImage_frame (ops : FloatOps F) (width height : Int)
    (src_image_ptr : Int → UChar) (range_list : Int → Int) (info : HairInpaintInfo F)
    (k j : Int) (p : Planes F)
    (hj : ∀ y x, 0 ≤ y → y < height → 0 ≤ x → x < width →
      j ≠ k * width * height + (y * width + x)) :
    (channelResult ops width height src_image_ptr range_list info k p).dstImage j =
      p.dstImage j := by
  rw [channelResult_dstImage]
  exact (fillChannel_frame ops width height src_image_ptr range_list info k j p hj).1

/-- Where the float mask is positive, the two planes agree at a pixel of
channel `k` after the channel loop body for channel `k`. -/
theorem channelResult_agree_unmasked (ops : FloatOps F) (width height : Int)
    (src_image_ptr : Int → UChar) (range_list : Int → Int) (info : HairInpaintInfo F)
    (k y x : Int) (p : Planes F) (hy0 : 0 ≤ y) (hy1 : y < height) (hx0 : 0 ≤ x)
    (hx1 : x < width) (hm : ops.gt (p.dstMask (y * width + x)) ops.zero = true) :
    (channelResult ops width height src_image_ptr range_list info k p).dstMaskImage
        (k * width * height + (y * width + x)) =
      (channelResult ops width height src_image_ptr range_list info k p).dstImage
        (k * width * height + (y * width + x)) := by
  have h1 : (fillChannel ops width height src_image_ptr range_list info k p).dstMaskImage
        (k * width * height + (y * width + x)) =
      (fillChannel ops width height src_image_ptr range_list info k p).dstImage
        (k * width * height + (y * width + x)) := by
    obtain ⟨a, b⟩ := fillChannel_hit ops width height src_image_ptr range_list info k y x p
      hy0 hy1 hx0 hx1
    rw [a, b, hm, if_pos rfl]
  unfold channelResult
  split_ifs
  · exact fixRow_agree _ _ _ _ _ _ (fixRow_agree _ _ _ _ _ _
      (fixColumn_agree _ _ _ _ _ _ (fixColumn_agree _ _ _ _ _ _ h1)))
  · exact fixColumn_agree _ _ _ _ _ _ (fixColumn_agree _ _ _ _ _ _ h1)
  · exact fixRow_agree _ _ _ _ _ _ (fixRow_agree _ _ _ _ _ _ h1)
  · exact h1

/-- The planes that `normalizeImage` returns: at every pixel of every channel
the fully-normalized plane holds the normalized value, and the masked-source
plane holds the same value wherever the mask byte is zero. -/
theorem normalizeImage_planes (ops : FloatOps F) (fuel : Nat) (width height : Int)
    (src_image_ptr src_mask_ptr : Int → UChar) (dstImage dstMask dstMaskImage : Int → F)
    (info : HairInpaintInfo F) (hgt1 : ops.gt ops.one ops.zero = true)
    (hw : width ≠ 1) (hh : height ≠ 1) (hf : 3 ≤ fuel) :
    ∃ r, normalizeImage ops fuel width height src_image_ptr src_mask_ptr dstImage dstMask
        dstMaskImage info = some r ∧
      r.2 = scanRange width height src_image_ptr info ∧
      ∀ k y x : Int, 0 ≤ k → k < 3 → 0 ≤ y → y < height → 0 ≤ x → x < width →
        r.1.dstImage (k * width * height + (y * width + x)) =
          normalizedValue ops width src_image_ptr (fun k => r.2.MaxRgb k - r.2.MinRgb k) r.2
            k y x ∧
        (src_mask_ptr (y * width + x) = 0 →
          r.1.dstMaskImage (k * width * height + (y * width + x)) =
            r.1.dstImage (k * width * height + (y * width + x))) := by
  refine ⟨_, normalizeImage_eq ops fuel width height src_image_ptr src_mask_ptr dstImage dstMask
    dstMaskImage info hw hh hf, rfl, ?_⟩
  intro k y x hk0 hk1 hy0 hy1 hx0 hx1
  have hne : ∀ k' : Int, k' ≠ k → ∀ y' x', 0 ≤ y' → y' < height → 0 ≤ x' → x' < width →
      k * width * height + (y * width + x) ≠ k' * width * height + (y' * width + x') := by
    intro k' hk' y' x' a b c d e
    exact hk' (idx3_inj width height k y x k' y' x' hx0 hx1 c d hy0 hy1 a b e).1.symm
  have hmask : ∀ p : Planes F, p.dstMask = buildMask ops width height src_mask_ptr dstMask →
      src_mask_ptr (y * width + x) = 0 → ops.gt (p.dstMask (y * width + x)) ops.zero = true := by
    intro p hp hz
    rw [hp, buildMask_hit ops width height src_mask_ptr dstMask (y * width + x)
      (idx_nonneg width y x hy0 hx0 hx1) (idx_lt width height y x hy1 hx0 hx1)]
    simp [hz, hgt1]
  have hk : k = 0 ∨ k = 1 ∨ k = 2 := by omega
  rcases hk with rfl | rfl | rfl
  · refine ⟨?_, fun hz => ?_⟩
    · rw [channelResult_dstImage_frame _ _ _ _ _ _ _ _ _ (hne 2 (by decide)),
        channelResult_dstImage_frame _ _ _ _ _ _ _ _ _ (hne 1 (by decide))]
      exact channelResult_dstImage_hit _ _ _ _ _ _ _ _ _ _ hy0 hy1 hx0 hx1
    · exact channelResult_agree _ _ _ _ _ _ _ _ _ (hne 2 (by decide))
        (channelResult_agree _ _ _ _ _ _ _ _ _ (hne 1 (by decide))
          (channelResult_agree_unmasked _ _ _ _ _ _ _ _ _ _ hy0 hy1 hx0 hx1
            (hmask _ rfl hz)))
  · refine ⟨?_, fun hz => ?_⟩
    · rw [channelResult_dstImage_frame _ _ _ _ _ _ _ _ _ (hne 2 (by decide))]
      exact channelResult_dstImage_hit _ _ _ _ _ _ _ _ _ _ hy0 hy1 hx0 hx1
    · exact channelResult_agree _ _ _ _ _ _ _ _ _ (hne 2 (by decide))
        (channelResult_agree_unmasked _ _ _ _ _ _ _ _ _ _ hy0 hy1 hx0 hx1
          (hmask _ (by simp only [channelResult_dstMask]) hz))
  · refine ⟨?_, fun hz => ?_⟩
    · exact channelResult_dstImage_hit _ _ _ _ _ _ _ _ _ _ hy0 hy1 hx0 hx1
    · exact channelResult_agree_unmasked _ _ _ _ _ _ _ _ _ _ hy0 hy1 hx0 hx1
        (hmask _ (by simp only [channelResult_dstMask]) hz)

theorem convertChannel_frame (ops : FloatOps F) (srcImage : Int → F)
    (info : HairInpaintInfo F) (k j : Int) (dst : Int → Option UChar)
    (h : ∀ y x, 0 ≤ y → y < info.Height → 0 ≤ x → x < info.Width →
      j ≠ y * (info.Width * info.Channels) + (x * info.Channels) + k) :
    convertChannel ops srcImage info k dst j = dst j := by
  unfold convertChannel
  exact forLoop2_inv (fun (t : Int → Option UChar) => t j = dst j) 0 info.Height 0 info.Width
    _ dst rfl (fun y x t a b c d ht => (store_other _ _ _ _ (h y x a b c d)).trans ht)

theorem convertChannel_hit (ops : FloatOps F) (srcImage : Int → F)
    (info : HairInpaintInfo F) (k y x : Int) (dst : Int → Option UChar)
    (hk0 : 0 ≤ k) (hk1 : k < info.Channels) (hy0 : 0 ≤ y) (hy1 : y < info.Height)
    (hx0 : 0 ≤ x) (hx1 : x < info.Width) :
    convertChannel ops srcImage info k dst
        (y * (info.Width * info.Channels) + (x * info.Channels) + k) =
      ops.toUchar
        (ops.add
          (ops.mul (ops.ofInt (info.MaxRgb k - info.MinRgb k))
            (srcImage (k * info.Width * info.Height + y * info.Width + x)))
          (ops.ofInt (info.MinRgb k))) := by
  unfold convertChannel
  refine forLoop2_hit (fun (_ : Int → Option UChar) => True)
    (fun (t : Int → Option UChar) =>
      t (y * (info.Width * info.Channels) + (x * info.Channels) + k) =
        ops.toUchar
          (ops.add
            (ops.mul (ops.ofInt (info.MaxRgb k - info.MinRgb k))
              (srcImage (k * info.Width * info.Height + y * info.Width + x)))
            (ops.ofInt (info.MinRgb k)))) 0 info.Height 0 info.Width y x _ dst hy0 hy1 hx0 hx1
    trivial (fun _ _ _ _ _ _ _ _ => trivial) ?_ ?_
  · intro u _
    exact store_same _ _ _
  · intro y' x' u a b c d hne _ hu
    refine (store_other _ _ _ _ ?_).trans hu
    intro e
    have e1 : (y * info.Width + x) * info.Channels + k =
        (y' * info.Width + x') * info.Channels + k := by linarith
    obtain ⟨e2, _⟩ := idx2_inj info.Channels _ k _ k hk0 hk1 hk0 hk1 e1
    obtain ⟨e3, e4⟩ := idx2_inj info.Width y x y' x' hx0 hx1 c d e2
    rcases hne with hne | hne
    · exact hne e3.symm
    · exact hne e4.symm

/-- The byte that `convertToMatArrayFormat` stores for pixel `(y, x)` of
channel `k`. -/
theorem convertToMatArrayFormat_hit (ops : FloatOps F) (srcImage : Int → F)
    (dstImage : Int → Option UChar) (info : HairInpaintInfo F) (k y x : Int)
    (hk0 : 0 ≤ k) (hk1 : k < info.Channels) (hy0 : 0 ≤ y) (hy1 : y < info.Height)
    (hx0 : 0 ≤ x) (hx1 : x < info.Width) :
    convertToMatArrayFormat ops srcImage dstImage info
        (y * (info.Width * info.Channels) + (x * info.Channels) + k) =
      ops.toUchar
        (ops.add
          (ops.mul (ops.ofInt (info.MaxRgb k - info.MinRgb k))
            (srcImage (k * info.Width * info.Height + y * info.Width + x)))
          (ops.ofInt (info.MinRgb k))) := by
  unfold convertToMatArrayFormat
  refine forLoop_hit (fun (_ : Int → Option UChar) => True)
    (fun (t : Int → Option UChar) =>
      t (y * (info.Width * info.Channels) + (x * info.Channels) + k) =
        ops.toUchar
          (ops.add
            (ops.mul (ops.ofInt (info.MaxRgb k - info.MinRgb k))
              (srcImage (k * info.Width * info.Height + y * info.Width + x)))
            (ops.ofInt (info.MinRgb k)))) 0 k info.Channels _ dstImage hk0 hk1 trivial
    (fun _ _ _ _ _ => trivial) ?_ ?_
  · intro t _
    exact convertChannel_hit ops srcImage info k y x t hk0 hk1 hy0 hy1 hx0 hx1
  · intro k' t hk' hk'' _ ht
    refine (convertChannel_frame ops srcImage info k' _ t ?_).trans ht
    intro y' x' a b c d e
    have e1 : (y * info.Width + x) * info.Channels + k =
        (y' * info.Width + x') * info.Channels + k' := by linarith
    obtain ⟨_, e2⟩ := idx2_inj info.Channels _ k _ k' hk0 hk1 (by omega) hk'' e1
    omega

end NormalizeResult

/-! ## Rounding to binary32 -/

theorem log2Stage_spec (n k : Nat) (p : Nat × Nat) (h0 : 0 < p.1) (h1 : p.1 < 2 ^ (2 * k))
    (h2 : p.1 * 2 ^ p.2 ≤ n) (h3 : n < (p.1 + 1) * 2 ^ p.2) :
    0 < (log2Stage k p).1 ∧ (log2Stage k p).1 < 2 ^ k ∧
      (log2Stage k p).1 * 2 ^ (log2Stage k p).2 ≤ n ∧
      n < ((log2Stage k p).1 + 1) * 2 ^ (log2Stage k p).2 := by
  unfold log2Stage
  have hk : 0 < 2 ^ k := by positivity
  split_ifs with h
  · simp only
    have hq : p.1 / 2 ^ k * 2 ^ k ≤ p.1 := Nat.div_mul_le_self _ _
    have hq' : p.1 < (p.1 / 2 ^ k + 1) * 2 ^ k := by
      have := Nat.lt_succ_iff.mpr (le_refl (p.1 / 2 ^ k))
      exact (Nat.div_lt_iff_lt_mul hk).mp this
    refine ⟨Nat.div_pos h hk, ?_, ?_, ?_⟩
    · rw [Nat.div_lt_iff_lt_mul hk, ← pow_add]
      have : k + k = 2 * k := by ring
      rw [this]; exact h1
    · calc p.1 / 2 ^ k * 2 ^ (p.2 + k) = p.1 / 2 ^ k * 2 ^ k * 2 ^ p.2 := by
            rw [pow_add]; ring
        _ ≤ p.1 * 2 ^ p.2 := Nat.mul_le_mul_right _ hq
        _ ≤ n := h2
    · calc n < (p.1 + 1) * 2 ^ p.2 := h3
        _ ≤ (p.1 / 2 ^ k + 1) * 2 ^ k * 2 ^ p.2 := Nat.mul_le_mul_right _ hq'
        _ = (p.1 / 2 ^ k + 1) * 2 ^ (p.2 + k) := by rw [pow_add]; ring
  · exact ⟨h0, by omega, h2, h3⟩

theorem log2Fuel_spec (fuel n : Nat) (hn : 0 < n) (hf : n ≤ fuel) :
    2 ^ log2Fuel fuel n ≤ n ∧ n < 2 ^ (log2Fuel fuel n + 1) := by
  induction fuel generalizing n with
  | zero => omega
  | succ f ih =>
    unfold log2Fuel
    split_ifs with h
    · constructor <;> simp <;> omega
    · have h2 : 0 < n / 2 := Nat.div_pos (by omega) (by omega)
      have h3 : n / 2 ≤ f := by omega
      obtain ⟨a, b⟩ := ih (n / 2) h2 h3
      constructor
      · rw [pow_succ]; omega
      · rw [pow_succ]; omega

theorem natLog2_spec (n : Nat) (hn : 0 < n) :
    2 ^ natLog2 n ≤ n ∧ n < 2 ^ (natLog2 n + 1) := by
  unfold natLog2
  split_ifs with h
  · have s128 := log2Stage_spec n 128 (n, 0) hn (by simpa using h) (by simp) (by simp)
    have s64 := log2Stage_spec n 64 _ s128.1 s128.2.1 s128.2.2.1 s128.2.2.2
    have s32 := log2Stage_spec n 32 _ s64.1 s64.2.1 s64.2.2.1 s64.2.2.2
    have s16 := log2Stage_spec n 16 _ s32.1 s32.2.1 s32.2.2.1 s32.2.2.2
    have s8 := log2Stage_spec n 8 _ s16.1 s16.2.1 s16.2.2.1 s16.2.2.2
    have s4 := log2Stage_spec n 4 _ s8.1 s8.2.1 s8.2.2.1 s8.2.2.2
    have s2 := log2Stage_spec n 2 _ s4.1 s4.2.1 s4.2.2.1 s4.2.2.2
    have s1 := log2Stage_spec n 1 _ s2.1 s2.2.1 s2.2.2.1 s2.2.2.2
    obtain ⟨a, b, c, d⟩ := s1
    have e : (log2Stage 1 (log2Stage 2 (log2Stage 4 (log2Stage 8 (log2Stage 16 (log2Stage 32
      (log2Stage 64 (log2Stage 128 (n, 0))))))))).1 = 1 := by omega
    rw [e] at c d
    constructor
    · simpa using c
    · rw [pow_succ]; omega
  · exact log2Fuel_spec n n hn (le_refl n)

theorem pow2_eq_zpow (e : Int) : pow2 e = (2 : ℚ) ^ e := by
  unfold pow2
  split_ifs with h
  · obtain ⟨n, rfl⟩ := Int.eq_ofNat_of_zero_le h
    simp
  · obtain ⟨n, hn⟩ := Int.exists_eq_neg_ofNat (by omega : e ≤ 0)
    subst hn
    simp

theorem pow2_pos (e : Int) : 0 < pow2 e := by
  rw [pow2_eq_zpow]; positivity

theorem pow2_add (a b : Int) : pow2 (a + b) = pow2 a * pow2 b := by
  simp only [pow2_eq_zpow]
  exact zpow_add₀ (by norm_num) a b

theorem pow2_natCast (k : Nat) : pow2 (k : Int) = (2 : ℚ) ^ k := by
  rw [pow2_eq_zpow]; simp

theorem pow2_neg_natCast (k : Nat) : pow2 (-(k : Int)) = 1 / (2 : ℚ) ^ k := by
  rw [pow2_eq_zpow]; simp

/-- The exponent found for a positive fraction is not above its logarithm. -/
theorem pow2_ilog2_le (n d : Nat) (hn : 0 < n) (hd : 0 < d) :
    pow2 (ilog2 n d) ≤ (n : ℚ) / (d : ℚ) := by
  have hdq : (0 : ℚ) < d := by exact_mod_cast hd
  obtain ⟨a, _⟩ := natLog2_spec n hn
  obtain ⟨_, b⟩ := natLog2_spec d hd
  have a' : (2 : ℚ) ^ (natLog2 n) ≤ (n : ℚ) := by exact_mod_cast a
  have b' : (d : ℚ) ≤ (2 : ℚ) ^ (natLog2 d + 1) := by exact_mod_cast b.le
  have low : pow2 ((natLog2 n : Int) - (natLog2 d : Int) - 1) ≤ (n : ℚ) / (d : ℚ) := by
    rw [pow2_eq_zpow]
    have e : (2 : ℚ) ^ ((natLog2 n : Int) - (natLog2 d : Int) - 1) =
        (2 : ℚ) ^ (natLog2 n) / (2 : ℚ) ^ (natLog2 d + 1) := by
      rw [zpow_sub₀ (by norm_num), zpow_sub₀ (by norm_num)]
      simp only [zpow_natCast, zpow_one]
      rw [pow_succ]; field_simp
    rw [e]
    exact div_le_div₀ (by positivity) a' hdq b'
  unfold ilog2
  simp only
  split_ifs with h0 h1 h2
  · -- 0 ≤ e0 and d * 2 ^ e0 ≤ n
    obtain ⟨k, hk⟩ := Int.eq_ofNat_of_zero_le h0
    rw [hk] at h1 ⊢
    rw [pow2_natCast, le_div_iff₀ hdq]
    simp only [Int.toNat_ofNat] at h1
    have : ((d * 2 ^ k : Nat) : ℚ) ≤ (n : ℚ) := by exact_mod_cast h1
    push_cast at this
    linarith
  · exact low
  · -- e0 < 0 and d ≤ n * 2 ^ (-e0)
    obtain ⟨k, hk⟩ := Int.exists_eq_neg_ofNat (by omega :
      (natLog2 n : Int) - (natLog2 d : Int) ≤ 0)
    rw [hk] at h2 ⊢
    rw [pow2_neg_natCast, le_div_iff₀ hdq]
    simp only [neg_neg, Int.toNat_ofNat] at h2
    have : ((d : Nat) : ℚ) ≤ ((n * 2 ^ k : Nat) : ℚ) := by exact_mod_cast h2
    push_cast at this
    have hpos : (0 : ℚ) < 2 ^ k := by positivity
    rw [div_mul_eq_mul_div, div_le_iff₀ hpos]
    linarith
  · exact low

theorem roundDivEven_error (a b : Nat) (hb : 0 < b) :
    |((roundDivEven a b : Nat) : ℚ) - (a : ℚ) / (b : ℚ)| ≤ 1 / 2 := by
  have hbq : (0 : ℚ) < b := by exact_mod_cast hb
  have hdiv : (a : ℚ) / b = ((a / b : Nat) : ℚ) + ((a % b : Nat) : ℚ) / b := by
    have := Nat.div_add_mod a b
    have e : (a : ℚ) = (b : ℚ) * ((a / b : Nat) : ℚ) + ((a % b : Nat) : ℚ) := by
      exact_mod_cast this.symm
    rw [e]
    field_simp
    ring
  have hr0 : (0 : ℚ) ≤ ((a % b : Nat) : ℚ) / b := by positivity
  unfold roundDivEven
  simp only
  rw [hdiv]
  split_ifs with h1 h2 h3
  · have : (2 : ℚ) * ((a % b : Nat) : ℚ) < b := by exact_mod_cast h1
    have : ((a % b : Nat) : ℚ) / b < 1 / 2 := by rw [div_lt_iff₀ hbq]; linarith
    rw [abs_le]; constructor <;> linarith
  · have : (b : ℚ) < 2 * ((a % b : Nat) : ℚ) := by exact_mod_cast h2
    have h' : 1 / 2 < ((a % b : Nat) : ℚ) / b := by rw [lt_div_iff₀ hbq]; linarith
    have hlt : ((a % b : Nat) : ℚ) < b := by exact_mod_cast Nat.mod_lt a hb
    have : ((a % b : Nat) : ℚ) / b < 1 := by rw [div_lt_one hbq]; exact hlt
    rw [abs_le]; push_cast; constructor <;> linarith
  · have e : 2 * (a % b) = b := by omega
    have : (2 : ℚ) * ((a % b : Nat) : ℚ) = b := by exact_mod_cast e
    have : ((a % b : Nat) : ℚ) / b = 1 / 2 := by rw [div_eq_iff hbq.ne']; linarith
    rw [abs_le]; constructor <;> linarith
  · have e : 2 * (a % b) = b := by omega
    have : (2 : ℚ) * ((a % b : Nat) : ℚ) = b := by exact_mod_cast e
    have : ((a % b : Nat) : ℚ) / b = 1 / 2 := by rw [div_eq_iff hbq.ne']; linarith
    rw [abs_le]; push_cast; constructor <;> linarith

theorem pow2_neg23 : pow2 (-23) = 1 / 2 ^ 23 := by
  rw [pow2_eq_zpow]; norm_num

theorem abs_eq_natAbs_div (x : ℚ) : |x| = (x.num.natAbs : ℚ) / (x.den : ℚ) := by
  have h : |x| = (|x.num| : ℚ) / (x.den : ℚ) := by
    conv_lhs => rw [← Rat.num_div_den x]
    rw [abs_div, Nat.abs_cast]
  rw [h, Nat.cast_natAbs, Int.cast_abs]

theorem signed_error (x u : ℚ) (m : Nat) :
    |(((if x.num < 0 then -(m : Int) else (m : Int)) : Int) : ℚ) * u - x| =
      |(m : ℚ) * u - (|x|)| := by
  split_ifs with h
  · have hx : x < 0 := Rat.num_neg.mp h
    rw [abs_of_neg hx]
    push_cast
    rw [← abs_neg]
    congr 1; ring
  · have hx : 0 ≤ x := Rat.num_nonneg.mp (not_lt.mp h)
    rw [abs_of_nonneg hx]
    push_cast
    rfl

/-- Rounding to binary32 changes a value by at most half a unit in the last place: a relative
error of 2⁻²⁴ in the normal range, and at most 2⁻¹⁵⁰ below it. -/
theorem roundBinary32_error (x : ℚ) :
    |roundBinary32 x - x| ≤ |x| / 2 ^ 24 + 1 / 2 ^ 150 := by
  unfold roundBinary32
  simp only
  by_cases h0 : x.num.natAbs = 0
  · have : x = 0 := Rat.num_eq_zero.mp (Int.natAbs_eq_zero.mp h0)
    subst this; norm_num
  rw [if_neg h0]
  have hn : 0 < x.num.natAbs := Nat.pos_of_ne_zero h0
  have hd : 0 < x.den := x.den_pos
  have hdq : (0 : ℚ) < (x.den : ℚ) := by exact_mod_cast hd
  have habs := abs_eq_natAbs_div x
  set e := max (ilog2 x.num.natAbs x.den) (-126) with he
  have h3 : pow2 (e - 23) = pow2 e * (1 / 2 ^ 23) := by
    rw [show e - 23 = e + (-23) by ring, pow2_add, pow2_neg23]
  have h4 : pow2 e ≤ |x| ∨ pow2 e = 1 / 2 ^ 126 := by
    rcases le_total (ilog2 x.num.natAbs x.den) (-126) with hle | hle
    · right
      rw [he, max_eq_right hle, pow2_eq_zpow]; norm_num
    · left
      rw [he, max_eq_left hle, habs]
      exact pow2_ilog2_le _ _ hn hd
  have hpe : 0 < pow2 e := pow2_pos _
  have tail : 1 / 2 * pow2 (e - 23) ≤ |x| / 2 ^ 24 + 1 / 2 ^ 150 := by
    rcases h4 with h4 | h4
    · have : 1 / 2 * pow2 (e - 23) ≤ |x| / 2 ^ 24 := by
        rw [h3]
        have : 1 / 2 * (pow2 e * (1 / 2 ^ 23)) = pow2 e / 2 ^ 24 := by ring
        rw [this]
        exact div_le_div_of_nonneg_right h4 (by positivity)
      have : (0 : ℚ) ≤ 1 / 2 ^ 150 := by positivity
      linarith
    · have : 1 / 2 * pow2 (e - 23) = 1 / 2 ^ 150 := by
        rw [h3, h4]; norm_num
      have : 0 ≤ |x| / 2 ^ 24 := by positivity
      linarith
  by_cases h23 : 23 ≤ e
  · -- the unit in the last place is a whole number
    simp only [if_pos h23]
    obtain ⟨k, hk⟩ := Int.eq_ofNat_of_zero_le (by omega : 0 ≤ e - 23)
    rw [hk] at tail ⊢
    simp only [Int.toNat_ofNat]
    have hb : 0 < x.den * 2 ^ k := by positivity
    have hr := roundDivEven_error x.num.natAbs (x.den * 2 ^ k) hb
    have hpk : (0 : ℚ) < 2 ^ k := by positivity
    rw [pow2_natCast] at tail
    rw [Int.cast_mul]
    have e2 : (((2 : Int) ^ k : Int) : ℚ) = (2 : ℚ) ^ k := by norm_num
    rw [e2, signed_error x ((2 : ℚ) ^ k) (roundDivEven x.num.natAbs (x.den * 2 ^ k)), habs]
    have e1 : ((roundDivEven x.num.natAbs (x.den * 2 ^ k) : Nat) : ℚ) * 2 ^ k -
        (x.num.natAbs : ℚ) / (x.den : ℚ) =
        (((roundDivEven x.num.natAbs (x.den * 2 ^ k) : Nat) : ℚ) -
          (x.num.natAbs : ℚ) / ((x.den * 2 ^ k : Nat) : ℚ)) * 2 ^ k := by
      push_cast; field_simp; ring
    rw [e1, abs_mul, abs_of_pos hpk]
    rw [habs] at tail
    calc _ ≤ 1 / 2 * (2 : ℚ) ^ k := mul_le_mul_of_nonneg_right hr hpk.le
      _ ≤ _ := tail
  · -- the unit in the last place is a negative power of two
    simp only [if_neg h23]
    obtain ⟨k, hk⟩ := Int.eq_ofNat_of_zero_le (by omega : 0 ≤ 23 - e)
    have hk' : e - 23 = -(k : Int) := by omega
    rw [hk'] at tail
    rw [hk]
    simp only [Int.toNat_ofNat]
    have hr := roundDivEven_error (x.num.natAbs * 2 ^ k) x.den hd
    have hpk : (0 : ℚ) < 2 ^ k := by positivity
    rw [pow2_neg_natCast] at tail
    rw [Rat.mkRat_eq_div]
    have e2 : ((2 ^ k : Nat) : ℚ) = (2 : ℚ) ^ k := by norm_num
    rw [e2, div_eq_mul_one_div, signed_error x (1 / (2 : ℚ) ^ k)
      (roundDivEven (x.num.natAbs * 2 ^ k) x.den), habs]
    have e1 : ((roundDivEven (x.num.natAbs * 2 ^ k) x.den : Nat) : ℚ) * (1 / 2 ^ k) -
        (x.num.natAbs : ℚ) / (x.den : ℚ) =
        (((roundDivEven (x.num.natAbs * 2 ^ k) x.den : Nat) : ℚ) -
          ((x.num.natAbs * 2 ^ k : Nat) : ℚ) / (x.den : ℚ)) * (1 / 2 ^ k) := by
      push_cast; field_simp; ring
    rw [e1, abs_mul, abs_of_pos (by positivity : (0 : ℚ) < 1 / 2 ^ k)]
    rw [habs] at tail
    calc _ ≤ 1 / 2 * (1 / (2 : ℚ) ^ k) :=
          mul_le_mul_of_nonneg_right hr (by positivity)
      _ ≤ _ := tail

/-- Integers up to 255 are binary32 values. -/
theorem roundBinary32_byte : ∀ n : Fin 256, roundBinary32 ((n.val : Int) : ℚ) = ((n.val : Int) : ℚ) := by
  decide!

theorem ofRat_eq_finite (x : ℚ) (h : |roundBinary32 x| < pow2 128) :
    Binary32.ofRat x = Binary32.finite (roundBinary32 x) := by
  unfold Binary32.ofRat
  have h' := abs_lt.mp h
  simp only
  rw [if_neg (not_le.mpr h'.2), if_neg (not_le.mpr (by linarith [h'.1]))]

theorem pow2_128_big : (100000 : ℚ) < pow2 128 := by
  rw [pow2_eq_zpow]; norm_num

/-- Rounding a value of magnitude at most 300 moves it by at most `1/50000`. -/
theorem roundBinary32_near (x : ℚ) (hx : |x| ≤ 300) : |roundBinary32 x - x| ≤ 1 / 50000 := by
  have h := roundBinary32_error x
  have h1 : |x| / 2 ^ 24 ≤ 300 / 2 ^ 24 := div_le_div_of_nonneg_right hx (by positivity)
  have h2 : (300 : ℚ) / 2 ^ 24 + 1 / 2 ^ 150 ≤ 1 / 50000 := by norm_num
  linarith

theorem ofRat_near (x : ℚ) (hx : |x| ≤ 300) :
    ∃ y : ℚ, Binary32.ofRat x = Binary32.finite y ∧ |y - x| ≤ 1 / 50000 := by
  have h := roundBinary32_near x hx
  refine ⟨roundBinary32 x, ofRat_eq_finite x ?_, h⟩
  have h1 : |roundBinary32 x| ≤ |roundBinary32 x - x| + |x| := by
    have := abs_add (roundBinary32 x - x) x
    simpa using this
  have := pow2_128_big
  linarith

theorem ofInt_byte (n : Int) (h0 : 0 ≤ n) (h1 : n ≤ 255) :
    binary32Ops.ofInt n = Binary32.finite (n : ℚ) := by
  have h := roundBinary32_byte ⟨n.toNat, by omega⟩
  have e : (((⟨n.toNat, by omega⟩ : Fin 256).val : Nat) : Int) = n := by
    show ((n.toNat : Nat) : Int) = n
    omega
  rw [e] at h
  show Binary32.ofRat (n : ℚ) = _
  rw [ofRat_eq_finite, h]
  rw [h]
  have : |(n : ℚ)| ≤ 255 := by
    rw [abs_le]; constructor
    · have : (0 : ℚ) ≤ n := by exact_mod_cast h0
      linarith
    · exact_mod_cast h1
  have := pow2_128_big
  linarith

/-- The value that normalization followed by denormalization computes in
binary32 for a byte `v` of a channel with range `mn < mx` is a finite number
strictly between `v - 1` and `v + 1`. -/
theorem binary32_round_trip_value (v mn mx : Int) (h0 : 0 ≤ mn) (h1 : mn ≤ v) (h2 : v ≤ mx)
    (h3 : mx ≤ 255) (h4 : mn < mx) :
    ∃ s : ℚ,
      binary32Ops.add
        (binary32Ops.mul (binary32Ops.ofInt (mx - mn))
          (binary32Ops.div (binary32Ops.sub (binary32Ops.ofInt v) (binary32Ops.ofInt mn))
            (binary32Ops.ofInt (mx - mn))))
        (binary32Ops.ofInt mn) = Binary32.finite s ∧
      (v : ℚ) - 1 < s ∧ s < (v : ℚ) + 1 := by
  have hv : binary32Ops.ofInt v = Binary32.finite (v : ℚ) := ofInt_byte v (by omega) (by omega)
  have hmn : binary32Ops.ofInt mn = Binary32.finite (mn : ℚ) := ofInt_byte mn h0 (by omega)
  have hr : binary32Ops.ofInt (mx - mn) = Binary32.finite ((mx - mn : Int) : ℚ) :=
    ofInt_byte (mx - mn) (by omega) (by omega)
  have ha : Binary32.ofRat ((v : ℚ) + -(mn : ℚ)) = Binary32.finite ((v - mn : Int) : ℚ) := by
    have := ofInt_byte (v - mn) (by omega) (by omega)
    have e : ((v - mn : Int) : ℚ) = (v : ℚ) + -(mn : ℚ) := by push_cast; ring
    rw [← e]; exact this
  -- facts about the real values
  have hrpos : (0 : ℚ) < ((mx - mn : Int) : ℚ) := by exact_mod_cast (by omega : (0 : Int) < mx - mn)
  have hrle : ((mx - mn : Int) : ℚ) ≤ 255 := by exact_mod_cast (by omega : mx - mn ≤ 255)
  have ha0 : (0 : ℚ) ≤ ((v - mn : Int) : ℚ) := by exact_mod_cast (by omega : (0 : Int) ≤ v - mn)
  have har : ((v - mn : Int) : ℚ) ≤ ((mx - mn : Int) : ℚ) := by
    exact_mod_cast (by omega : v - mn ≤ mx - mn)
  have hmn0 : (0 : ℚ) ≤ (mn : ℚ) := by exact_mod_cast h0
  have hvle : (v : ℚ) ≤ 255 := by exact_mod_cast (by omega : v ≤ 255)
  have hav : ((v - mn : Int) : ℚ) + (mn : ℚ) = (v : ℚ) := by push_cast; ring
  set a : ℚ := ((v - mn : Int) : ℚ) with hadef
  set r : ℚ := ((mx - mn : Int) : ℚ) with hrdef
  have hq1 : 0 ≤ a / r := div_nonneg ha0 hrpos.le
  have hq2 : a / r ≤ 1 := (div_le_one hrpos).mpr har
  -- the quotient
  obtain ⟨q, hq, hqe⟩ := ofRat_near (a / r) (by rw [abs_le]; constructor <;> linarith)
  have hqe' := abs_le.mp hqe
  -- the product
  have hrq : r * q - a = r * (q - a / r) := by field_simp; ring
  have hrq1 : r * (q - a / r) ≤ 255 * (1 / 50000) := by
    have : r * (q - a / r) ≤ r * (1 / 50000) := mul_le_mul_of_nonneg_left hqe'.2 hrpos.le
    nlinarith
  have hrq2 : -(255 * (1 / 50000)) ≤ r * (q - a / r) := by
    have : r * (-(1 / 50000)) ≤ r * (q - a / r) := mul_le_mul_of_nonneg_left hqe'.1 hrpos.le
    nlinarith
  obtain ⟨p, hp, hpe⟩ := ofRat_near (r * q) (by rw [abs_le]; constructor <;> linarith)
  have hpe' := abs_le.mp hpe
  -- the sum
  obtain ⟨s, hs, hse⟩ := ofRat_near (p + (mn : ℚ)) (by rw [abs_le]; constructor <;> linarith)
  have hse' := abs_le.mp hse
  refine ⟨s, ?_, by linarith, by linarith⟩
  rw [hv, hmn, hr]
  show Binary32.add (Binary32.mul (Binary32.finite r)
    (Binary32.div (Binary32.add (Binary32.finite (v : ℚ)) (Binary32.neg (Binary32.finite (mn : ℚ))))
      (Binary32.finite r))) (Binary32.finite (mn : ℚ)) = Binary32.finite s
  simp only [Binary32.neg, Binary32.add, ha, Binary32.div, if_neg hrpos.ne', hq, Binary32.mul, hp,
    hs]

/-- Truncation of a value strictly between `v - 1` and `v + 1`, `v ≥ 0`. -/
theorem truncQ_near (v : Int) (s : ℚ) (hv : 0 ≤ v) (h1 : (v : ℚ) - 1 < s) (h2 : s < (v : ℚ) + 1) :
    truncQ s = v ∨ (truncQ s = v - 1 ∧ 1 ≤ v) := by
  unfold truncQ
  by_cases hs : (v : ℚ) ≤ s
  · left
    have : (0 : ℚ) ≤ s := le_trans (by exact_mod_cast hv) hs
    rw [if_pos this]
    exact Int.floor_eq_iff.mpr ⟨hs, h2⟩
  · push_neg at hs
    by_cases hv1 : 1 ≤ v
    · right
      have : (0 : ℚ) ≤ s := by
        have : (1 : ℚ) ≤ v := by exact_mod_cast hv1
        linarith
      rw [if_pos this]
      refine ⟨Int.floor_eq_iff.mpr ⟨by push_cast; linarith, by push_cast; linarith⟩, hv1⟩
    · left
      have hv0 : v = 0 := by omega
      subst hv0
      have : ¬ ((0 : ℚ) ≤ s) := by push_neg; simpa using hs
      rw [if_neg this]
      exact Int.ceil_eq_iff.mpr ⟨by simpa using h1, by simpa using hs.le⟩

theorem toUcharQ_of_truncQ (w : UChar) (s : ℚ) (h : truncQ s = ((w.val : Nat) : Int)) :
    toUcharQ s = some w := by
  have hw := w.isLt
  unfold toUcharQ
  rw [if_pos (by rw [h]; constructor <;> omega)]
  congr 1
  apply Fin.ext
  rw [h]
  show (w.val : Int).toNat % 256 = w.val
  rw [Int.toNat_ofNat]
  exact Nat.mod_eq_of_lt hw

theorem toUcharQ_near (b : UChar) (s : ℚ) (h1 : ((b.val : Int) : ℚ) - 1 < s)
    (h2 : s < ((b.val : Int) : ℚ) + 1) :
    ∃ w : UChar, toUcharQ s = some w ∧ (w = b ∨ w.val + 1 = b.val) := by
  have hb := b.isLt
  rcases truncQ_near (b.val : Int) s (by omega) h1 h2 with h | ⟨h, h'⟩
  · exact ⟨b, toUcharQ_of_truncQ b s h, Or.inl rfl⟩
  · have hlt : b.val - 1 < 256 := by omega
    refine ⟨⟨b.val - 1, hlt⟩, toUcharQ_of_truncQ _ s ?_, Or.inr ?_⟩
    · rw [h]
      show (b.val : Int) - 1 = ((b.val - 1 : Nat) : Int)
      omega
    · show b.val - 1 + 1 = b.val
      omega

theorem toUcharQ_byte (b : UChar) : toUcharQ ((b.val : Int) : ℚ) = some b := by
  apply toUcharQ_of_truncQ
  unfold truncQ
  rw [if_pos (by exact_mod_cast (by omega : (0 : Int) ≤ (b.val : Int)))]
  exact Int.floor_intCast _

/-! ## The range scan and the round trip -/

section Scan
variable {F : Type}

theorem scanPixel_MinRgb (pixel k : Int) (info : HairInpaintInfo F) :
    (scanPixel pixel k info).MinRgb =
      if pixel < info.MinRgb k then store info.MinRgb k pixel else info.MinRgb := by
  unfold scanPixel
  by_cases h1 : pixel > info.MaxRgb k <;> by_cases h2 : pixel < info.MinRgb k <;> simp [h1, h2]

theorem scanPixel_MaxRgb (pixel k : Int) (info : HairInpaintInfo F) :
    (scanPixel pixel k info).MaxRgb =
      if pixel > info.MaxRgb k then store info.MaxRgb k pixel else info.MaxRgb := by
  unfold scanPixel
  by_cases h1 : pixel > info.MaxRgb k <;> by_cases h2 : pixel < info.MinRgb k <;> simp [h1, h2]

theorem scanPixel_dims (pixel k : Int) (info : HairInpaintInfo F) :
    (scanPixel pixel k info).Width = info.Width ∧ (scanPixel pixel k info).Height = info.Height ∧
      (scanPixel pixel k info).Channels = info.Channels := by
  unfold scanPixel
  by_cases h1 : pixel > info.MaxRgb k <;> by_cases h2 : pixel < info.MinRgb k <;> simp [h1, h2]

theorem scanPixel_bounds (pixel k : Int) (info : HairInpaintInfo F) :
    (scanPixel pixel k info).MinRgb k ≤ pixel ∧ pixel ≤ (scanPixel pixel k info).MaxRgb k := by
  rw [scanPixel_MinRgb, scanPixel_MaxRgb]
  constructor
  · split_ifs with h
    · simp [store]
    · omega
  · split_ifs with h
    · simp [store]
    · omega

theorem scanPixel_mono (pixel k' k : Int) (info : HairInpaintInfo F) :
    (scanPixel pixel k' info).MinRgb k ≤ info.MinRgb k ∧
      info.MaxRgb k ≤ (scanPixel pixel k' info).MaxRgb k := by
  rw [scanPixel_MinRgb, scanPixel_MaxRgb]
  constructor
  · split_ifs with h
    · unfold store
      split_ifs with e
      · subst e; omega
      · exact le_refl _
    · exact le_refl _
  · split_ifs with h
    · unfold store
      split_ifs with e
      · subst e; omega
      · exact le_refl _
    · exact le_refl _

/-- Invariant rule for the range scan. -/
theorem scanRange_inv (Q : HairInpaintInfo F → Prop) (width height : Int)
    (src_image_ptr : Int → UChar) (info : HairInpaintInfo F) (h0 : Q info)
    (hQ : ∀ pixel k t, Q t → Q (scanPixel pixel k t)) :
    Q (scanRange width height src_image_ptr info) := by
  unfold scanRange
  exact forLoop2_inv Q 0 height 0 width _ info h0
    (fun y x t _ _ _ _ ht => forLoop_inv Q 0 3 _ t ht (fun k u _ _ hu => hQ _ k u hu))

theorem scanRange_dims (width height : Int) (src_image_ptr : Int → UChar)
    (info : HairInpaintInfo F) :
    (scanRange width height src_image_ptr info).Width = info.Width ∧
      (scanRange width height src_image_ptr info).Height = info.Height ∧
      (scanRange width height src_image_ptr info).Channels = info.Channels :=
  scanRange_inv (fun t => t.Width = info.Width ∧ t.Height = info.Height ∧
    t.Channels = info.Channels) width height src_image_ptr info ⟨rfl, rfl, rfl⟩
    (fun pixel k t ht => by
      obtain ⟨a, b, c⟩ := scanPixel_dims pixel k t
      exact ⟨a.trans ht.1, b.trans ht.2.1, c.trans ht.2.2⟩)

/-- After the range scan every byte of channel `k` lies within the range of
channel `k`. -/
theorem scanRange_bounds (width height : Int) (src_image_ptr : Int → UChar)
    (info : HairInpaintInfo F) (k y x : Int) (hk0 : 0 ≤ k) (hk1 : k < 3) (hy0 : 0 ≤ y)
    (hy1 : y < height) (hx0 : 0 ≤ x) (hx1 : x < width) :
    (scanRange width height src_image_ptr info).MinRgb k ≤
        (((src_image_ptr (y * (width * 3) + (x * 3) + k)).val : Nat) : Int) ∧
      (((src_image_ptr (y * (width * 3) + (x * 3) + k)).val : Nat) : Int) ≤
        (scanRange width height src_image_ptr info).MaxRgb k := by
  unfold scanRange
  refine forLoop2_hit (fun (_ : HairInpaintInfo F) => True)
    (fun (t : HairInpaintInfo F) =>
      t.MinRgb k ≤ (((src_image_ptr (y * (width * 3) + (x * 3) + k)).val : Nat) : Int) ∧
      (((src_image_ptr (y * (width * 3) + (x * 3) + k)).val : Nat) : Int) ≤ t.MaxRgb k)
    0 height 0 width y x _ info hy0 hy1 hx0 hx1 trivial (fun _ _ _ _ _ _ _ _ => trivial) ?_ ?_
  · intro t _
    refine forLoop_hit (fun (_ : HairInpaintInfo F) => True)
      (fun (t : HairInpaintInfo F) =>
        t.MinRgb k ≤ (((src_image_ptr (y * (width * 3) + (x * 3) + k)).val : Nat) : Int) ∧
        (((src_image_ptr (y * (width * 3) + (x * 3) + k)).val : Nat) : Int) ≤ t.MaxRgb k)
      0 k 3 _ t hk0 hk1 trivial (fun _ _ _ _ _ => trivial) ?_ ?_
    · intro u _
      exact scanPixel_bounds _ k u
    · intro k' u _ _ _ hu
      have := scanPixel_mono (((src_image_ptr (y * (width * 3) + x * 3 + k')).val : Nat) : Int)
        k' k u
      exact ⟨le_trans this.1 hu.1, le_trans hu.2 this.2⟩
  · intro y' x' t _ _ _ _ _ _ ht
    refine forLoop_inv (fun (t : HairInpaintInfo F) =>
        t.MinRgb k ≤ (((src_image_ptr (y * (width * 3) + (x * 3) + k)).val : Nat) : Int) ∧
        (((src_image_ptr (y * (width * 3) + (x * 3) + k)).val : Nat) : Int) ≤ t.MaxRgb k)
      0 3 _ t ht ?_
    intro k' u _ _ hu
    have := scanPixel_mono (((src_image_ptr (y' * (width * 3) + x' * 3 + k')).val : Nat) : Int)
      k' k u
    exact ⟨le_trans this.1 hu.1, le_trans hu.2 this.2⟩

end Scan

/-- With an all-zero mask, what `convertToMatArrayFormat` stores for a pixel
after `normalizeImage` is the conversion of `range * ((v - min) / range) + min`
computed in the float arithmetic, `v` being the source byte at the same
interleaved index. -/
theorem round_trip_cell {F : Type} (ops : FloatOps F) (fuel : Nat) (width height : Int)
    (src_image_ptr : Int → UChar) (dstImage dstMask dstMaskImage : Int → F)
    (out : Int → Option UChar) (info : HairInpaintInfo F)
    (hgt1 : ops.gt ops.one ops.zero = true) (hf : 3 ≤ fuel) (hW : info.Width = width)
    (hH : info.Height = height) (hC : info.Channels = 3) (hw : width ≠ 1) (hh : height ≠ 1) :
    ∃ r, normalizeImage ops fuel width height src_image_ptr (fun _ => 0) dstImage dstMask
        dstMaskImage info = some r ∧
      r.2 = scanRange width height src_image_ptr info ∧
      ∀ k y x : Int, 0 ≤ k → k < 3 → 0 ≤ y → y < height → 0 ≤ x → x < width →
        convertToMatArrayFormat ops r.1.dstMaskImage out r.2 (y * (width * 3) + (x * 3) + k) =
          ops.toUchar
            (ops.add
              (ops.mul (ops.ofInt (r.2.MaxRgb k - r.2.MinRgb k))
                (ops.div
                  (ops.sub
                    (ops.ofInt (((src_image_ptr (y * (width * 3) + (x * 3) + k)).val : Nat) : Int))
                    (ops.ofInt (r.2.MinRgb k)))
                  (ops.ofInt (r.2.MaxRgb k - r.2.MinRgb k))))
              (ops.ofInt (r.2.MinRgb k))) := by
  obtain ⟨r, hr, hinfo, hplanes⟩ := normalizeImage_planes ops fuel width height
    src_image_ptr (fun _ => 0) dstImage dstMask dstMaskImage info hgt1 hw hh hf
  refine ⟨r, hr, hinfo, ?_⟩
  intro k y x hk0 hk1 hy0 hy1 hx0 hx1
  obtain ⟨dW, dH, dC⟩ := scanRange_dims width height src_image_ptr info
  have hrW : r.2.Width = width := by rw [hinfo, dW, hW]
  have hrH : r.2.Height = height := by rw [hinfo, dH, hH]
  have hrC : r.2.Channels = 3 := by rw [hinfo, dC, hC]
  have hc := convertToMatArrayFormat_hit ops r.1.dstMaskImage out r.2 k y x hk0
    (by rw [hrC]; exact hk1) hy0 (by rw [hrH]; exact hy1) hx0 (by rw [hrW]; exact hx1)
  rw [hrW, hrH, hrC] at hc
  rw [hc]
  obtain ⟨h1, h2⟩ := hplanes k y x hk0 hk1 hy0 hy1 hx0 hx1
  rw [add_assoc (k * width * height), h2 rfl, h1]
  rfl

theorem exact_round_trip_value (v mn mx : Int) (h : mn ≠ mx) :
    exactOps.add
      (exactOps.mul (exactOps.ofInt (mx - mn))
        (exactOps.div (exactOps.sub (exactOps.ofInt v) (exactOps.ofInt mn))
          (exactOps.ofInt (mx - mn))))
      (exactOps.ofInt mn) = (v : ℚ) := by
  show ((mx - mn : Int) : ℚ) * (((v : ℚ) - (mn : ℚ)) / ((mx - mn : Int) : ℚ)) + (mn : ℚ) = v
  have h0 : (mx : ℚ) - (mn : ℚ) ≠ 0 := by
    have : mx - mn ≠ 0 := by omega
    exact_mod_cast this
  push_cast
  field_simp

/-- In exact arithmetic normalization followed by denormalization returns every
byte of a channel with `min ≠ max`. -/
theorem round_trip_exact (fuel : Nat) (width height : Int)
    (src_image_ptr : Int → UChar) (dstImage dstMask dstMaskImage : Int → ℚ)
    (out : Int → Option UChar) (info : HairInpaintInfo ℚ)
    (hf : 3 ≤ fuel) (hW : info.Width = width) (hH : info.Height = height)
    (hC : info.Channels = 3) (hw : width ≠ 1) (hh : height ≠ 1) :
    ∃ r, normalizeImage exactOps fuel width height src_image_ptr (fun _ => 0) dstImage dstMask
        dstMaskImage info = some r ∧
      ∀ k y x : Int, 0 ≤ k → k < 3 → 0 ≤ y → y < height → 0 ≤ x → x < width →
        r.2.MinRgb k ≠ r.2.MaxRgb k →
        convertToMatArrayFormat exactOps r.1.dstMaskImage out r.2
            (y * (width * 3) + (x * 3) + k) =
          some (src_image_ptr (y * (width * 3) + (x * 3) + k)) := by
  obtain ⟨r, hr, _, hcell⟩ := round_trip_cell exactOps fuel width height src_image_ptr dstImage
    dstMask dstMaskImage out info (by decide) hf hW hH hC hw hh
  refine ⟨r, hr, ?_⟩
  intro k y x hk0 hk1 hy0 hy1 hx0 hx1 hne
  rw [hcell k y x hk0 hk1 hy0 hy1 hx0 hx1, exact_round_trip_value _ _ _ hne]
  exact toUcharQ_byte _

/-! ## The update in exact arithmetic -/

/-- In exact arithmetic the scalar update adds to the old value the diffusion
term and subtracts the fidelity term. -/
theorem updatePixel_exact (mask src dst : Int → ℚ) (info : HairInpaintInfo ℚ)
    (off y x : Int) :
    updatePixel exactOps mask src info off y x dst (off + (y * info.Width + x)) =
      dst (off + (y * info.Width + x)) +
        info.Dt * (dst (off + (y - 1) * info.Width + x) + dst (off + (y + 1) * info.Width + x) +
          dst (off + y * info.Width + (x - 1)) + dst (off + y * info.Width + (x + 1)) -
          info.Cw * dst (off + (y * info.Width + x))) -
        info.Dt * mask (y * info.Width + x) *
          (dst (off + (y * info.Width + x)) - src (off + (y * info.Width + x))) := by
  unfold updatePixel
  simp only [store_same]
  rfl

/-! ## Degenerate ranges -/

theorem ofRat_zero : Binary32.ofRat 0 = Binary32.finite 0 := by decide!

theorem binary32_sub_self (v : ℚ) :
    binary32Ops.sub (Binary32.finite v) (Binary32.finite v) = Binary32.finite 0 := by
  show Binary32.add (Binary32.finite v) (Binary32.neg (Binary32.finite v)) = _
  simp only [Binary32.neg, Binary32.add, add_neg_cancel]
  exact ofRat_zero

theorem binary32_zero_div_zero :
    binary32Ops.div (Binary32.finite 0) (Binary32.finite 0) = Binary32.nan := by decide!

theorem binary32_zero_mul_finite (q : ℚ) :
    binary32Ops.mul (Binary32.finite 0) (Binary32.finite q) = Binary32.finite 0 := by
  show Binary32.ofRat (0 * q) = _
  rw [zero_mul]; exact ofRat_zero

theorem binary32_zero_mul_other (v : Binary32) (h : ∀ q : ℚ, v ≠ Binary32.finite q) :
    binary32Ops.mul (Binary32.finite 0) v = Binary32.nan := by
  cases v with
  | finite q => exact absurd rfl (h q)
  | posInf => decide!
  | negInf => decide!
  | nan => rfl

theorem binary32_nan_add (w : Binary32) : binary32Ops.add Binary32.nan w = Binary32.nan := by
  cases w <;> rfl

/-! ## Termination of normalizeImage -/

theorem normalizeChannel_stuck {F : Type} (ops : FloatOps F) (fuel : Nat) (width height : Int)
    (src_image_ptr : Int → UChar) (range_list : Int → Int) (info : HairInpaintInfo F)
    (k : Int) (p : Planes F) (h : width = 1 ∨ height = 1) :
    normalizeChannel ops fuel width height src_image_ptr range_list info k p = none := by
  unfold normalizeChannel
  by_cases hw : width = 1
  · subst hw
    have : fixColumns fuel 1 height k
        (fillChannel ops 1 height src_image_ptr range_list info k p) = none := by
      unfold fixColumns
      exact strideLoop_stuck fuel 0 _ _ (by decide)
    rw [this]; rfl
  · have hh : height = 1 := by tauto
    subst hh
    cases hc : fixColumns fuel width 1 k
        (fillChannel ops width 1 src_image_ptr range_list info k p) with
    | none => rfl
    | some q =>
      show fixRows fuel width 1 k q = none
      unfold fixRows
      exact strideLoop_stuck fuel 0 _ _ (by decide)

theorem normalizeImage_stuck {F : Type} (ops : FloatOps F) (fuel : Nat) (width height : Int)
    (src_image_ptr src_mask_ptr : Int → UChar) (dstImage dstMask dstMaskImage : Int → F)
    (info : HairInpaintInfo F) (h : width = 1 ∨ height = 1) :
    normalizeImage ops fuel width height src_image_ptr src_mask_ptr dstImage dstMask
      dstMaskImage info = none := by
  unfold normalizeImage forLoopM
  have e : ((3 : Int) - 0).toNat = 3 := rfl
  simp only [e, List.range_succ, List.range_zero, List.nil_append, List.cons_append,
    List.foldlM_cons, List.foldlM_nil]
  simp [normalizeChannel_stuck _ _ _ _ _ _ _ _ _ h]

/-! ## The range scan: extremes -/

/-- Invariant rule for the range scan in which the scanned value is known to
be a byte of the image. -/
theorem scanRange_inv_pixels {F : Type} (Q : HairInpaintInfo F → Prop) (width height : Int)
    (src_image_ptr : Int → UChar) (info : HairInpaintInfo F) (h0 : Q info)
    (hQ : ∀ y x k t, 0 ≤ y → y < height → 0 ≤ x → x < width → 0 ≤ k → k < 3 → Q t →
      Q (scanPixel (((src_image_ptr (y * (width * 3) + (x * 3) + k)).val : Nat) : Int) k t)) :
    Q (scanRange width height src_image_ptr info) := by
  unfold scanRange
  exact forLoop2_inv Q 0 height 0 width _ info h0
    (fun y x t a b c d ht => forLoop_inv Q 0 3 _ t ht (fun k u e f hu => hQ y x k u a b c d e f hu))

/-- The range scan can only widen the range. -/
theorem scanRange_mono {F : Type} (width height : Int) (src_image_ptr : Int → UChar)
    (info : HairInpaintInfo F) (k : Int) :
    (scanRange width height src_image_ptr info).MinRgb k ≤ info.MinRgb k ∧
      info.MaxRgb k ≤ (scanRange width height src_image_ptr info).MaxRgb k :=
  scanRange_inv (fun t => t.MinRgb k ≤ info.MinRgb k ∧ info.MaxRgb k ≤ t.MaxRgb k) width height
    src_image_ptr info ⟨le_refl _, le_refl _⟩
    (fun pixel k' t ht => by
      have := scanPixel_mono pixel k' k t
      exact ⟨le_trans this.1 ht.1, le_trans ht.2 this.2⟩)

/-- After the range scan each end of the range of channel `k` is the seed or a
byte of channel `k` of the image. -/
theorem scanRange_attained {F : Type} (width height : Int) (src_image_ptr : Int → UChar)
    (info : HairInpaintInfo F) (k : Int) :
    ((scanRange width height src_image_ptr info).MinRgb k = info.MinRgb k ∨
      ∃ y x : Int, 0 ≤ y ∧ y < height ∧ 0 ≤ x ∧ x < width ∧
        (((src_image_ptr (y * (width * 3) + (x * 3) + k)).val : Nat) : Int) =
          (scanRange width height src_image_ptr info).MinRgb k) ∧
    ((scanRange width height src_image_ptr info).MaxRgb k = info.MaxRgb k ∨
      ∃ y x : Int, 0 ≤ y ∧ y < height ∧ 0 ≤ x ∧ x < width ∧
        (((src_image_ptr (y * (width * 3) + (x * 3) + k)).val : Nat) : Int) =
          (scanRange width height src_image_ptr info).MaxRgb k) := by
  refine scanRange_inv_pixels (fun t =>
    (t.MinRgb k = info.MinRgb k ∨
      ∃ y x : Int, 0 ≤ y ∧ y < height ∧ 0 ≤ x ∧ x < width ∧
        (((src_image_ptr (y * (width * 3) + (x * 3) + k)).val : Nat) : Int) = t.MinRgb k) ∧
    (t.MaxRgb k = info.MaxRgb k ∨
      ∃ y x : Int, 0 ≤ y ∧ y < height ∧ 0 ≤ x ∧ x < width ∧
        (((src_image_ptr (y * (width * 3) + (x * 3) + k)).val : Nat) : Int) = t.MaxRgb k))
    width height src_image_ptr info ⟨Or.inl rfl, Or.inl rfl⟩ ?_
  intro y x k' t hy0 hy1 hx0 hx1 _ _ ht
  rw [scanPixel_MinRgb, scanPixel_MaxRgb]
  constructor
  · split_ifs with h
    · unfold store
      split_ifs with e
      · subst e
        exact Or.inr ⟨y, x, hy0, hy1, hx0, hx1, rfl⟩
      · exact ht.1
    · exact ht.1
  · split_ifs with h
    · unfold store
      split_ifs with e
      · subst e
        exact Or.inr ⟨y, x, hy0, hy1, hx0, hx1, rfl⟩
      · exact ht.2
    · exact ht.2

/-- The parameter block that `normalizeImage` holds on return is the result of
the range scan. -/
theorem normalizeImage_info {F : Type} (ops : FloatOps F) (fuel : Nat) (width height : Int)
    (src_image_ptr src_mask_ptr : Int → UChar) (dstImage dstMask dstMaskImage : Int → F)
    (info : HairInpaintInfo F) (r : Planes F × HairInpaintInfo F)
    (hr : normalizeImage ops fuel width height src_image_ptr src_mask_ptr dstImage dstMask
      dstMaskImage info = some r) :
    r.2 = scanRange width height src_image_ptr info := by
  unfold normalizeImage at hr
  simp only [Option.map_eq_some'] at hr
  obtain ⟨p, _, hp⟩ := hr
  rw [← hp]

/-! ## Normalized values in binary32 -/

theorem ilog2_le_zero (n d : Nat) (hn : 0 < n) (hd : 0 < d) (h : n ≤ d) : ilog2 n d ≤ 0 := by
  by_contra hc
  have h1 : 1 ≤ ilog2 n d := by omega
  have h2 := pow2_ilog2_le n d hn hd
  have h3 : (2 : ℚ) ≤ pow2 (ilog2 n d) := by
    rw [pow2_eq_zpow]
    calc (2 : ℚ) = 2 ^ (1 : Int) := by norm_num
      _ ≤ 2 ^ (ilog2 n d) := zpow_le_zpow_right₀ (by norm_num) h1
  have hdq : (0 : ℚ) < d := by exact_mod_cast hd
  have h4 : (n : ℚ) / d ≤ 1 := by
    rw [div_le_one hdq]; exact_mod_cast h
  linarith

/-- Rounding to binary32 keeps a value of `[0, 1]` in `[0, 1]`. -/
theorem roundBinary32_unit (x : ℚ) (h0 : 0 ≤ x) (h1 : x ≤ 1) :
    0 ≤ roundBinary32 x ∧ roundBinary32 x ≤ 1 := by
  unfold roundBinary32
  simp only
  by_cases hn0 : x.num.natAbs = 0
  · rw [if_pos hn0]; exact ⟨le_refl 0, zero_le_one⟩
  rw [if_neg hn0]
  have hn : 0 < x.num.natAbs := Nat.pos_of_ne_zero hn0
  have hd : 0 < x.den := x.den_pos
  have hdq : (0 : ℚ) < (x.den : ℚ) := by exact_mod_cast hd
  have habs := abs_eq_natAbs_div x
  rw [abs_of_nonneg h0] at habs
  have hle : x.num.natAbs ≤ x.den := by
    have : (x.num.natAbs : ℚ) / x.den ≤ 1 := by rw [← habs]; exact h1
    rw [div_le_one hdq] at this
    exact_mod_cast this
  have hi := ilog2_le_zero _ _ hn hd hle
  have he : ¬ (23 ≤ max (ilog2 x.num.natAbs x.den) (-126)) := by
    have : max (ilog2 x.num.natAbs x.den) (-126) ≤ 0 := max_le hi (by decide)
    omega
  have hs : ¬ (x.num < 0) := not_lt.mpr (Rat.num_nonneg.mpr h0)
  simp only [if_neg he, if_neg hs]
  set k := (23 - max (ilog2 x.num.natAbs x.den) (-126)).toNat with hk
  have hm := roundDivEven_error (x.num.natAbs * 2 ^ k) x.den hd
  have hpk : (0 : ℚ) < 2 ^ k := by positivity
  rw [Rat.mkRat_eq_div]
  have e2 : ((2 ^ k : Nat) : ℚ) = (2 : ℚ) ^ k := by norm_num
  rw [e2]
  constructor
  · apply div_nonneg
    · exact_mod_cast Int.natCast_nonneg _
    · exact hpk.le
  · rw [div_le_one hpk]
    have hx : ((x.num.natAbs * 2 ^ k : Nat) : ℚ) / x.den ≤ 2 ^ k := by
      push_cast
      rw [mul_div_right_comm, ← habs]
      calc x * 2 ^ k ≤ 1 * 2 ^ k := mul_le_mul_of_nonneg_right h1 hpk.le
        _ = 2 ^ k := one_mul _
    have hm' := (abs_le.mp hm).2
    have hlt : ((roundDivEven (x.num.natAbs * 2 ^ k) x.den : Nat) : ℚ) < ((2 ^ k + 1 : Nat) : ℚ) := by
      push_cast; linarith
    have hnat : roundDivEven (x.num.natAbs * 2 ^ k) x.den < 2 ^ k + 1 := by exact_mod_cast hlt
    have : roundDivEven (x.num.natAbs * 2 ^ k) x.den ≤ 2 ^ k := by omega
    have : ((roundDivEven (x.num.natAbs * 2 ^ k) x.den : Nat) : ℚ) ≤ ((2 ^ k : Nat) : ℚ) := by
      exact_mod_cast this
    rw [e2] at this
    exact_mod_cast this

theorem ofRat_unit (x : ℚ) (h0 : 0 ≤ x) (h1 : x ≤ 1) :
    ∃ q : ℚ, Binary32.ofRat x = Binary32.finite q ∧ 0 ≤ q ∧ q ≤ 1 := by
  obtain ⟨a, b⟩ := roundBinary32_unit x h0 h1
  refine ⟨roundBinary32 x, ofRat_eq_finite x ?_, a, b⟩
  rw [abs_of_nonneg a]
  have := pow2_128_big
  linarith

/-- The quotient of line 33 in binary32 for a byte `v` of a channel whose
range `mn < mx` lies within the bytes: a finite value of `[0, 1]`. -/
theorem binary32_normalized_unit (v mn mx : Int) (h0 : 0 ≤ mn) (h1 : mn ≤ v) (h2 : v ≤ mx)
    (h3 : mx ≤ 255) (h4 : mn < mx) :
    ∃ q : ℚ, binary32Ops.div (binary32Ops.sub (binary32Ops.ofInt v) (binary32Ops.ofInt mn))
        (binary32Ops.ofInt (mx - mn)) = Binary32.finite q ∧ 0 ≤ q ∧ q ≤ 1 := by
  rw [ofInt_byte v (by omega) (by omega), ofInt_byte mn h0 (by omega),
    ofInt_byte (mx - mn) (by omega) (by omega)]
  have hs : binary32Ops.sub (Binary32.finite (v : ℚ)) (Binary32.finite (mn : ℚ)) =
      Binary32.finite ((v - mn : Int) : ℚ) := by
    show Binary32.add (Binary32.finite (v : ℚ)) (Binary32.neg (Binary32.finite (mn : ℚ))) = _
    simp only [Binary32.neg, Binary32.add]
    have e : (v : ℚ) + -(mn : ℚ) = ((v - mn : Int) : ℚ) := by push_cast; ring
    rw [e]
    exact ofInt_byte (v - mn) (by omega) (by omega)
  rw [hs]
  have hr : ((mx - mn : Int) : ℚ) ≠ 0 := by
    have : mx - mn ≠ 0 := by omega
    exact_mod_cast this
  have hd : binary32Ops.div (Binary32.finite ((v - mn : Int) : ℚ))
      (Binary32.finite ((mx - mn : Int) : ℚ)) =
      Binary32.ofRat (((v - mn : Int) : ℚ) / ((mx - mn : Int) : ℚ)) := by
    show Binary32.div (Binary32.finite _) (Binary32.finite _) = _
    simp only [Binary32.div, if_neg hr]
  rw [hd]
  have hrp : (0 : ℚ) < ((mx - mn : Int) : ℚ) := by
    have : 0 < mx - mn := by omega
    exact_mod_cast this
  apply ofRat_unit
  · apply div_nonneg
    · have : 0 ≤ v - mn := by omega
      exact_mod_cast this
    · exact hrp.le
  · rw [div_le_one hrp]
    have : v - mn ≤ mx - mn := by omega
    exact_mod_cast this

/-! ## The planes that normalizeImage returns -/

/-- The result of `normalizeImage` in full: the parameter block is the scan
result, the float mask is that of lines 9-11, at every pixel of every channel
the fully-normalized plane holds the normalized value and the masked-source
plane holds the normalized value on the border and where the mask byte is
zero, and the sentinel `1.0` elsewhere; outside the three planes both buffers
are unchanged. -/
theorem normalizeImage_result {F : Type} (ops : FloatOps F) (fuel : Nat) (width height : Int)
    (src_image_ptr src_mask_ptr : Int → UChar) (dstImage dstMask dstMaskImage : Int → F)
    (info : HairInpaintInfo F) (hgt1 : ops.gt ops.one ops.zero = true)
    (hgt0 : ops.gt ops.zero ops.zero = false)
    (hw : width ≠ 1) (hh : height ≠ 1) (hf : 3 ≤ fuel) :
    ∃ r, normalizeImage ops fuel width height src_image_ptr src_mask_ptr dstImage dstMask
        dstMaskImage info = some r ∧
      r.2 = scanRange width height src_image_ptr info ∧
      r.1.dstMask = buildMask ops width height src_mask_ptr dstMask ∧
      (∀ k y x : Int, 0 ≤ k → k < 3 → 0 ≤ y → y < height → 0 ≤ x → x < width →
        r.1.dstImage (k * width * height + (y * width + x)) =
          normalizedValue ops width src_image_ptr (fun k => r.2.MaxRgb k - r.2.MinRgb k) r.2
            k y x ∧
        r.1.dstMaskImage (k * width * height + (y * width + x)) =
          if y = 0 ∨ y = height - 1 ∨ x = 0 ∨ x = width - 1 ∨
              src_mask_ptr (y * width + x) = 0 then
            normalizedValue ops width src_image_ptr (fun k => r.2.MaxRgb k - r.2.MinRgb k) r.2
              k y x
          else ops.one) ∧
      (∀ j : Int, (∀ k y x : Int, 0 ≤ k → k < 3 → 0 ≤ y → y < height → 0 ≤ x → x < width →
          j ≠ k * width * height + (y * width + x)) →
        r.1.dstImage j = dstImage j ∧ r.1.dstMaskImage j = dstMaskImage j) := by
  obtain ⟨r, hr, hinfo, hplanes⟩ := normalizeImage_planes ops fuel width height
    src_image_ptr src_mask_ptr dstImage dstMask dstMaskImage info hgt1 hw hh hf
  have hr' := normalizeImage_eq ops fuel width height src_image_ptr src_mask_ptr dstImage dstMask
    dstMaskImage info hw hh hf
  have hre := Option.some.inj (hr.symm.trans hr')
  refine ⟨r, hr, hinfo, ?_, ?_, ?_⟩
  · rw [hre]
    simp only [channelResult_dstMask]
  · intro k y x hk0 hk1 hy0 hy1 hx0 hx1
    obtain ⟨h1, h2⟩ := hplanes k y x hk0 hk1 hy0 hy1 hx0 hx1
    refine ⟨h1, ?_⟩
    have hne : ∀ k' : Int, k' ≠ k → ∀ y' x', 0 ≤ y' → y' < height → 0 ≤ x' → x' < width →
        k * width * height + (y * width + x) ≠ k' * width * height + (y' * width + x') := by
      intro k' hk' y' x' a b c d e
      exact hk' (idx3_inj width height k y x k' y' x' hx0 hx1 c d hy0 hy1 a b e).1.symm
    have hk : k = 0 ∨ k = 1 ∨ k = 2 := by omega
    by_cases hz : src_mask_ptr (y * width + x) = 0
    · rw [if_pos (by tauto), h2 hz, h1]
    by_cases hb : y = 0 ∨ y = height - 1 ∨ x = 0 ∨ x = width - 1
    · rw [if_pos (by tauto), ← h1]
      rw [hre]
      rcases hk with rfl | rfl | rfl
      · exact channelResult_agree _ _ _ _ _ _ _ _ _ (hne 2 (by decide))
          (channelResult_agree _ _ _ _ _ _ _ _ _ (hne 1 (by decide))
            (channelResult_border _ _ _ _ _ _ _ _ _ _ hy0 hy1 hx0 hx1 hw hh hb))
      · exact channelResult_agree _ _ _ _ _ _ _ _ _ (hne 2 (by decide))
          (channelResult_border _ _ _ _ _ _ _ _ _ _ hy0 hy1 hx0 hx1 hw hh hb)
      · exact channelResult_border _ _ _ _ _ _ _ _ _ _ hy0 hy1 hx0 hx1 hw hh hb
    · rw [if_neg (by tauto)]
      have hy0' : 1 ≤ y := by omega
      have hy1' : y ≤ height - 2 := by omega
      have hx0' : 1 ≤ x := by omega
      have hx1' : x ≤ width - 2 := by omega
      have hm := buildMask_hit ops width height src_mask_ptr dstMask (y * width + x)
        (idx_nonneg width y x hy0 hx0 hx1) (idx_lt width height y x hy1 hx0 hx1)
      have key : ∀ p : Planes F, p.dstMask = buildMask ops width height src_mask_ptr dstMask →
          ∀ rl inf,
          (channelResult ops width height src_image_ptr rl inf k p).dstMaskImage
              (k * width * height + (y * width + x)) = ops.one := by
        intro p hp rl inf
        rw [channelResult_interior ops width height src_image_ptr rl inf k y x p hy0' hy1'
          hx0' hx1', hp, hm]
        simp [hz, hgt0]
      rw [hre]
      rcases hk with rfl | rfl | rfl
      · rw [channelResult_frame _ _ _ _ _ _ _ _ _ (hne 2 (by decide)),
          channelResult_frame _ _ _ _ _ _ _ _ _ (hne 1 (by decide))]
        exact key _ rfl _ _
      · rw [channelResult_frame _ _ _ _ _ _ _ _ _ (hne 2 (by decide))]
        exact key _ (by simp only [channelResult_dstMask]) _ _
      · exact key _ (by simp only [channelResult_dstMask]) _ _
  · intro j hj
    rw [hre]
    constructor
    · rw [channelResult_dstImage_frame _ _ _ _ _ _ _ _ _ (fun y x a b c d => hj 2 y x (by decide) (by decide) a b c d),
        channelResult_dstImage_frame _ _ _ _ _ _ _ _ _ (fun y x a b c d => hj 1 y x (by decide) (by decide) a b c d),
        channelResult_dstImage_frame _ _ _ _ _ _ _ _ _ (fun y x a b c d => hj 0 y x (by decide) (by decide) a b c d)]
    · rw [channelResult_frame _ _ _ _ _ _ _ _ _ (fun y x a b c d => hj 2 y x (by decide) (by decide) a b c d),
        channelResult_frame _ _ _ _ _ _ _ _ _ (fun y x a b c d => hj 1 y x (by decide) (by decide) a b c d),
        channelResult_frame _ _ _ _ _ _ _ _ _ (fun y x a b c d => hj 0 y x (by decide) (by decide) a b c d)]

/-- Both planes that `normalizeImage` returns hold, at every pixel of every
channel, values with the property `P`, when `1.0` and every normalized value
have it. -/
theorem normalizeImage_planes_all {F : Type} (ops : FloatOps F) (P : F → Prop) (fuel : Nat)
    (width height : Int) (src_image_ptr src_mask_ptr : Int → UChar)
    (dstImage dstMask dstMaskImage : Int → F) (info : HairInpaintInfo F)
    (hgt1 : ops.gt ops.one ops.zero = true) (hgt0 : ops.gt ops.zero ops.zero = false)
    (hw : width ≠ 1) (hh : height ≠ 1) (hf : 3 ≤ fuel) (hone : P ops.one)
    (hval : ∀ k y x : Int, 0 ≤ k → k < 3 → 0 ≤ y → y < height → 0 ≤ x → x < width →
      P (ops.div
        (ops.sub (ops.ofInt (((src_image_ptr (y * (width * 3) + (x * 3) + k)).val : Nat) : Int))
          (ops.ofInt ((scanRange width height src_image_ptr info).MinRgb k)))
        (ops.ofInt ((scanRange width height src_image_ptr info).MaxRgb k -
          (scanRange width height src_image_ptr info).MinRgb k)))) :
    ∃ r, normalizeImage ops fuel width height src_image_ptr src_mask_ptr dstImage dstMask
        dstMaskImage info = some r ∧
      ∀ k y x : Int, 0 ≤ k → k < 3 → 0 ≤ y → y < height → 0 ≤ x → x < width →
        r.1.dstImage (k * width * height + (y * width + x)) =
          ops.div
            (ops.sub
              (ops.ofInt (((src_image_ptr (y * (width * 3) + (x * 3) + k)).val : Nat) : Int))
              (ops.ofInt (r.2.MinRgb k)))
            (ops.ofInt (r.2.MaxRgb k - r.2.MinRgb k)) ∧
        (r.1.dstMaskImage (k * width * height + (y * width + x)) =
            r.1.dstImage (k * width * height + (y * width + x)) ∨
          r.1.dstMaskImage (k * width * height + (y * width + x)) = ops.one) ∧
        P (r.1.dstImage (k * width * height + (y * width + x))) ∧
        P (r.1.dstMaskImage (k * width * height + (y * width + x))) := by
  obtain ⟨r, hr, hinfo, _, hpix, _⟩ := normalizeImage_result ops fuel width height src_image_ptr
    src_mask_ptr dstImage dstMask dstMaskImage info hgt1 hgt0 hw hh hf
  refine ⟨r, hr, ?_⟩
  intro k y x hk0 hk1 hy0 hy1 hx0 hx1
  obtain ⟨h1, h2⟩ := hpix k y x hk0 hk1 hy0 hy1 hx0 hx1
  have hv := hval k y x hk0 hk1 hy0 hy1 hx0 hx1
  rw [← hinfo] at hv
  have h1' : r.1.dstImage (k * width * height + (y * width + x)) =
      ops.div
        (ops.sub
          (ops.ofInt (((src_image_ptr (y * (width * 3) + (x * 3) + k)).val : Nat) : Int))
          (ops.ofInt (r.2.MinRgb k)))
        (ops.ofInt (r.2.MaxRgb k - r.2.MinRgb k)) := h1
  have hP1 : P (r.1.dstImage (k * width * height + (y * width + x))) := by rw [h1']; exact hv
  refine ⟨h1', ?_, hP1, ?_⟩
  · rw [h2, ← h1]
    split_ifs
    · exact Or.inl rfl
    · exact Or.inr rfl
  · rw [h2, ← h1]
    split_ifs
    · exact hP1
    · exact hone

/-- In exact arithmetic every entry of the two planes lies in `[0, 1]` when
each channel has `MinRgb < MaxRgb` after the scan, whatever the seeds. -/
theorem normalizeImage_unit_range_exact (fuel : Nat) (width height : Int)
    (src_image_ptr src_mask_ptr : Int → UChar) (dstImage dstMask dstMaskImage : Int → ℚ)
    (info : HairInpaintInfo ℚ) (hw : width ≠ 1) (hh : height ≠ 1) (hf : 3 ≤ fuel)
    (hrange : ∀ k : Int, 0 ≤ k → k < 3 →
      (scanRange width height src_image_ptr info).MinRgb k <
        (scanRange width height src_image_ptr info).MaxRgb k) :
    ∃ r, normalizeImage exactOps fuel width height src_image_ptr src_mask_ptr dstImage dstMask
        dstMaskImage info = some r ∧
      ∀ k y x : Int, 0 ≤ k → k < 3 → 0 ≤ y → y < height → 0 ≤ x → x < width →
        (0 ≤ r.1.dstImage (k * width * height + (y * width + x)) ∧
          r.1.dstImage (k * width * height + (y * width + x)) ≤ 1) ∧
        (0 ≤ r.1.dstMaskImage (k * width * height + (y * width + x)) ∧
          r.1.dstMaskImage (k * width * height + (y * width + x)) ≤ 1) := by
  obtain ⟨r, hr, h⟩ := normalizeImage_planes_all exactOps (fun v => 0 ≤ v ∧ v ≤ 1) fuel width
    height src_image_ptr src_mask_ptr dstImage dstMask dstMaskImage info (by decide) (by decide)
    hw hh hf ⟨zero_le_one, le_refl _⟩ (by
      intro k y x hk0 hk1 hy0 hy1 hx0 hx1
      have hb := scanRange_bounds width height src_image_ptr info k y x hk0 hk1 hy0 hy1 hx0 hx1
      have hlt := hrange k hk0 hk1
      set mn := (scanRange width height src_image_ptr info).MinRgb k
      set mx := (scanRange width height src_image_ptr info).MaxRgb k
      set v := (((src_image_ptr (y * (width * 3) + (x * 3) + k)).val : Nat) : Int)
      show 0 ≤ ((v : ℚ) - (mn : ℚ)) / ((mx - mn : Int) : ℚ) ∧
        ((v : ℚ) - (mn : ℚ)) / ((mx - mn : Int) : ℚ) ≤ 1
      have hrp : (0 : ℚ) < ((mx - mn : Int) : ℚ) := by
        have : 0 < mx - mn := by omega
        exact_mod_cast this
      constructor
      · apply div_nonneg
        · have : (mn : ℚ) ≤ v := by exact_mod_cast hb.1
          linarith
        · exact hrp.le
      · rw [div_le_one hrp]
        have : (v : ℚ) ≤ mx := by exact_mod_cast hb.2
        push_cast
        linarith)
  exact ⟨r, hr, fun k y x a b c d e f => ⟨(h k y x a b c d e f).2.2.1, (h k y x a b c d e f).2.2.2⟩⟩

/-! ## Mask reads -/

theorem maskReads_mem (srcImage : Mat) (i : Int) (h0 : 0 ≤ i)
    (h1 : i < srcImage.rows * srcImage.cols) : i ∈ maskReads srcImage := by
  unfold maskReads
  refine forLoop_hit (fun (_ : List Int) => True) (fun (l : List Int) => i ∈ l) 0 i
    (srcImage.rows * srcImage.cols) _ [] h0 h1 trivial (fun _ _ _ _ _ => trivial) ?_ ?_
  · intro t _
    simp
  · intro j t _ _ _ ht
    exact List.mem_append_left _ ht

/-! ## The maximum principle in exact arithmetic -/

/-- The planar index of a pixel of a channel `k < ch` lies within the
`ch * Width * Height` elements of the buffer. -/
theorem plane_index_bounds (w h ch k y x : Int) (hk0 : 0 ≤ k) (hk1 : k < ch) (hy0 : 0 ≤ y)
    (hy1 : y < h) (hx0 : 0 ≤ x) (hx1 : x < w) :
    0 ≤ k * w * h + (y * w + x) ∧ k * w * h + (y * w + x) < ch * w * h := by
  have h1 := idx_nonneg w y x hy0 hx0 hx1
  have h2 := idx_lt w h y x hy1 hx0 hx1
  have hwh : 0 ≤ w * h := mul_nonneg (by omega) (by omega)
  have h3 : 0 ≤ k * (w * h) := mul_nonneg hk0 hwh
  have h4 : (k + 1) * (w * h) ≤ ch * (w * h) := mul_le_mul_of_nonneg_right (by omega) hwh
  constructor
  · nlinarith
  · nlinarith

/-- A convex combination of values of `[lo, hi]` lies in `[lo, hi]`: the
update of lines 136-138 with `Cw = 4`. -/
theorem convex_update (lo hi dt m c u d l r o : ℚ) (hdt : 0 ≤ dt) (hm : 0 ≤ m)
    (hs : dt * (4 + m) ≤ 1)
    (hc : lo ≤ c ∧ c ≤ hi) (hu : lo ≤ u ∧ u ≤ hi) (hd : lo ≤ d ∧ d ≤ hi) (hl : lo ≤ l ∧ l ≤ hi)
    (hr : lo ≤ r ∧ r ≤ hi) (ho : lo ≤ o ∧ o ≤ hi) :
    lo ≤ c + dt * (u + d + l + r - 4 * c) - dt * m * (c - o) ∧
      c + dt * (u + d + l + r - 4 * c) - dt * m * (c - o) ≤ hi := by
  have hdm : 0 ≤ dt * m := mul_nonneg hdt hm
  have h1 : 0 ≤ 1 - dt * (4 + m) := by linarith
  constructor
  · have e : c + dt * (u + d + l + r - 4 * c) - dt * m * (c - o) - lo =
        (1 - dt * (4 + m)) * (c - lo) + dt * (u - lo) + dt * (d - lo) + dt * (l - lo) +
          dt * (r - lo) + dt * m * (o - lo) := by ring
    have := mul_nonneg h1 (by linarith : 0 ≤ c - lo)
    have := mul_nonneg hdt (by linarith : 0 ≤ u - lo)
    have := mul_nonneg hdt (by linarith : 0 ≤ d - lo)
    have := mul_nonneg hdt (by linarith : 0 ≤ l - lo)
    have := mul_nonneg hdt (by linarith : 0 ≤ r - lo)
    have := mul_nonneg hdm (by linarith : 0 ≤ o - lo)
    linarith
  · have e : hi - (c + dt * (u + d + l + r - 4 * c) - dt * m * (c - o)) =
        (1 - dt * (4 + m)) * (hi - c) + dt * (hi - u) + dt * (hi - d) + dt * (hi - l) +
          dt * (hi - r) + dt * m * (hi - o) := by ring
    have := mul_nonneg h1 (by linarith : 0 ≤ hi - c)
    have := mul_nonneg hdt (by linarith : 0 ≤ hi - u)
    have := mul_nonneg hdt (by linarith : 0 ≤ hi - d)
    have := mul_nonneg hdt (by linarith : 0 ≤ hi - l)
    have := mul_nonneg hdt (by linarith : 0 ≤ hi - r)
    have := mul_nonneg hdm (by linarith : 0 ≤ hi - o)
    linarith

/-- One update of an interior pixel of a channel `k < ch` keeps every entry of
the working buffer in `[lo, hi]`. -/
theorem updatePixel_range (mask src : Int → ℚ) (info : HairInpaintInfo ℚ) (ch : Int)
    (lo hi : ℚ) (hCw : info.Cw = 4) (hDt : 0 ≤ info.Dt)
    (hmask : ∀ i, 0 ≤ i → i < info.Width * info.Height →
      0 ≤ mask i ∧ info.Dt * (4 + mask i) ≤ 1)
    (hsrc : ∀ i, 0 ≤ i → i < ch * info.Width * info.Height → lo ≤ src i ∧ src i ≤ hi)
    (k y x : Int) (hk0 : 0 ≤ k) (hk1 : k < ch) (hy0 : 1 ≤ y) (hy1 : y < info.Height - 1)
    (hx0 : 1 ≤ x) (hx1 : x < info.Width - 1) (dst : Int → ℚ)
    (hdst : ∀ i, 0 ≤ i → i < ch * info.Width * info.Height → lo ≤ dst i ∧ dst i ≤ hi) :
    ∀ i, 0 ≤ i → i < ch * info.Width * info.Height →
      lo ≤ updatePixel exactOps mask src info (k * info.Width * info.Height) y x dst i ∧
        updatePixel exactOps mask src info (k * info.Width * info.Height) y x dst i ≤ hi := by
  intro i hi0 hi1
  by_cases hi : i = k * info.Width * info.Height + (y * info.Width + x)
  · subst hi
    rw [updatePixel_exact, hCw]
    have bc := plane_index_bounds info.Width info.Height ch k y x hk0 hk1 (by omega) (by omega)
      (by omega) (by omega)
    have bu := plane_index_bounds info.Width info.Height ch k (y - 1) x hk0 hk1 (by omega)
      (by omega) (by omega) (by omega)
    have bd := plane_index_bounds info.Width info.Height ch k (y + 1) x hk0 hk1 (by omega)
      (by omega) (by omega) (by omega)
    have bl := plane_index_bounds info.Width info.Height ch k y (x - 1) hk0 hk1 (by omega)
      (by omega) (by omega) (by omega)
    have br := plane_index_bounds info.Width info.Height ch k y (x + 1) hk0 hk1 (by omega)
      (by omega) (by omega) (by omega)
    have bm1 := idx_nonneg info.Width y x (by omega) (by omega) (by omega)
    have bm2 := idx_lt info.Width info.Height y x (by omega) (by omega) (by omega)
    have hm := hmask (y * info.Width + x) bm1 (by rw [mul_comm info.Width info.Height]; exact bm2)
    rw [← add_assoc (k * info.Width * info.Height) ((y - 1) * info.Width) x] at bu
    rw [← add_assoc (k * info.Width * info.Height) ((y + 1) * info.Width) x] at bd
    rw [← add_assoc (k * info.Width * info.Height) (y * info.Width) (x - 1)] at bl
    rw [← add_assoc (k * info.Width * info.Height) (y * info.Width) (x + 1)] at br
    exact convex_update lo hi info.Dt _ _ _ _ _ _ _ hDt hm.1 hm.2 (hdst _ bc.1 bc.2)
      (hdst _ bu.1 bu.2) (hdst _ bd.1 bd.2) (hdst _ bl.1 bl.2) (hdst _ br.1 br.2)
      (hsrc _ bc.1 bc.2)
  · rw [updatePixel_frame exactOps mask src info _ y x i dst hi]
    exact hdst i hi0 hi1

/-! ## Buffer extents -/

theorem wrap32_of_small (n : Int) (h0 : 0 ≤ n) (h1 : n < 2147483648) : wrap32 n = n := by
  unfold wrap32
  omega

theorem tdiv_tdiv_ge (X P r : Int) (hX : 0 ≤ X) (hr : 1 ≤ r) (h : P * r * r ≤ X) :
    P ≤ Int.tdiv (Int.tdiv X r) r := by
  have hr0 : (0 : Int) ≤ r := by omega
  have hr1 : (0 : Int) < r := by omega
  rw [Int.tdiv_eq_ediv hX hr0, Int.tdiv_eq_ediv (Int.ediv_nonneg hX hr0) hr0]
  exact Int.le_ediv_of_mul_le hr1 (Int.le_ediv_of_mul_le hr1 h)

theorem tdiv_tdiv_exact (P r : Int) (hP : 0 ≤ P) (hr : 1 ≤ r) :
    Int.tdiv (Int.tdiv (r * (r * P)) r) r = P := by
  have hr0 : (0 : Int) ≤ r := by omega
  have hrne : r ≠ 0 := by omega
  have hX : 0 ≤ r * (r * P) := mul_nonneg hr0 (mul_nonneg hr0 hP)
  rw [Int.tdiv_eq_ediv hX hr0, Int.mul_ediv_cancel_left _ hrne,
    Int.tdiv_eq_ediv (mul_nonneg hr0 hP) hr0, Int.mul_ediv_cancel_left _ hrne]

/-! ## The mask bytes that normalizeImage reads -/

/-- Two loop bodies that agree on the range of the loop give the same loop. -/
theorem forLoop_congr {σ : Type} (lo hi : Int) (f g : Int → σ → σ) (s : σ)
    (h : ∀ i t, lo ≤ i → i < hi → f i t = g i t) : forLoop lo hi f s = forLoop lo hi g s := by
  by_cases hle : hi ≤ lo
  · rw [forLoop_of_le _ _ _ _ hle, forLoop_of_le _ _ _ _ hle]
  · have key : ∀ n : Nat, lo + n ≤ hi →
        forLoop lo (lo + n) f s = forLoop lo (lo + n) g s := by
      intro n
      induction n with
      | zero => intro _; rw [forLoop_of_le _ _ _ _ (by simp), forLoop_of_le _ _ _ _ (by simp)]
      | succ m ih =>
        intro hm
        have e : lo + ((m + 1 : Nat) : Int) = (lo + m) + 1 := by push_cast; ring
        rw [e, forLoop_succ _ _ _ _ (by omega), forLoop_succ _ _ _ _ (by omega), ih (by omega)]
        exact h _ _ (by omega) (by omega)
    have := key (hi - lo).toNat (by omega)
    have e : lo + (((hi - lo).toNat : Nat) : Int) = hi := by omega
    rwa [e] at this

/-- The read log of lines 9-11 holds exactly the indices below
`rows * cols`. -/
theorem maskReads_iff (srcImage : Mat) (i : Int) :
    i ∈ maskReads srcImage ↔ 0 ≤ i ∧ i < srcImage.rows * srcImage.cols := by
  constructor
  · intro hi
    have := forLoop_inv (fun (l : List Int) =>
        ∀ j ∈ l, 0 ≤ j ∧ j < srcImage.rows * srcImage.cols) 0 (srcImage.rows * srcImage.cols)
      (fun i log => log ++ [i]) [] (by simp) (by
        intro j t hj0 hj1 ht a ha
        rcases List.mem_append.mp ha with h | h
        · exact ht a h
        · have : a = j := by simpa using h
          subst this
          exact ⟨hj0, hj1⟩)
    exact this i hi
  · rintro ⟨h0, h1⟩
    exact maskReads_mem srcImage i h0 h1

/-- The float mask depends on the mask bytes below `height * width` only. -/
theorem buildMask_congr {F : Type} (ops : FloatOps F) (width height : Int)
    (mask1 mask2 : Int → UChar) (dstMask : Int → F)
    (h : ∀ i, 0 ≤ i → i < height * width → mask1 i = mask2 i) :
    buildMask ops width height mask1 dstMask = buildMask ops width height mask2 dstMask := by
  unfold buildMask
  exact forLoop_congr 0 (height * width) _ _ dstMask (fun i t h0 h1 => by rw [h i h0 h1])

/-! ## Rounding to binary32 is monotone -/

theorem pow2_le_pow2 (a b : Int) (h : a ≤ b) : pow2 a ≤ pow2 b := by
  rw [pow2_eq_zpow, pow2_eq_zpow]
  exact zpow_le_zpow_right₀ (by norm_num) h

theorem lt_of_pow2_lt (a b : Int) (h : pow2 a < pow2 b) : a < b := by
  by_contra hc
  have := pow2_le_pow2 b a (by omega)
  linarith

/-- The exponent found for a positive fraction is its logarithm: the fraction
is below the next power of two. -/
theorem lt_pow2_ilog2_succ (n d : Nat) (hn : 0 < n) (hd : 0 < d) :
    (n : ℚ) / (d : ℚ) < pow2 (ilog2 n d + 1) := by
  have hdq : (0 : ℚ) < d := by exact_mod_cast hd
  obtain ⟨_, a⟩ := natLog2_spec n hn
  obtain ⟨b, _⟩ := natLog2_spec d hd
  have a' : (n : ℚ) < (2 : ℚ) ^ (natLog2 n + 1) := by exact_mod_cast a
  have b' : (2 : ℚ) ^ (natLog2 d) ≤ (d : ℚ) := by exact_mod_cast b
  have high : (n : ℚ) / (d : ℚ) < pow2 ((natLog2 n : Int) - (natLog2 d : Int) + 1) := by
    rw [pow2_eq_zpow]
    have e : (2 : ℚ) ^ ((natLog2 n : Int) - (natLog2 d : Int) + 1) =
        (2 : ℚ) ^ (natLog2 n + 1) / (2 : ℚ) ^ (natLog2 d) := by
      rw [zpow_add₀ (by norm_num), zpow_sub₀ (by norm_num)]
      simp only [zpow_natCast, zpow_one]
      rw [pow_succ]; field_simp
    rw [e, div_lt_div_iff₀ hdq (by positivity)]
    calc (n : ℚ) * 2 ^ natLog2 d < 2 ^ (natLog2 n + 1) * 2 ^ natLog2 d :=
          mul_lt_mul_of_pos_right a' (by positivity)
      _ ≤ 2 ^ (natLog2 n + 1) * (d : ℚ) := mul_le_mul_of_nonneg_left b' (by positivity)
  unfold ilog2
  simp only
  split_ifs with h0 h1 h2
  · exact high
  · -- 0 ≤ e0 and n < d * 2 ^ e0
    obtain ⟨k, hk⟩ := Int.eq_ofNat_of_zero_le h0
    rw [hk] at h1 ⊢
    simp only [Int.toNat_ofNat] at h1
    have e : (k : Int) - 1 + 1 = (k : Int) := by ring
    rw [e, pow2_natCast, div_lt_iff₀ hdq]
    have : ((n : Nat) : ℚ) < ((d * 2 ^ k : Nat) : ℚ) := by exact_mod_cast not_le.mp h1
    push_cast at this
    linarith
  · exact high
  · -- e0 < 0 and n * 2 ^ (-e0) < d
    obtain ⟨k, hk⟩ := Int.exists_eq_neg_ofNat (by omega :
      (natLog2 n : Int) - (natLog2 d : Int) ≤ 0)
    rw [hk] at h2 ⊢
    simp only [neg_neg, Int.toNat_ofNat] at h2
    have e : -(k : Int) - 1 + 1 = -(k : Int) := by ring
    rw [e, pow2_neg_natCast, div_lt_div_iff₀ hdq (by positivity)]
    have : ((n * 2 ^ k : Nat) : ℚ) < ((d : Nat) : ℚ) := by exact_mod_cast not_le.mp h2
    push_cast at this
    linarith

theorem roundBinary32_zero : roundBinary32 0 = 0 := by decide!

/-- The result of rounding a positive value: a whole number `m` of units in the
last place `2 ^ (e - 23)`, within one half of the scaled value, `e` being the
exponent of the value and at least -126. -/
theorem roundBinary32_pos_form (x : ℚ) (hx : 0 < x) :
    ∃ m : Nat,
      roundBinary32 x = (m : ℚ) * pow2 (max (ilog2 x.num.natAbs x.den) (-126) - 23) ∧
      |(m : ℚ) - x / pow2 (max (ilog2 x.num.natAbs x.den) (-126) - 23)| ≤ 1 / 2 := by
  have hnum : 0 < x.num := Rat.num_pos.mpr hx
  have hn0 : x.num.natAbs ≠ 0 := by omega
  have hd : 0 < x.den := x.den_pos
  have hdq : (0 : ℚ) < (x.den : ℚ) := by exact_mod_cast hd
  have hxe : x = (x.num.natAbs : ℚ) / (x.den : ℚ) := by
    have := abs_eq_natAbs_div x
    rwa [abs_of_pos hx] at this
  have hs : ¬ (x.num < 0) := by omega
  unfold roundBinary32
  simp only [if_neg hn0, if_neg hs]
  set e := max (ilog2 x.num.natAbs x.den) (-126) with he
  by_cases h23 : 23 ≤ e
  · simp only [if_pos h23]
    obtain ⟨k, hk⟩ := Int.eq_ofNat_of_zero_le (by omega : 0 ≤ e - 23)
    rw [hk]
    simp only [Int.toNat_ofNat]
    have hb : 0 < x.den * 2 ^ k := by positivity
    have hr := roundDivEven_error x.num.natAbs (x.den * 2 ^ k) hb
    refine ⟨roundDivEven x.num.natAbs (x.den * 2 ^ k), ?_, ?_⟩
    · rw [pow2_natCast]; push_cast; ring
    · rw [pow2_natCast]
      have e1 : x / 2 ^ k = (x.num.natAbs : ℚ) / ((x.den * 2 ^ k : Nat) : ℚ) := by
        conv_lhs => rw [hxe]
        push_cast
        rw [div_div]
      rw [e1]; exact hr
  · simp only [if_neg h23]
    obtain ⟨k, hk⟩ := Int.eq_ofNat_of_zero_le (by omega : 0 ≤ 23 - e)
    have hk' : e - 23 = -(k : Int) := by omega
    rw [hk, hk']
    simp only [Int.toNat_ofNat]
    have hr := roundDivEven_error (x.num.natAbs * 2 ^ k) x.den hd
    have hpk : (0 : ℚ) < 2 ^ k := by positivity
    refine ⟨roundDivEven (x.num.natAbs * 2 ^ k) x.den, ?_, ?_⟩
    · rw [pow2_neg_natCast, Rat.mkRat_eq_div]; push_cast; ring
    · rw [pow2_neg_natCast]
      have e1 : x / (1 / 2 ^ k) = ((x.num.natAbs * 2 ^ k : Nat) : ℚ) / (x.den : ℚ) := by
        conv_lhs => rw [hxe]
        push_cast
        field_simp
      rw [e1]; exact hr

theorem roundBinary32_neg (x : ℚ) : roundBinary32 (-x) = -roundBinary32 x := by
  by_cases h0 : x.num = 0
  · have : x = 0 := Rat.num_eq_zero.mp h0
    subst this
    simp [roundBinary32_zero]
  · unfold roundBinary32
    have hn0 : x.num.natAbs ≠ 0 := by omega
    simp only [Rat.neg_num, Rat.neg_den, Int.natAbs_neg, if_neg hn0]
    by_cases hs : x.num < 0
    · have hs' : ¬ (-x.num < 0) := by omega
      simp only [if_pos hs, if_neg hs']
      split_ifs
      · push_cast; ring
      · rw [Rat.mkRat_eq_div, Rat.mkRat_eq_div]; push_cast; ring
    · have hs' : -x.num < 0 := by omega
      simp only [if_neg hs, if_pos hs']
      split_ifs
      · push_cast; ring
      · rw [Rat.mkRat_eq_div, Rat.mkRat_eq_div]; push_cast; ring

theorem roundBinary32_nonneg (x : ℚ) (hx : 0 ≤ x) : 0 ≤ roundBinary32 x := by
  rcases hx.lt_or_eq with h | h
  · obtain ⟨m, hm, _⟩ := roundBinary32_pos_form x h
    rw [hm]
    exact mul_nonneg (by positivity) (pow2_pos _).le
  · rw [← h, roundBinary32_zero]

theorem roundBinary32_mono_pos (x y : ℚ) (hx : 0 < x) (hxy : x ≤ y) :
    roundBinary32 x ≤ roundBinary32 y := by
  rcases hxy.lt_or_eq with hlt | heq
  swap
  · rw [heq]
  have hy : 0 < y := lt_trans hx hlt
  obtain ⟨mx, hmx, hex⟩ := roundBinary32_pos_form x hx
  obtain ⟨my, hmy, hey⟩ := roundBinary32_pos_form y hy
  have hxe : x = (x.num.natAbs : ℚ) / (x.den : ℚ) := by
    have := abs_eq_natAbs_div x
    rwa [abs_of_pos hx] at this
  have hye : y = (y.num.natAbs : ℚ) / (y.den : ℚ) := by
    have := abs_eq_natAbs_div y
    rwa [abs_of_pos hy] at this
  have hxn : 0 < x.num.natAbs := by
    have := Rat.num_pos.mpr hx; omega
  have hyn : 0 < y.num.natAbs := by
    have := Rat.num_pos.mpr hy; omega
  have lx := pow2_ilog2_le x.num.natAbs x.den hxn x.den_pos
  have ux := lt_pow2_ilog2_succ x.num.natAbs x.den hxn x.den_pos
  have ly := pow2_ilog2_le y.num.natAbs y.den hyn y.den_pos
  have uy := lt_pow2_ilog2_succ y.num.natAbs y.den hyn y.den_pos
  rw [← hxe] at lx ux
  rw [← hye] at ly uy
  have hil : ilog2 x.num.natAbs x.den ≤ ilog2 y.num.natAbs y.den := by
    have : pow2 (ilog2 x.num.natAbs x.den) < pow2 (ilog2 y.num.natAbs y.den + 1) := by linarith
    have := lt_of_pow2_lt _ _ this
    omega
  rw [hmx, hmy]
  set ex := max (ilog2 x.num.natAbs x.den) (-126) with hexd
  set ey := max (ilog2 y.num.natAbs y.den) (-126) with heyd
  have hee : ex ≤ ey := max_le_max hil (le_refl _)
  have hux : 0 < pow2 (ex - 23) := pow2_pos _
  have huy : 0 < pow2 (ey - 23) := pow2_pos _
  rcases hee.lt_or_eq with hl | he
  · -- different exponents: a power of two lies between the two results
    have hey' : ey = ilog2 y.num.natAbs y.den := by
      rw [heyd]
      apply max_eq_left
      have : -126 ≤ ex := le_max_right _ _
      by_contra hc
      have : ey = -126 := by rw [heyd]; exact max_eq_right (by omega)
      omega
    have hx2 : x < pow2 (ex + 1) :=
      lt_of_lt_of_le ux (pow2_le_pow2 _ _ (by have := le_max_left (ilog2 x.num.natAbs x.den) (-126); omega))
    have hy2 : pow2 ey ≤ y := by rw [hey']; exact ly
    have p24 : pow2 24 = 2 ^ 24 := by rw [pow2_eq_zpow]; norm_num
    have p23 : pow2 23 = 2 ^ 23 := by rw [pow2_eq_zpow]; norm_num
    have e24 : pow2 (ex + 1) = 2 ^ 24 * pow2 (ex - 23) := by
      have := pow2_add 24 (ex - 23)
      rw [show 24 + (ex - 23) = ex + 1 by ring, p24] at this
      exact this
    have e23 : pow2 ey = 2 ^ 23 * pow2 (ey - 23) := by
      have := pow2_add 23 (ey - 23)
      rw [show 23 + (ey - 23) = ey by ring, p23] at this
      exact this
    have h1 : (mx : ℚ) ≤ 2 ^ 24 := by
      have ht : x / pow2 (ex - 23) < 2 ^ 24 := by
        rw [div_lt_iff₀ hux, ← e24]; exact hx2
      have := (abs_le.mp hex).2
      have hlt2 : (mx : ℚ) < ((2 ^ 24 + 1 : Nat) : ℚ) := by push_cast; linarith
      have : mx < 2 ^ 24 + 1 := by exact_mod_cast hlt2
      have : mx ≤ 2 ^ 24 := by omega
      exact_mod_cast this
    have h2 : (2 : ℚ) ^ 23 ≤ (my : ℚ) := by
      have ht : 2 ^ 23 ≤ y / pow2 (ey - 23) := by
        rw [le_div_iff₀ huy, ← e23]; exact hy2
      have := (abs_le.mp hey).1
      have hlt2 : ((2 ^ 23 - 1 : Nat) : ℚ) < (my : ℚ) := by push_cast; linarith
      have : 2 ^ 23 - 1 < my := by exact_mod_cast hlt2
      have : 2 ^ 23 ≤ my := by omega
      exact_mod_cast this
    calc (mx : ℚ) * pow2 (ex - 23) ≤ 2 ^ 24 * pow2 (ex - 23) :=
          mul_le_mul_of_nonneg_right h1 hux.le
      _ = pow2 (ex + 1) := e24.symm
      _ ≤ pow2 ey := pow2_le_pow2 _ _ (by omega)
      _ = 2 ^ 23 * pow2 (ey - 23) := e23
      _ ≤ (my : ℚ) * pow2 (ey - 23) := mul_le_mul_of_nonneg_right h2 huy.le
  · -- the same exponent: rounding to the nearest whole number keeps the order
    rw [← he] at hey ⊢
    have ht : x / pow2 (ex - 23) < y / pow2 (ex - 23) := div_lt_div_of_pos_right hlt hux
    have a1 := (abs_le.mp hex).2
    have a2 := (abs_le.mp hey).1
    have hlt2 : (mx : ℚ) < ((my + 1 : Nat) : ℚ) := by push_cast; linarith
    have : mx < my + 1 := by exact_mod_cast hlt2
    have : mx ≤ my := by omega
    exact mul_le_mul_of_nonneg_right (by exact_mod_cast this) hux.le

/-- Rounding to binary32 is monotone. -/
theorem roundBinary32_mono (x y : ℚ) (h : x ≤ y) : roundBinary32 x ≤ roundBinary32 y := by
  rcases lt_trichotomy 0 x with hx | hx | hx
  · exact roundBinary32_mono_pos x y hx h
  · rw [← hx, roundBinary32_zero]
    exact roundBinary32_nonneg y (by linarith)
  · rcases le_or_lt 0 y with hy | hy
    · have h1 := roundBinary32_nonneg (-x) (by linarith)
      rw [roundBinary32_neg] at h1
      have h2 := roundBinary32_nonneg y hy
      linarith
    · have := roundBinary32_mono_pos (-y) (-x) (by linarith) (by linarith)
      rw [roundBinary32_neg, roundBinary32_neg] at this
      linarith

/-! ## Normalized values in binary32, any range -/

theorem pow2_128_huge : (2 : ℚ) ^ 41 < pow2 128 := by
  rw [pow2_eq_zpow]; norm_num

/-- A value of magnitude at most `2 ^ 40` rounds to a finite binary32 value. -/
theorem ofRat_of_bounded (x : ℚ) (h : |x| ≤ 2 ^ 40) :
    Binary32.ofRat x = Binary32.finite (roundBinary32 x) := by
  apply ofRat_eq_finite
  have he := roundBinary32_error x
  have h1 : |roundBinary32 x| ≤ |roundBinary32 x - x| + |x| := by
    have := abs_add (roundBinary32 x - x) x
    simpa using this
  have h2 : |x| / 2 ^ 24 ≤ 2 ^ 40 / 2 ^ 24 := div_le_div_of_nonneg_right h (by positivity)
  have h3 : (2 : ℚ) ^ 40 / 2 ^ 24 + 1 / 2 ^ 150 + 2 ^ 40 < 2 ^ 41 := by norm_num
  have := pow2_128_huge
  linarith

theorem roundBinary32_byte_int (n : Int) (h0 : 0 ≤ n) (h1 : n ≤ 255) :
    roundBinary32 (n : ℚ) = (n : ℚ) := by
  have h := roundBinary32_byte ⟨n.toNat, by omega⟩
  have e : (((⟨n.toNat, by omega⟩ : Fin 256).val : Nat) : Int) = n := by
    show ((n.toNat : Nat) : Int) = n
    omega
  rw [e] at h
  exact h

/-- The quotient of line 33 in binary32 for a byte `v` of a channel with range
`mn < mx`, when `mn` and `mx - mn` are values of `int` and the conversion of
`mn` to `float` does not round below `mn`: a finite value of `[0, 1]`. -/
theorem binary32_normalized_unit_of (v mn mx : Int) (hv0 : 0 ≤ v) (hv1 : v ≤ 255)
    (h1 : mn ≤ v) (h2 : v ≤ mx) (h4 : mn < mx) (hlo : -2147483648 ≤ mn)
    (hr : mx - mn ≤ 2147483647) (hup : (mn : ℚ) ≤ roundBinary32 (mn : ℚ)) :
    ∃ q : ℚ, binary32Ops.div (binary32Ops.sub (binary32Ops.ofInt v) (binary32Ops.ofInt mn))
        (binary32Ops.ofInt (mx - mn)) = Binary32.finite q ∧ 0 ≤ q ∧ q ≤ 1 := by
  have hmnq : (-2147483648 : ℚ) ≤ (mn : ℚ) := by exact_mod_cast hlo
  have hmnv : (mn : ℚ) ≤ (v : ℚ) := by exact_mod_cast h1
  have hvq0 : (0 : ℚ) ≤ (v : ℚ) := by exact_mod_cast hv0
  have hvq1 : (v : ℚ) ≤ 255 := by exact_mod_cast hv1
  have hrq : ((mx - mn : Int) : ℚ) ≤ 2147483647 := by exact_mod_cast hr
  have hr1 : (1 : ℚ) ≤ ((mx - mn : Int) : ℚ) := by
    have : 1 ≤ mx - mn := by omega
    exact_mod_cast this
  have hvmx : (v : ℚ) - (mn : ℚ) ≤ ((mx - mn : Int) : ℚ) := by
    have : v - mn ≤ mx - mn := by omega
    have := (Int.cast_le (R := ℚ)).mpr this
    push_cast at this ⊢
    linarith
  -- the conversion of `mn`
  have hm1 : roundBinary32 (mn : ℚ) ≤ (v : ℚ) := by
    have := roundBinary32_mono _ _ hmnv
    rwa [roundBinary32_byte_int v hv0 hv1] at this
  have e1 : binary32Ops.ofInt mn = Binary32.finite (roundBinary32 (mn : ℚ)) := by
    show Binary32.ofRat (mn : ℚ) = _
    apply ofRat_of_bounded
    rw [abs_le]; constructor <;> norm_num <;> linarith
  -- the difference
  have e2 : binary32Ops.sub (Binary32.finite (v : ℚ))
      (Binary32.finite (roundBinary32 (mn : ℚ))) =
      Binary32.finite (roundBinary32 ((v : ℚ) - roundBinary32 (mn : ℚ))) := by
    show Binary32.add (Binary32.finite (v : ℚ))
      (Binary32.neg (Binary32.finite (roundBinary32 (mn : ℚ)))) = _
    simp only [Binary32.neg, Binary32.add]
    rw [← sub_eq_add_neg]
    apply ofRat_of_bounded
    rw [abs_le]; constructor <;> norm_num <;> linarith
  -- the range
  have e3 : binary32Ops.ofInt (mx - mn) =
      Binary32.finite (roundBinary32 ((mx - mn : Int) : ℚ)) := by
    show Binary32.ofRat ((mx - mn : Int) : ℚ) = _
    apply ofRat_of_bounded
    have e40 : (2 : ℚ) ^ 40 = 1099511627776 := by norm_num
    rw [abs_le, e40]; constructor
    · linarith
    · linarith
  have hrpos : (1 : ℚ) ≤ roundBinary32 ((mx - mn : Int) : ℚ) := by
    have := roundBinary32_mono _ _ hr1
    have e : roundBinary32 (1 : ℚ) = 1 := by
      have := roundBinary32_byte_int 1 (by decide) (by decide)
      simpa using this
    rwa [e] at this
  have ha0 : 0 ≤ roundBinary32 ((v : ℚ) - roundBinary32 (mn : ℚ)) :=
    roundBinary32_nonneg _ (by linarith)
  have har : roundBinary32 ((v : ℚ) - roundBinary32 (mn : ℚ)) ≤
      roundBinary32 ((mx - mn : Int) : ℚ) :=
    roundBinary32_mono _ _ (by linarith)
  rw [ofInt_byte v hv0 hv1, e1, e2, e3]
  have hne : roundBinary32 ((mx - mn : Int) : ℚ) ≠ 0 := by linarith
  have hd : binary32Ops.div (Binary32.finite (roundBinary32 ((v : ℚ) - roundBinary32 (mn : ℚ))))
      (Binary32.finite (roundBinary32 ((mx - mn : Int) : ℚ))) =
      Binary32.ofRat (roundBinary32 ((v : ℚ) - roundBinary32 (mn : ℚ)) /
        roundBinary32 ((mx - mn : Int) : ℚ)) := by
    show Binary32.div (Binary32.finite _) (Binary32.finite _) = _
    simp only [Binary32.div, if_neg hne]
  rw [hd]
  have hrp : 0 < roundBinary32 ((mx - mn : Int) : ℚ) := by linarith
  apply ofRat_unit
  · exact div_nonneg ha0 hrp.le
  · rw [div_le_one hrp]; exact har

/-- With a seed `MinRgb[k] ≥ 0` the minimum after the scan of a non-empty image
is a byte, which the conversion to `float` leaves unchanged. -/
theorem scanRange_min_exact {F : Type} (width height : Int) (src_image_ptr : Int → UChar)
    (info : HairInpaintInfo F) (k : Int) (hw : 1 ≤ width) (hh : 1 ≤ height)
    (hk0 : 0 ≤ k) (hk1 : k < 3) (hseed : 0 ≤ info.MinRgb k) :
    roundBinary32 (((scanRange width height src_image_ptr info).MinRgb k : Int) : ℚ) =
      (((scanRange width height src_image_ptr info).MinRgb k : Int) : ℚ) := by
  have ha := (scanRange_attained width height src_image_ptr info k).1
  have hb := scanRange_bounds width height src_image_ptr info k 0 0 hk0 hk1 (le_refl 0)
    (by omega) (le_refl 0) (by omega)
  have hbyte := (src_image_ptr (0 * (width * 3) + (0 * 3) + k)).isLt
  apply roundBinary32_byte_int
  · rcases ha with e | ⟨y, x, _, _, _, _, e⟩
    · omega
    · omega
  · omega

/-! ## The claims -/

/-- C1 (sequential in-place sweep of the scalar path): one sweep of
`PDEHeatDiffusionCPU` over the plane of channel `k` turns the buffer `old` into
a buffer `new` with, at every interior pixel `1 ≤ y ≤ Height - 2`,
`1 ≤ x ≤ Width - 2`,
`new[y][x] = old[y][x] + Dt * (new[y-1][x] + old[y+1][x] + new[y][x-1] +
old[y][x+1] - Cw * old[y][x]) - Dt * mask[y][x] * (old[y][x] - maskedSrc[y][x])`:
the up and left neighbours are read after their update in this sweep, the down
and right neighbours before theirs; and at every pixel of the plane outside the
interior `new` equals `old`. -/
theorem sweepChannel_inplace {F : Type} (ops : FloatOps F)
    (normalized_mask normalized_masked_src old : Int → F) (info : HairInpaintInfo F)
    (k y x : Int) (hy0 : 1 ≤ y) (hy1 : y ≤ info.Height - 2) (hx0 : 1 ≤ x)
    (hx1 : x ≤ info.Width - 2) :
    planeAt info k (sweepChannel ops normalized_mask normalized_masked_src info k old) y x =
      ops.sub
        (ops.add (planeAt info k old y x)
          (ops.mul info.Dt
            (ops.sub
              (ops.add
                (ops.add
                  (ops.add
                    (planeAt info k
                      (sweepChannel ops normalized_mask normalized_masked_src info k old) (y - 1) x)
                    (planeAt info k old (y + 1) x))
                  (planeAt info k
                    (sweepChannel ops normalized_mask normalized_masked_src info k old) y (x - 1)))
                (planeAt info k old y (x + 1)))
              (ops.mul info.Cw (planeAt info k old y x)))))
        (ops.mul (ops.mul info.Dt (normalized_mask (y * info.Width + x)))
          (ops.sub (planeAt info k old y x) (planeAt info k normalized_masked_src y x))) ∧
    ∀ y' x' : Int, 0 ≤ x' → x' < info.Width →
      (y' ≤ 0 ∨ info.Height - 1 ≤ y' ∨ x' = 0 ∨ x' = info.Width - 1) →
      planeAt info k (sweepChannel ops normalized_mask normalized_masked_src info k old) y' x' =
        planeAt info k old y' x' := by
  constructor
  · unfold planeAt
    have ne : ∀ (ya xa yb xb : Int), 0 ≤ xa → xa < info.Width → 0 ≤ xb → xb < info.Width →
        (ya ≠ yb ∨ xa ≠ xb) →
        k * info.Width * info.Height + (ya * info.Width + xa) ≠
          k * info.Width * info.Height + (yb * info.Width + xb) :=
      fun ya xa yb xb a b c d e => cell_ne info.Width _ ya xa yb xb a b c d e
    -- the centre is stored by the update of `(y, x)` and not visited afterwards
    rw [sweepChannel_after ops normalized_mask normalized_masked_src old info k y x _ hy0 hy1
        hx0 hx1
        (fun y' x' a b c d => ne _ _ _ _ (by omega) (by omega) (by omega) (by omega)
          (Or.inl (by omega)))
        (fun x' a b => ne _ _ _ _ (by omega) (by omega) (by omega) (by omega)
          (Or.inr (by omega))),
      updatePixel_self]
    -- the up and left neighbours are final when `(y, x)` is updated
    rw [sweepChannel_after ops normalized_mask normalized_masked_src old info k y x
        (k * info.Width * info.Height + ((y - 1) * info.Width + x)) hy0 hy1 hx0 hx1
        (fun y' x' a b c d => ne _ _ _ _ (by omega) (by omega) (by omega) (by omega)
          (Or.inl (by omega)))
        (fun x' a b => ne _ _ _ _ (by omega) (by omega) (by omega) (by omega)
          (Or.inl (by omega))),
      updatePixel_frame ops normalized_mask normalized_masked_src info _ y x _ _
        (ne _ _ _ _ (by omega) (by omega) (by omega) (by omega) (Or.inl (by omega))),
      sweepChannel_after ops normalized_mask normalized_masked_src old info k y x
        (k * info.Width * info.Height + (y * info.Width + (x - 1))) hy0 hy1 hx0 hx1
        (fun y' x' a b c d => ne _ _ _ _ (by omega) (by omega) (by omega) (by omega)
          (Or.inl (by omega)))
        (fun x' a b => ne _ _ _ _ (by omega) (by omega) (by omega) (by omega)
          (Or.inr (by omega))),
      updatePixel_frame ops normalized_mask normalized_masked_src info _ y x _ _
        (ne _ _ _ _ (by omega) (by omega) (by omega) (by omega) (Or.inr (by omega)))]
    -- the centre and the down and right neighbours are still old
    rw [sweepChannel_before ops normalized_mask normalized_masked_src old info k y x
        (k * info.Width * info.Height + (y * info.Width + x))
        (fun y' x' a b c d => ne _ _ _ _ (by omega) (by omega) (by omega) (by omega)
          (Or.inl (by omega)))
        (fun x' a b => ne _ _ _ _ (by omega) (by omega) (by omega) (by omega)
          (Or.inr (by omega))),
      sweepChannel_before ops normalized_mask normalized_masked_src old info k y x
        (k * info.Width * info.Height + ((y + 1) * info.Width + x))
        (fun y' x' a b c d => ne _ _ _ _ (by omega) (by omega) (by omega) (by omega)
          (Or.inl (by omega)))
        (fun x' a b => ne _ _ _ _ (by omega) (by omega) (by omega) (by omega)
          (Or.inl (by omega))),
      sweepChannel_before ops normalized_mask normalized_masked_src old info k y x
        (k * info.Width * info.Height + (y * info.Width + (x + 1)))
        (fun y' x' a b c d => ne _ _ _ _ (by omega) (by omega) (by omega) (by omega)
          (Or.inl (by omega)))
        (fun x' a b => ne _ _ _ _ (by omega) (by omega) (by omega) (by omega)
          (Or.inr (by omega)))]
  · intro y' x' a b hb
    unfold planeAt
    refine sweepChannel_frame ops normalized_mask normalized_masked_src info k _ old ?_
    intro y2 x2 c d e f
    exact cell_ne info.Width _ y' x' y2 x2 a b (by omega) (by omega) (by omega)

/-- Witness for C1: pixel `(2, 2)` of channel 1 of a 4x4 plane, whose up and
left neighbours are interior pixels. -/
theorem sweepChannel_inplace_witness :
    (1 : Int) ≤ 2 ∧ (2 : Int) ≤ (rationalInfo 4 4 2 1).Height - 2 ∧ (1 : Int) ≤ 2 ∧
    (2 : Int) ≤ (rationalInfo 4 4 2 1).Width - 2 ∧
    (planeAt (rationalInfo 4 4 2 1) 1
        (sweepChannel exactOps rampBuffer rampBuffer (rationalInfo 4 4 2 1) 1 rampBuffer) 2 2 =
      exactOps.sub
        (exactOps.add (planeAt (rationalInfo 4 4 2 1) 1 rampBuffer 2 2)
          (exactOps.mul (rationalInfo 4 4 2 1).Dt
            (exactOps.sub
              (exactOps.add
                (exactOps.add
                  (exactOps.add
                    (planeAt (rationalInfo 4 4 2 1) 1
                      (sweepChannel exactOps rampBuffer rampBuffer (rationalInfo 4 4 2 1) 1
                        rampBuffer) (2 - 1) 2)
                    (planeAt (rationalInfo 4 4 2 1) 1 rampBuffer (2 + 1) 2))
                  (planeAt (rationalInfo 4 4 2 1) 1
                    (sweepChannel exactOps rampBuffer rampBuffer (rationalInfo 4 4 2 1) 1
                      rampBuffer) 2 (2 - 1)))
                (planeAt (rationalInfo 4 4 2 1) 1 rampBuffer 2 (2 + 1)))
              (exactOps.mul (rationalInfo 4 4 2 1).Cw
                (planeAt (rationalInfo 4 4 2 1) 1 rampBuffer 2 2)))))
        (exactOps.mul
          (exactOps.mul (rationalInfo 4 4 2 1).Dt
            (rampBuffer (2 * (rationalInfo 4 4 2 1).Width + 2)))
          (exactOps.sub (planeAt (rationalInfo 4 4 2 1) 1 rampBuffer 2 2)
            (planeAt (rationalInfo 4 4 2 1) 1 rampBuffer 2 2))) ∧
    ∀ y' x' : Int, 0 ≤ x' → x' < (rationalInfo 4 4 2 1).Width →
      (y' ≤ 0 ∨ (rationalInfo 4 4 2 1).Height - 1 ≤ y' ∨ x' = 0 ∨
        x' = (rationalInfo 4 4 2 1).Width - 1) →
      planeAt (rationalInfo 4 4 2 1) 1
          (sweepChannel exactOps rampBuffer rampBuffer (rationalInfo 4 4 2 1) 1 rampBuffer)
          y' x' =
        planeAt (rationalInfo 4 4 2 1) 1 rampBuffer y' x') :=
  ⟨by decide, by decide, by decide, by decide,
    sweepChannel_inplace exactOps rampBuffer rampBuffer rampBuffer (rationalInfo 4 4 2 1) 1 2 2
      (by decide) (by decide) (by decide) (by decide)⟩

/-- C2 (interior-only mutation): for all planes, every `Dt`, `Cw` and every
number of iterations, every pixel in row 0, row `Height - 1`, column 0 or
column `Width - 1` of every channel `k ≥ 0` of the buffer returned by
`hairInpaintingCPU` equals the masked-source plane at that position (the
position lies within the `NumberOfC3Elements` elements of the buffer). -/
theorem hairInpaintingCPU_border {F : Type} (ops : FloatOps F)
    (normalized_mask normalized_masked_src fresh : Int → F) (info : HairInpaintInfo F)
    (k y x : Int) (hk0 : 0 ≤ k) (hy0 : 0 ≤ y) (hy1 : y < info.Height)
    (hx0 : 0 ≤ x) (hx1 : x < info.Width)
    (hb : y = 0 ∨ y = info.Height - 1 ∨ x = 0 ∨ x = info.Width - 1)
    (hN : k * info.Width * info.Height + (y * info.Width + x) < info.NumberOfC3Elements) :
    planeAt info k (hairInpaintingCPU ops normalized_mask normalized_masked_src fresh info) y x =
      planeAt info k normalized_masked_src y x := by
  unfold planeAt hairInpaintingCPU
  rw [PDEHeatDiffusionCPU_frame]
  · refine memcpy_inside _ _ _ _ ?_ hN
    have h1 : 0 ≤ k * info.Width * info.Height :=
      mul_nonneg (mul_nonneg hk0 (by omega)) (by omega)
    have h2 := idx_nonneg info.Width y x hy0 hx0 hx1
    omega
  · intro k' y' x' _ _ a b c d e
    obtain ⟨_, e1, e2⟩ := idx3_inj info.Width info.Height k y x k' y' x' hx0 hx1 (by omega)
      (by omega) hy0 hy1 (by omega) (by omega) e
    omega

/-- Witness for C2: the corner pixel `(0, 2)` of channel 2 of a 3x3 image
after 500 iterations. -/
theorem hairInpaintingCPU_border_witness :
    (0 : Int) ≤ 2 ∧ (0 : Int) ≤ 0 ∧ (0 : Int) < sampleInfo.Height ∧
    (0 : Int) ≤ 2 ∧ (2 : Int) < sampleInfo.Width ∧
    ((0 : Int) = 0 ∨ (0 : Int) = sampleInfo.Height - 1 ∨ (2 : Int) = 0 ∨
      (2 : Int) = sampleInfo.Width - 1) ∧
    2 * sampleInfo.Width * sampleInfo.Height + (0 * sampleInfo.Width + 2) <
      sampleInfo.NumberOfC3Elements ∧
    planeAt sampleInfo 2 (hairInpaintingCPU exactOps rampBuffer rampBuffer (fun _ => 0) sampleInfo)
        0 2 = planeAt sampleInfo 2 rampBuffer 0 2 :=
  ⟨by decide, by decide, by decide, by decide, by decide, by decide, by decide,
    hairInpaintingCPU_border exactOps rampBuffer rampBuffer (fun _ => 0) sampleInfo 2 0 2
      (by decide) (by decide) (by decide) (by decide) (by decide) (by decide) (by decide)⟩

/-- C3 (boundary invariance of `normalizeImage`): whatever the source image and
the mask, `normalizeImage` returns (given `width ≠ 1`, `height ≠ 1` and a
budget of three iterations for the strided loops) and in its result the
masked-source plane `dstMaskImage` equals the fully-normalized plane `dstImage`
at every position of the first row, last row, first column and last column of
each of the three channels. -/
theorem normalizeImage_boundary {F : Type} (ops : FloatOps F) (fuel : Nat) (width height : Int)
    (src_image_ptr src_mask_ptr : Int → UChar) (dstImage dstMask dstMaskImage : Int → F)
    (info : HairInpaintInfo F) (hw : width ≠ 1) (hh : height ≠ 1) (hf : 3 ≤ fuel) :
    ∃ r, normalizeImage ops fuel width height src_image_ptr src_mask_ptr dstImage dstMask
        dstMaskImage info = some r ∧
      ∀ k y x : Int, 0 ≤ k → k < 3 → 0 ≤ y → y < height → 0 ≤ x → x < width →
        (y = 0 ∨ y = height - 1 ∨ x = 0 ∨ x = width - 1) →
        r.1.dstMaskImage (k * width * height + (y * width + x)) =
          r.1.dstImage (k * width * height + (y * width + x)) := by
  refine ⟨_, normalizeImage_eq ops fuel width height src_image_ptr src_mask_ptr dstImage dstMask
    dstMaskImage info hw hh hf, ?_⟩
  intro k y x hk0 hk1 hy0 hy1 hx0 hx1 hb
  have hne : ∀ k' : Int, k' ≠ k → ∀ y' x', 0 ≤ y' → y' < height → 0 ≤ x' → x' < width →
      k * width * height + (y * width + x) ≠ k' * width * height + (y' * width + x') := by
    intro k' hk' y' x' a b c d e
    exact hk' (idx3_inj width height k y x k' y' x' hx0 hx1 c d hy0 hy1 a b e).1.symm
  have hk : k = 0 ∨ k = 1 ∨ k = 2 := by omega
  rcases hk with rfl | rfl | rfl
  · exact channelResult_agree _ _ _ _ _ _ _ _ _ (hne 2 (by decide))
      (channelResult_agree _ _ _ _ _ _ _ _ _ (hne 1 (by decide))
        (channelResult_border _ _ _ _ _ _ _ _ _ _ hy0 hy1 hx0 hx1 hw hh hb))
  · exact channelResult_agree _ _ _ _ _ _ _ _ _ (hne 2 (by decide))
      (channelResult_border _ _ _ _ _ _ _ _ _ _ hy0 hy1 hx0 hx1 hw hh hb)
  · exact channelResult_border _ _ _ _ _ _ _ _ _ _ hy0 hy1 hx0 hx1 hw hh hb

/-- Witness for C3: a 3x3 image whose mask marks every pixel as hair. -/
theorem normalizeImage_boundary_witness :
    (3 : Int) ≠ 1 ∧ (3 : Int) ≠ 1 ∧ 3 ≤ 3 ∧
    ∃ r, normalizeImage exactOps 3 3 3 sampleImage allHairMask (fun _ => 0) (fun _ => 0)
        (fun _ => 0) sampleInfo = some r ∧
      ∀ k y x : Int, 0 ≤ k → k < 3 → 0 ≤ y → y < 3 → 0 ≤ x → x < 3 →
        (y = 0 ∨ y = 3 - 1 ∨ x = 0 ∨ x = 3 - 1) →
        r.1.dstMaskImage (k * 3 * 3 + (y * 3 + x)) = r.1.dstImage (k * 3 * 3 + (y * 3 + x)) :=
  ⟨by decide, by decide, by decide,
    normalizeImage_boundary exactOps 3 3 3 sampleImage allHairMask (fun _ => 0) (fun _ => 0)
      (fun _ => 0) sampleInfo (by decide) (by decide) (by decide)⟩

/-- C4 as stated fails on the code in binary32 arithmetic: for the 2x2 image
with pixels 0, 22, 13, 13 in each channel and an all-zero mask, every channel
has the range `min = 0 < max = 22`, the source byte at interleaved index 6 is
13, and `normalizeImage` followed by `convertToMatArrayFormat` stores 12 there
(`13/22` rounds down to a float `q` with `22 * q < 13`, and the conversion to
`uchar` truncates). -/
theorem round_trip_counterexample :
    roundTripImage 6 = 13 ∧
    (normalizeImage binary32Ops 3 2 2 roundTripImage (fun _ => 0) (fun _ => Binary32.finite 0)
        (fun _ => Binary32.finite 0) (fun _ => Binary32.finite 0) (binary32Info 2 2 3 0)).map
      (fun r => [r.2.MinRgb 0, r.2.MaxRgb 0, r.2.MinRgb 1, r.2.MaxRgb 1, r.2.MinRgb 2,
        r.2.MaxRgb 2]) = some [0, 22, 0, 22, 0, 22] ∧
    (normalizeImage binary32Ops 3 2 2 roundTripImage (fun _ => 0) (fun _ => Binary32.finite 0)
        (fun _ => Binary32.finite 0) (fun _ => Binary32.finite 0) (binary32Info 2 2 3 0)).map
      (fun r => convertToMatArrayFormat binary32Ops r.1.dstMaskImage (fun _ => none) r.2 6) =
      some (some 12) := by
  decide!

/-- C4 amended (range round trip up to one unit): for every 3-channel
interleaved byte image and an all-zero mask, in binary32 arithmetic
`normalizeImage` followed directly by `convertToMatArrayFormat` (same `Width`,
`Height`, `Channels = 3` and the range of the scan) stores at every interleaved
index `y * (W * 3) + x * 3 + k` of a channel whose range satisfies
`0 ≤ min < max ≤ 255` either the source byte `v` of that index or `v - 1`. -/
theorem round_trip_within_one (fuel : Nat) (width height : Int)
    (src_image_ptr : Int → UChar) (dstImage dstMask dstMaskImage : Int → Binary32)
    (out : Int → Option UChar) (info : HairInpaintInfo Binary32)
    (hf : 3 ≤ fuel) (hW : info.Width = width) (hH : info.Height = height)
    (hC : info.Channels = 3) (hw : width ≠ 1) (hh : height ≠ 1) :
    ∃ r, normalizeImage binary32Ops fuel width height src_image_ptr (fun _ => 0) dstImage
        dstMask dstMaskImage info = some r ∧
      ∀ k y x : Int, 0 ≤ k → k < 3 → 0 ≤ y → y < height → 0 ≤ x → x < width →
        0 ≤ r.2.MinRgb k → r.2.MinRgb k < r.2.MaxRgb k → r.2.MaxRgb k ≤ 255 →
        ∃ w : UChar,
          convertToMatArrayFormat binary32Ops r.1.dstMaskImage out r.2
            (y * (width * 3) + (x * 3) + k) = some w ∧
          (w = src_image_ptr (y * (width * 3) + (x * 3) + k) ∨
            w.val + 1 = (src_image_ptr (y * (width * 3) + (x * 3) + k)).val) := by
  obtain ⟨r, hr, hinfo, hcell⟩ := round_trip_cell binary32Ops fuel width height src_image_ptr
    dstImage dstMask dstMaskImage out info (by decide) hf hW hH hC hw hh
  refine ⟨r, hr, ?_⟩
  intro k y x hk0 hk1 hy0 hy1 hx0 hx1 hmn hlt hmx
  rw [hcell k y x hk0 hk1 hy0 hy1 hx0 hx1]
  have hb := scanRange_bounds width height src_image_ptr info k y x hk0 hk1 hy0 hy1 hx0 hx1
  rw [← hinfo] at hb
  obtain ⟨s, hs, h1, h2⟩ := binary32_round_trip_value
    (((src_image_ptr (y * (width * 3) + (x * 3) + k)).val : Nat) : Int) (r.2.MinRgb k)
    (r.2.MaxRgb k) hmn hb.1 hb.2 hmx hlt
  rw [hs]
  exact toUcharQ_near _ s h1 h2

/-- Witness for C4 amended: the 2x2 image of the counterexample, pixel `(1, 0)`
of channel 0. -/
theorem round_trip_within_one_witness :
    3 ≤ 3 ∧ (binary32Info 2 2 3 0).Width = 2 ∧ (binary32Info 2 2 3 0).Height = 2 ∧
    (binary32Info 2 2 3 0).Channels = 3 ∧ (2 : Int) ≠ 1 ∧ (2 : Int) ≠ 1 ∧
    ∃ r, normalizeImage binary32Ops 3 2 2 roundTripImage (fun _ => 0)
        (fun _ => Binary32.finite 0) (fun _ => Binary32.finite 0) (fun _ => Binary32.finite 0)
        (binary32Info 2 2 3 0) = some r ∧
      ∀ k y x : Int, 0 ≤ k → k < 3 → 0 ≤ y → y < 2 → 0 ≤ x → x < 2 →
        0 ≤ r.2.MinRgb k → r.2.MinRgb k < r.2.MaxRgb k → r.2.MaxRgb k ≤ 255 →
        ∃ w : UChar,
          convertToMatArrayFormat binary32Ops r.1.dstMaskImage (fun _ => none) r.2
            (y * (2 * 3) + (x * 3) + k) = some w ∧
          (w = roundTripImage (y * (2 * 3) + (x * 3) + k) ∨
            w.val + 1 = (roundTripImage (y * (2 * 3) + (x * 3) + k)).val) :=
  ⟨by decide, by decide, by decide, by decide, by decide, by decide,
    round_trip_within_one 3 2 2 roundTripImage (fun _ => Binary32.finite 0)
      (fun _ => Binary32.finite 0) (fun _ => Binary32.finite 0) (fun _ => none)
      (binary32Info 2 2 3 0) (by decide) (by decide) (by decide) (by decide) (by decide)
      (by decide)⟩

/-- C5 (zero-iteration identity): with `Iters = 0` the buffer produced by
`hairInpaintingCPU` equals the masked-source plane at every one of the
`NumberOfC3Elements` elements, for every mask plane, masked-source plane and
parameter block. -/
theorem hairInpaintingCPU_zero_iters {F : Type} (ops : FloatOps F)
    (normalized_mask normalized_masked_src fresh : Int → F) (info : HairInpaintInfo F)
    (hI : info.Iters = 0) (i : Int) (h0 : 0 ≤ i) (h1 : i < info.NumberOfC3Elements) :
    hairInpaintingCPU ops normalized_mask normalized_masked_src fresh info i =
      normalized_masked_src i := by
  unfold hairInpaintingCPU
  rw [PDEHeatDiffusionCPU_eq, forLoop_of_le _ _ _ _ (by omega)]
  exact memcpy_inside _ _ _ _ h0 h1

/-- Witness for C5: the centre element of channel 1 of a 3x3 image. -/
theorem hairInpaintingCPU_zero_iters_witness :
    (rationalInfo 3 3 3 0).Iters = 0 ∧ (0 : Int) ≤ 13 ∧
    (13 : Int) < (rationalInfo 3 3 3 0).NumberOfC3Elements ∧
    hairInpaintingCPU exactOps rampBuffer rampBuffer (fun _ => 0) (rationalInfo 3 3 3 0) 13 =
      rampBuffer 13 :=
  ⟨by decide, by decide, by decide,
    hairInpaintingCPU_zero_iters exactOps rampBuffer rampBuffer (fun _ => 0)
      (rationalInfo 3 3 3 0) (by decide) 13 (by decide) (by decide)⟩

/-- C6 (small-image no-op): when `Width ≤ 2` or `Height ≤ 2`, for every `Iters`,
`Dt`, `Cw`, channel count and mask, `PDEHeatDiffusionCPU` accesses no element
of any buffer (its access log is empty), leaves the working buffer as it is,
and so the output of `hairInpaintingCPU` is the masked-source plane on all
`NumberOfC3Elements` elements; with `Width ≤ 2` the vectorized row loop runs
no group either. -/
theorem PDEHeatDiffusionCPU_small_image {F : Type} (ops : FloatOps F)
    (normalized_mask normalized_masked_src dst fresh : Int → F) (ch : Int)
    (info : HairInpaintInfo F) (h : info.Width ≤ 2 ∨ info.Height ≤ 2) :
    PDEHeatDiffusionCPU_accesses ch info = [] ∧
    PDEHeatDiffusionCPU ops normalized_mask normalized_masked_src dst ch info = dst ∧
    (∀ i, 0 ≤ i → i < info.NumberOfC3Elements →
      hairInpaintingCPU ops normalized_mask normalized_masked_src fresh info i =
        normalized_masked_src i) ∧
    (info.Width ≤ 2 → ∀ (fuel : Nat) (k y : Int),
      avxRow ops normalized_mask normalized_masked_src info (fuel + 1) k y dst = some dst) := by
  have hdst : ∀ (c : Int) (d : Int → F),
      PDEHeatDiffusionCPU ops normalized_mask normalized_masked_src d c info = d := by
    intro c d
    unfold PDEHeatDiffusionCPU
    refine sweepRows_id info c _ d ?_
    rcases h with h | h
    · right
      intro k y t
      unfold scalarRow
      exact forLoop_of_le _ _ _ _ (by omega)
    · left; exact h
  refine ⟨?_, hdst ch dst, ?_, ?_⟩
  · unfold PDEHeatDiffusionCPU_accesses
    refine sweepRows_id info ch _ [] ?_
    rcases h with h | h
    · right
      intro k y t
      exact forLoop_of_le _ _ _ _ (by omega)
    · left; exact h
  · intro i h0 h1
    unfold hairInpaintingCPU
    rw [hdst]
    exact memcpy_inside _ _ _ _ h0 h1
  · intro hw fuel k y
    have hx : ¬ ((1 : Int) < info.Width - 1) := by omega
    simp [avxRow, strideLoop, hx]

/-- Witness for C6: a 2x7 image with three channels and 500 iterations. -/
theorem PDEHeatDiffusionCPU_small_image_witness :
    ((rationalInfo 2 7 3 500).Width ≤ 2 ∨ (rationalInfo 2 7 3 500).Height ≤ 2) ∧
    (PDEHeatDiffusionCPU_accesses 3 (rationalInfo 2 7 3 500) = [] ∧
    PDEHeatDiffusionCPU exactOps rampBuffer rampBuffer rampBuffer 3 (rationalInfo 2 7 3 500) =
      rampBuffer ∧
    (∀ i, 0 ≤ i → i < (rationalInfo 2 7 3 500).NumberOfC3Elements →
      hairInpaintingCPU exactOps rampBuffer rampBuffer (fun _ => 0) (rationalInfo 2 7 3 500) i =
        rampBuffer i) ∧
    ((rationalInfo 2 7 3 500).Width ≤ 2 → ∀ (fuel : Nat) (k y : Int),
      avxRow exactOps rampBuffer rampBuffer (rationalInfo 2 7 3 500) (fuel + 1) k y rampBuffer =
        some rampBuffer)) :=
  ⟨by decide,
    PDEHeatDiffusionCPU_small_image exactOps rampBuffer rampBuffer rampBuffer (fun _ => 0) 3
      (rationalInfo 2 7 3 500) (by decide)⟩

/-- C7 (scalar/vectorized equivalence) fails on the code.  On row 1 of a 4x3
plane that is 0 except for 1 at the left border pixel, mask 0, `Dt = 1/10`,
`Cw = 4`, exact arithmetic, both loops store `1/10` at column 1, but at column
2 the scalar loop stores `1/100` (it reads the updated left neighbour) and the
vectorized loop stores `0` (it loaded the left neighbour before the store).
And on a 3x3 binary32 plane with a single interior pixel the two loops store
different values because they add the four neighbours in a different order:
`1/2` against `1/2 + 2 ^ (-24)`. -/
theorem avxRow_differs_from_scalarRow :
    (scalarRow exactOps (fun _ => 0) leftEdgeBuffer (rationalInfo 4 3 1 1) 0 1 leftEdgeBuffer 5
        = 1 / 10 ∧
      (avxRow exactOps (fun _ => 0) leftEdgeBuffer (rationalInfo 4 3 1 1) 2 0 1
        leftEdgeBuffer).map (fun r => r 5) = some (1 / 10) ∧
      scalarRow exactOps (fun _ => 0) leftEdgeBuffer (rationalInfo 4 3 1 1) 0 1 leftEdgeBuffer 6
        = 1 / 100 ∧
      (avxRow exactOps (fun _ => 0) leftEdgeBuffer (rationalInfo 4 3 1 1) 2 0 1
        leftEdgeBuffer).map (fun r => r 6) = some 0) ∧
    (scalarRow binary32Ops (fun _ => Binary32.finite 0) tinyNeighbours unitStepInfo 0 1
        tinyNeighbours 4 = Binary32.finite (1 / 2) ∧
      (avxRow binary32Ops (fun _ => Binary32.finite 0) tinyNeighbours unitStepInfo 2 0 1
        tinyNeighbours).map (fun r => r 4) = some (Binary32.finite (1 / 2 + 1 / 16777216))) := by
  decide!

/-- C8 (scenario): on the 5x5 single-channel plane that is 100 everywhere except
0 at the centre, with mask 1 at the centre and 0 elsewhere, `Dt = 0.1` and
`Cw = 4`, the centre value of the sequential scalar solver starts at 0, and for
every `n` in `0..49` the centre value after iteration `n + 1` is at least the
value after iteration `n`, at least 0 and at most 100.  This holds both in
exact arithmetic (`Dt = 1/10`) and in binary32 arithmetic (`Dt = 0.1f`). -/
theorem scenario_centre_monotone (n : Nat) (hn : n < 50) :
    (scenarioCentre exactOps (1 / 10) 0 = 0 ∧
      scenarioCentre exactOps (1 / 10) n ≤ scenarioCentre exactOps (1 / 10) (n + 1) ∧
      0 ≤ scenarioCentre exactOps (1 / 10) (n + 1) ∧
      scenarioCentre exactOps (1 / 10) (n + 1) ≤ 100) ∧
    (scenarioCentre binary32Ops (Binary32.ofRat (1 / 10)) 0 = Binary32.finite 0 ∧
      Binary32.le (scenarioCentre binary32Ops (Binary32.ofRat (1 / 10)) n)
        (scenarioCentre binary32Ops (Binary32.ofRat (1 / 10)) (n + 1)) = true ∧
      Binary32.le (Binary32.finite 0)
        (scenarioCentre binary32Ops (Binary32.ofRat (1 / 10)) (n + 1)) = true ∧
      Binary32.le (scenarioCentre binary32Ops (Binary32.ofRat (1 / 10)) (n + 1))
        (Binary32.finite 100) = true) := by
  constructor
  · rw [scenarioCentre_exact n, scenarioCentre_exact (n + 1), scenarioCentre_exact 0]
    exact ⟨rfl, (stepOkQ_iff _ _).mp (scenario_run_exact n hn)⟩
  · rw [scenarioCentre_binary32 n, scenarioCentre_binary32 (n + 1), scenarioCentre_binary32 0]
    exact ⟨by decide!, (stepOkB_iff _ _).mp (scenario_run_binary32 n hn)⟩

/-- Witness for C8: the last step, from iteration 49 to iteration 50. -/
theorem scenario_centre_monotone_witness :
    49 < 50 ∧
    ((scenarioCentre exactOps (1 / 10) 0 = 0 ∧
      scenarioCentre exactOps (1 / 10) 49 ≤ scenarioCentre exactOps (1 / 10) (49 + 1) ∧
      0 ≤ scenarioCentre exactOps (1 / 10) (49 + 1) ∧
      scenarioCentre exactOps (1 / 10) (49 + 1) ≤ 100) ∧
    (scenarioCentre binary32Ops (Binary32.ofRat (1 / 10)) 0 = Binary32.finite 0 ∧
      Binary32.le (scenarioCentre binary32Ops (Binary32.ofRat (1 / 10)) 49)
        (scenarioCentre binary32Ops (Binary32.ofRat (1 / 10)) (49 + 1)) = true ∧
      Binary32.le (Binary32.finite 0)
        (scenarioCentre binary32Ops (Binary32.ofRat (1 / 10)) (49 + 1)) = true ∧
      Binary32.le (scenarioCentre binary32Ops (Binary32.ofRat (1 / 10)) (49 + 1))
        (Binary32.finite 100) = true)) :=
  ⟨by decide, scenario_centre_monotone 49 (by decide)⟩

/-- C9 (float mask encoding): for every mask and every pixel index
`0 ≤ i < height * width`, lines 9-11 of `normalizeImage` set `dstMask[i]` to
`0.0` if the mask byte at `i` is nonzero (hair) and to `1.0` if it is zero, and
that is the content of `dstMask` in the result that `normalizeImage` returns
(it returns when `width ≠ 1`, `height ≠ 1`, given a budget of three iterations
for the strided loops). -/
theorem normalizeImage_float_mask {F : Type} (ops : FloatOps F) (width height : Int)
    (src_image_ptr src_mask_ptr : Int → UChar) (dstImage dstMask dstMaskImage : Int → F)
    (info : HairInpaintInfo F) (i : Int) (h0 : 0 ≤ i) (h1 : i < height * width) :
    ((src_mask_ptr i ≠ 0 → buildMask ops width height src_mask_ptr dstMask i = ops.zero) ∧
      (src_mask_ptr i = 0 → buildMask ops width height src_mask_ptr dstMask i = ops.one)) ∧
    (width ≠ 1 → height ≠ 1 → ∀ fuel : Nat, 3 ≤ fuel →
      ∃ r, normalizeImage ops fuel width height src_image_ptr src_mask_ptr dstImage dstMask
          dstMaskImage info = some r ∧
        (src_mask_ptr i ≠ 0 → r.1.dstMask i = ops.zero) ∧
        (src_mask_ptr i = 0 → r.1.dstMask i = ops.one)) := by
  have hb := buildMask_hit ops width height src_mask_ptr dstMask i h0 h1
  have hb' : (src_mask_ptr i ≠ 0 → buildMask ops width height src_mask_ptr dstMask i = ops.zero) ∧
      (src_mask_ptr i = 0 → buildMask ops width height src_mask_ptr dstMask i = ops.one) := by
    constructor
    · intro h; rw [hb, if_pos h]
    · intro h; rw [hb, if_neg (not_not.mpr h)]
  refine ⟨hb', ?_⟩
  intro hw hh fuel hf
  obtain ⟨r, hr, hm⟩ := normalizeImage_dstMask ops fuel width height src_image_ptr src_mask_ptr
    dstImage dstMask dstMaskImage info hw hh hf
  exact ⟨r, hr, by rw [hm]; exact hb'⟩

/-- Witness for C9: the centre pixel (index 4) of a 3x3 mask. -/
theorem normalizeImage_float_mask_witness :
    (0 : Int) ≤ 4 ∧ (4 : Int) < 3 * 3 ∧
    (((centreHairMask 4 ≠ 0 → buildMask exactOps 3 3 centreHairMask (fun _ => 0) 4 = exactOps.zero) ∧
      (centreHairMask 4 = 0 → buildMask exactOps 3 3 centreHairMask (fun _ => 0) 4 = exactOps.one)) ∧
    ((3 : Int) ≠ 1 → (3 : Int) ≠ 1 → ∀ fuel : Nat, 3 ≤ fuel →
      ∃ r, normalizeImage exactOps fuel 3 3 sampleImage centreHairMask (fun _ => 0) (fun _ => 0)
          (fun _ => 0) sampleInfo = some r ∧
        (centreHairMask 4 ≠ 0 → r.1.dstMask 4 = exactOps.zero) ∧
        (centreHairMask 4 = 0 → r.1.dstMask 4 = exactOps.one))) :=
  ⟨by decide, by decide,
    normalizeImage_float_mask exactOps 3 3 sampleImage centreHairMask (fun _ => 0) (fun _ => 0)
      (fun _ => 0) sampleInfo 4 (by decide) (by decide)⟩

/-- C10 (masked-source content): for every image, every channel `k` and every
non-border pixel `(y, x)` (`1 ≤ y ≤ height - 2`, `1 ≤ x ≤ width - 2`), in the
result of `normalizeImage` the masked-source plane holds at
`k * width * height + y * width + x` the normalized value
`(v - min_k) / (max_k - min_k)` of the source byte `v` at
`y * (width * 3) + x * 3 + k` if the mask byte at `(y, x)` is zero, and the
sentinel `1.0` if the mask byte is nonzero; `min_k` and `max_k` are the range
after the scan.  The float comparison is only assumed to satisfy `1.0 > 0.0`
and not `0.0 > 0.0`. -/
theorem normalizeImage_masked_source {F : Type} (ops : FloatOps F) (fuel : Nat)
    (width height : Int) (src_image_ptr src_mask_ptr : Int → UChar)
    (dstImage dstMask dstMaskImage : Int → F) (info : HairInpaintInfo F)
    (hgt1 : ops.gt ops.one ops.zero = true) (hgt0 : ops.gt ops.zero ops.zero = false)
    (hf : 3 ≤ fuel) (k y x : Int) (hk0 : 0 ≤ k) (hk1 : k < 3)
    (hy0 : 1 ≤ y) (hy1 : y ≤ height - 2) (hx0 : 1 ≤ x) (hx1 : x ≤ width - 2) :
    ∃ r, normalizeImage ops fuel width height src_image_ptr src_mask_ptr dstImage dstMask
        dstMaskImage info = some r ∧
      (src_mask_ptr (y * width + x) = 0 →
        r.1.dstMaskImage (k * width * height + (y * width + x)) =
          ops.div
            (ops.sub (ops.ofInt (((src_image_ptr (y * (width * 3) + (x * 3) + k)).val : Nat) : Int))
              (ops.ofInt (r.2.MinRgb k)))
            (ops.ofInt (r.2.MaxRgb k - r.2.MinRgb k))) ∧
      (src_mask_ptr (y * width + x) ≠ 0 →
        r.1.dstMaskImage (k * width * height + (y * width + x)) = ops.one) := by
  have hw : width ≠ 1 := by omega
  have hh : height ≠ 1 := by omega
  refine ⟨_, normalizeImage_eq ops fuel width height src_image_ptr src_mask_ptr dstImage dstMask
    dstMaskImage info hw hh hf, ?_⟩
  have hne : ∀ k' : Int, k' ≠ k → ∀ y' x', 0 ≤ y' → y' < height → 0 ≤ x' → x' < width →
      k * width * height + (y * width + x) ≠ k' * width * height + (y' * width + x') := by
    intro k' hk' y' x' a b c d e
    exact hk' (idx3_inj width height k y x k' y' x' (by omega) (by omega) c d (by omega)
      (by omega) a b e).1.symm
  have hm := buildMask_hit ops width height src_mask_ptr dstMask (y * width + x)
    (idx_nonneg width y x (by omega) (by omega) (by omega))
    (idx_lt width height y x (by omega) (by omega) (by omega))
  have hk : k = 0 ∨ k = 1 ∨ k = 2 := by omega
  have key : ∀ p : Planes F, p.dstMask = buildMask ops width height src_mask_ptr dstMask →
      ∀ rl inf,
      (channelResult ops width height src_image_ptr rl inf k p).dstMaskImage
          (k * width * height + (y * width + x)) =
        if src_mask_ptr (y * width + x) = 0 then
          normalizedValue ops width src_image_ptr rl inf k y x else ops.one := by
    intro p hp rl inf
    rw [channelResult_interior ops width height src_image_ptr rl inf k y x p hy0 hy1 hx0 hx1,
      hp, hm]
    by_cases hz : src_mask_ptr (y * width + x) = 0
    · simp [hz, hgt1]
    · simp [hz, hgt0]
  have fin : ∀ v : F, (v = if src_mask_ptr (y * width + x) = 0 then
        normalizedValue ops width src_image_ptr
          (fun k => (scanRange width height src_image_ptr info).MaxRgb k -
            (scanRange width height src_image_ptr info).MinRgb k)
          (scanRange width height src_image_ptr info) k y x else ops.one) →
      (src_mask_ptr (y * width + x) = 0 → v =
          ops.div
            (ops.sub (ops.ofInt (((src_image_ptr (y * (width * 3) + (x * 3) + k)).val : Nat) : Int))
              (ops.ofInt ((scanRange width height src_image_ptr info).MinRgb k)))
            (ops.ofInt ((scanRange width height src_image_ptr info).MaxRgb k -
              (scanRange width height src_image_ptr info).MinRgb k))) ∧
      (src_mask_ptr (y * width + x) ≠ 0 → v = ops.one) := by
    intro v hv
    constructor
    · intro hz; rw [hv, if_pos hz]; rfl
    · intro hz; rw [hv, if_neg hz]
  apply fin
  rcases hk with rfl | rfl | rfl
  · rw [channelResult_frame _ _ _ _ _ _ _ _ _ (hne 2 (by decide)),
      channelResult_frame _ _ _ _ _ _ _ _ _ (hne 1 (by decide))]
    exact key _ rfl _ _
  · rw [channelResult_frame _ _ _ _ _ _ _ _ _ (hne 2 (by decide))]
    exact key _ (by simp only [channelResult_dstMask]) _ _
  · exact key _ (by simp only [channelResult_dstMask]) _ _

/-- Witness for C10: the centre pixel of channel 1 of a 3x3 image, masked as
hair. -/
theorem normalizeImage_masked_source_witness :
    exactOps.gt exactOps.one exactOps.zero = true ∧
    exactOps.gt exactOps.zero exactOps.zero = false ∧ 3 ≤ 3 ∧
    (0 : Int) ≤ 1 ∧ (1 : Int) < 3 ∧ (1 : Int) ≤ 1 ∧ (1 : Int) ≤ 3 - 2 ∧
    (1 : Int) ≤ 1 ∧ (1 : Int) ≤ 3 - 2 ∧
    ∃ r, normalizeImage exactOps 3 3 3 sampleImage centreHairMask (fun _ => 0) (fun _ => 0)
        (fun _ => 0) sampleInfo = some r ∧
      (centreHairMask (1 * 3 + 1) = 0 →
        r.1.dstMaskImage (1 * 3 * 3 + (1 * 3 + 1)) =
          exactOps.div
            (exactOps.sub (exactOps.ofInt (((sampleImage (1 * (3 * 3) + (1 * 3) + 1)).val : Nat) : Int))
              (exactOps.ofInt (r.2.MinRgb 1)))
            (exactOps.ofInt (r.2.MaxRgb 1 - r.2.MinRgb 1))) ∧
      (centreHairMask (1 * 3 + 1) ≠ 0 →
        r.1.dstMaskImage (1 * 3 * 3 + (1 * 3 + 1)) = exactOps.one) :=
  ⟨by decide, by decide, by decide, by decide, by decide, by decide, by decide, by decide,
    by decide,
    normalizeImage_masked_source exactOps 3 3 3 sampleImage centreHairMask (fun _ => 0)
      (fun _ => 0) (fun _ => 0) sampleInfo (by decide) (by decide) (by decide) 1 1 1
      (by decide) (by decide) (by decide) (by decide) (by decide) (by decide)⟩

/-- C11 (mask monotonic trust), counterexample.  On a 5x3 plane the interior
pixels `(1, 1)` and `(1, 3)` both hold `1/2`, their four neighbours all hold
`5/8` and the masked-source value is 0; the mask is 0 at `(1, 1)` and 1 at
`(1, 3)`; `Dt = 0.1`, `Cw = 4`.  One update moves the mask-0 pixel from `1/2`
to `11/20` (binary32: `9227469 / 2 ^ 24`) and leaves the mask-1 pixel at `1/2`:
the mask-0 pixel moves more, not strictly less. -/
theorem mask_trust_counterexample :
    (trustBuffer exactOps 6 = 1 / 2 ∧ trustBuffer exactOps 8 = 1 / 2 ∧
      updatePixel exactOps (trustMask exactOps) (fun _ => 0) (trustInfo exactOps (1 / 10)) 0 1 1
        (trustBuffer exactOps) 6 = 11 / 20 ∧
      updatePixel exactOps (trustMask exactOps) (fun _ => 0) (trustInfo exactOps (1 / 10)) 0 1 3
        (trustBuffer exactOps) 8 = 1 / 2 ∧
      ¬ (|updatePixel exactOps (trustMask exactOps) (fun _ => 0) (trustInfo exactOps (1 / 10))
            0 1 1 (trustBuffer exactOps) 6 - trustBuffer exactOps 6| <
          |updatePixel exactOps (trustMask exactOps) (fun _ => 0) (trustInfo exactOps (1 / 10))
            0 1 3 (trustBuffer exactOps) 8 - trustBuffer exactOps 8|)) ∧
    (trustBuffer binary32Ops 6 = Binary32.finite (1 / 2) ∧
      trustBuffer binary32Ops 8 = Binary32.finite (1 / 2) ∧
      updatePixel binary32Ops (trustMask binary32Ops) (fun _ => Binary32.finite 0)
        (trustInfo binary32Ops (Binary32.ofRat (1 / 10))) 0 1 1 (trustBuffer binary32Ops) 6 =
        Binary32.finite (9227469 / 16777216) ∧
      updatePixel binary32Ops (trustMask binary32Ops) (fun _ => Binary32.finite 0)
        (trustInfo binary32Ops (Binary32.ofRat (1 / 10))) 0 1 3 (trustBuffer binary32Ops) 8 =
        Binary32.finite (1 / 2)) := by
  decide!

/-- C11 (mask monotonic trust), amended, exact arithmetic.  Take `Dt > 0`, any
`Cw`, and two pixels `(y, x)` and `(y', x')` with the same current value `c`,
the same four neighbour values and the same masked-source value `o`, the first
with mask value 0 and the second with mask value 1.  With
`D = up + down + left + right - Cw * c`, one update changes the mask-0 pixel by
`Dt * D` and the mask-1 pixel by `Dt * D - Dt * (c - o)`, and the absolute
change of the mask-0 pixel is strictly smaller than that of the mask-1 pixel
exactly when `0 < (c - o) * ((c - o) - 2 * D)`. -/
theorem updatePixel_mask_trust (mask src dst : Int → ℚ) (info : HairInpaintInfo ℚ)
    (off y x off' y' x' : Int) (hDt : 0 < info.Dt)
    (hm0 : mask (y * info.Width + x) = 0) (hm1 : mask (y' * info.Width + x') = 1)
    (hc : dst (off' + (y' * info.Width + x')) = dst (off + (y * info.Width + x)))
    (hu : dst (off' + (y' - 1) * info.Width + x') = dst (off + (y - 1) * info.Width + x))
    (hd : dst (off' + (y' + 1) * info.Width + x') = dst (off + (y + 1) * info.Width + x))
    (hl : dst (off' + y' * info.Width + (x' - 1)) = dst (off + y * info.Width + (x - 1)))
    (hr : dst (off' + y' * info.Width + (x' + 1)) = dst (off + y * info.Width + (x + 1)))
    (ho : src (off' + (y' * info.Width + x')) = src (off + (y * info.Width + x))) :
    (updatePixel exactOps mask src info off' y' x' dst (off' + (y' * info.Width + x')) -
        dst (off' + (y' * info.Width + x')) =
      (updatePixel exactOps mask src info off y x dst (off + (y * info.Width + x)) -
        dst (off + (y * info.Width + x))) -
      info.Dt * (dst (off + (y * info.Width + x)) - src (off + (y * info.Width + x)))) ∧
    (|updatePixel exactOps mask src info off y x dst (off + (y * info.Width + x)) -
        dst (off + (y * info.Width + x))| <
      |updatePixel exactOps mask src info off' y' x' dst (off' + (y' * info.Width + x')) -
        dst (off' + (y' * info.Width + x'))| ↔
      0 < (dst (off + (y * info.Width + x)) - src (off + (y * info.Width + x))) *
        ((dst (off + (y * info.Width + x)) - src (off + (y * info.Width + x))) -
          2 * (dst (off + (y - 1) * info.Width + x) + dst (off + (y + 1) * info.Width + x) +
            dst (off + y * info.Width + (x - 1)) + dst (off + y * info.Width + (x + 1)) -
            info.Cw * dst (off + (y * info.Width + x))))) := by
  rw [updatePixel_exact, updatePixel_exact, hm0, hm1, hc, hu, hd, hl, hr, ho]
  set c := dst (off + (y * info.Width + x))
  set o := src (off + (y * info.Width + x))
  set D := dst (off + (y - 1) * info.Width + x) + dst (off + (y + 1) * info.Width + x) +
    dst (off + y * info.Width + (x - 1)) + dst (off + y * info.Width + (x + 1)) - info.Cw * c
  set t := info.Dt
  constructor
  · ring
  · have e0 : c + t * D - t * 0 * (c - o) - c = t * D := by ring
    have e1 : c + t * D - t * 1 * (c - o) - c = t * (D - (c - o)) := by ring
    rw [e0, e1, abs_mul, abs_mul, abs_of_pos hDt, mul_lt_mul_left hDt, ← sq_lt_sq]
    constructor
    · intro h; nlinarith
    · intro h; nlinarith

/-- Witness for C11: the two pixels of the 5x3 plane of the counterexample. -/
theorem updatePixel_mask_trust_witness :
    (0 : ℚ) < (trustInfo exactOps (1 / 10)).Dt ∧
    trustMask exactOps (1 * (trustInfo exactOps (1 / 10)).Width + 1) = 0 ∧
    trustMask exactOps (1 * (trustInfo exactOps (1 / 10)).Width + 3) = 1 ∧
    (|updatePixel exactOps (trustMask exactOps) (fun _ => 0) (trustInfo exactOps (1 / 10)) 0 1 1
          (trustBuffer exactOps) (0 + (1 * (trustInfo exactOps (1 / 10)).Width + 1)) -
        trustBuffer exactOps (0 + (1 * (trustInfo exactOps (1 / 10)).Width + 1))| <
      |updatePixel exactOps (trustMask exactOps) (fun _ => 0) (trustInfo exactOps (1 / 10)) 0 1 3
          (trustBuffer exactOps) (0 + (1 * (trustInfo exactOps (1 / 10)).Width + 3)) -
        trustBuffer exactOps (0 + (1 * (trustInfo exactOps (1 / 10)).Width + 3))| ↔
      0 < (trustBuffer exactOps (0 + (1 * (trustInfo exactOps (1 / 10)).Width + 1)) -
          (fun _ => (0 : ℚ)) (0 + (1 * (trustInfo exactOps (1 / 10)).Width + 1))) *
        ((trustBuffer exactOps (0 + (1 * (trustInfo exactOps (1 / 10)).Width + 1)) -
            (fun _ => (0 : ℚ)) (0 + (1 * (trustInfo exactOps (1 / 10)).Width + 1))) -
          2 * (trustBuffer exactOps (0 + (1 - 1) * (trustInfo exactOps (1 / 10)).Width + 1) +
            trustBuffer exactOps (0 + (1 + 1) * (trustInfo exactOps (1 / 10)).Width + 1) +
            trustBuffer exactOps (0 + 1 * (trustInfo exactOps (1 / 10)).Width + (1 - 1)) +
            trustBuffer exactOps (0 + 1 * (trustInfo exactOps (1 / 10)).Width + (1 + 1)) -
            (trustInfo exactOps (1 / 10)).Cw *
              trustBuffer exactOps (0 + (1 * (trustInfo exactOps (1 / 10)).Width + 1))))) :=
  ⟨by decide!, by decide!, by decide!,
    (updatePixel_mask_trust (trustMask exactOps) (fun _ => 0) (trustBuffer exactOps)
      (trustInfo exactOps (1 / 10)) 0 1 1 0 1 3 (by decide!) (by decide!) (by decide!)
      (by decide!) (by decide!) (by decide!) (by decide!) (by decide!) (by decide!)).2⟩

/-- C12 (degenerate-range normalization safety) fails on the code.  When the
range of channel `k` after the scan is zero (`MaxRgb[k] - MinRgb[k] = 0`), line
33 of `normalizeImage` divides by `(float)0` at every pixel of channel `k`: the
value stored in the fully-normalized plane is `((float)v - MinRgb[k]) / 0`,
and since every byte `v` of the channel then equals `MinRgb[k]` this is
`0.0f / 0.0f`, a NaN in binary32.  Stated for every image with `width` and
`height` different from 1 (so that `normalizeImage` returns), every mask and
any seeds. -/
theorem normalizeImage_degenerate_range (fuel : Nat) (width height : Int)
    (src_image_ptr src_mask_ptr : Int → UChar) (dstImage dstMask dstMaskImage : Int → Binary32)
    (info : HairInpaintInfo Binary32) (hw : width ≠ 1) (hh : height ≠ 1) (hf : 3 ≤ fuel)
    (k : Int) (hk0 : 0 ≤ k) (hk1 : k < 3)
    (hdeg : (scanRange width height src_image_ptr info).MaxRgb k -
      (scanRange width height src_image_ptr info).MinRgb k = 0) :
    ∃ r, normalizeImage binary32Ops fuel width height src_image_ptr src_mask_ptr dstImage dstMask
        dstMaskImage info = some r ∧
      ∀ y x : Int, 0 ≤ y → y < height → 0 ≤ x → x < width →
        r.1.dstImage (k * width * height + (y * width + x)) =
          binary32Ops.div
            (binary32Ops.sub
              (binary32Ops.ofInt (((src_image_ptr (y * (width * 3) + (x * 3) + k)).val : Nat) : Int))
              (binary32Ops.ofInt (r.2.MinRgb k)))
            (binary32Ops.ofInt 0) ∧
        r.1.dstImage (k * width * height + (y * width + x)) = Binary32.nan := by
  obtain ⟨r, hr, hinfo, hplanes⟩ := normalizeImage_planes binary32Ops fuel width height
    src_image_ptr src_mask_ptr dstImage dstMask dstMaskImage info (by decide) hw hh hf
  refine ⟨r, hr, ?_⟩
  intro y x hy0 hy1 hx0 hx1
  have hval := (hplanes k y x hk0 hk1 hy0 hy1 hx0 hx1).1
  have hb := scanRange_bounds width height src_image_ptr info k y x hk0 hk1 hy0 hy1 hx0 hx1
  rw [← hinfo] at hb hdeg
  have hv : r.2.MinRgb k = (((src_image_ptr (y * (width * 3) + (x * 3) + k)).val : Nat) : Int) := by
    omega
  have h1 : r.1.dstImage (k * width * height + (y * width + x)) =
      binary32Ops.div
        (binary32Ops.sub
          (binary32Ops.ofInt (((src_image_ptr (y * (width * 3) + (x * 3) + k)).val : Nat) : Int))
          (binary32Ops.ofInt (r.2.MinRgb k)))
        (binary32Ops.ofInt 0) := by
    rw [hval]
    unfold normalizedValue
    simp only [hdeg]
  refine ⟨h1, ?_⟩
  rw [h1, hv, ofInt_byte _ (by omega) (by have := (src_image_ptr (y * (width * 3) + (x * 3) + k)).isLt; omega),
    binary32_sub_self]
  have h0 : binary32Ops.ofInt 0 = Binary32.finite 0 := by
    have := ofInt_byte 0 (le_refl 0) (by decide)
    simpa using this
  rw [h0]
  exact binary32_zero_div_zero

/-- Witness for C12: a 2x2 image whose every byte is 7, channel 0. -/
theorem normalizeImage_degenerate_range_witness :
    (2 : Int) ≠ 1 ∧ 3 ≤ 3 ∧
    (scanRange 2 2 constantImage (binary32Info 2 2 3 1)).MaxRgb 0 -
      (scanRange 2 2 constantImage (binary32Info 2 2 3 1)).MinRgb 0 = 0 ∧
    ∃ r, normalizeImage binary32Ops 3 2 2 constantImage (fun _ => 0)
        (fun _ => Binary32.finite 0) (fun _ => Binary32.finite 0) (fun _ => Binary32.finite 0)
        (binary32Info 2 2 3 1) = some r ∧
      ∀ y x : Int, 0 ≤ y → y < 2 → 0 ≤ x → x < 2 →
        r.1.dstImage (0 * 2 * 2 + (y * 2 + x)) =
          binary32Ops.div
            (binary32Ops.sub
              (binary32Ops.ofInt (((constantImage (y * (2 * 3) + (x * 3) + 0)).val : Nat) : Int))
              (binary32Ops.ofInt (r.2.MinRgb 0)))
            (binary32Ops.ofInt 0) ∧
        r.1.dstImage (0 * 2 * 2 + (y * 2 + x)) = Binary32.nan :=
  ⟨by decide, by decide, by decide!,
    normalizeImage_degenerate_range 3 2 2 constantImage (fun _ => 0)
      (fun _ => Binary32.finite 0) (fun _ => Binary32.finite 0) (fun _ => Binary32.finite 0)
      (binary32Info 2 2 3 1) (by decide) (by decide) (by decide) 0 (by decide) (by decide)
      (by decide!)⟩

/-- C13 (degenerate-range denormalization) fails on the code.  For a channel
`k` with `MaxRgb[k] = MinRgb[k]`, line 66 of `convertToMatArrayFormat` stores
`(uchar)(0 * value + MinRgb[k])` with no guard.  For a finite planar value and
`MinRgb[k]` a byte this is the byte `MinRgb[k]`; but for a NaN or an infinite
planar value the product `0 * value` is NaN, the cast `(uchar)NaN` is undefined
and no byte `MinRgb[k]` is written.  NaN is what `normalizeImage` produces for
such a channel. -/
theorem convertToMatArrayFormat_degenerate_range (srcImage : Int → Binary32)
    (dstImage : Int → Option UChar) (info : HairInpaintInfo Binary32) (k y x : Int)
    (hk0 : 0 ≤ k) (hk1 : k < info.Channels) (hy0 : 0 ≤ y) (hy1 : y < info.Height)
    (hx0 : 0 ≤ x) (hx1 : x < info.Width) (hdeg : info.MaxRgb k = info.MinRgb k) :
    (∀ q : ℚ, srcImage (k * info.Width * info.Height + y * info.Width + x) = Binary32.finite q →
      ∀ b : UChar, info.MinRgb k = ((b.val : Nat) : Int) →
        convertToMatArrayFormat binary32Ops srcImage dstImage info
          (y * (info.Width * info.Channels) + (x * info.Channels) + k) = some b) ∧
    ((∀ q : ℚ, srcImage (k * info.Width * info.Height + y * info.Width + x) ≠
        Binary32.finite q) →
      convertToMatArrayFormat binary32Ops srcImage dstImage info
        (y * (info.Width * info.Channels) + (x * info.Channels) + k) = none) := by
  have hc := convertToMatArrayFormat_hit binary32Ops srcImage dstImage info k y x hk0 hk1 hy0 hy1
    hx0 hx1
  have h0 : binary32Ops.ofInt (info.MaxRgb k - info.MinRgb k) = Binary32.finite 0 := by
    have e : info.MaxRgb k - info.MinRgb k = 0 := by omega
    rw [e]
    have := ofInt_byte 0 (le_refl 0) (by decide)
    simpa using this
  rw [hc, h0]
  constructor
  · intro q hq b hb
    rw [hq, binary32_zero_mul_finite, hb, ofInt_byte _ (by omega) (by have := b.isLt; omega)]
    show Binary32.toUchar (Binary32.ofRat (0 + _)) = _
    rw [zero_add]
    have e : Binary32.ofRat ((((b.val : Nat) : Int) : ℚ)) =
        Binary32.finite (((b.val : Nat) : Int) : ℚ) :=
      ofInt_byte ((b.val : Nat) : Int) (by omega) (by have := b.isLt; omega)
    rw [e]
    exact toUcharQ_byte b
  · intro hq
    rw [binary32_zero_mul_other _ hq, binary32_nan_add]
    rfl

/-- Witness for C13: the first pixel of channel 0 of a 2x2 plane of NaN values,
with the range of every channel recorded as the single value 7. -/
theorem convertToMatArrayFormat_degenerate_range_witness :
    flatInfo.MaxRgb 0 = flatInfo.MinRgb 0 ∧
    ((∀ q : ℚ, (fun _ => Binary32.nan) (0 * flatInfo.Width * flatInfo.Height +
        0 * flatInfo.Width + 0) ≠ Binary32.finite q) →
      convertToMatArrayFormat binary32Ops (fun _ => Binary32.nan) (fun _ => none) flatInfo
        (0 * (flatInfo.Width * flatInfo.Channels) + (0 * flatInfo.Channels) + 0) = none) :=
  ⟨by decide,
    (convertToMatArrayFormat_degenerate_range (fun _ => Binary32.nan) (fun _ => none) flatInfo
      0 0 0 (by decide) (by decide) (by decide) (by decide) (by decide) (by decide)
      (by decide)).2⟩

/-- C14 (run to completion) fails on the code.  `normalizeImage` returns if and
only if `width` and `height` are both different from 1: for `width = 1` the
loop of line 39 steps by `width - 1 = 0` and for `height = 1` the loop of line
46 steps by `height - 1 = 0`, so `x` (or `y`) stays 0 and the loop condition
never fails, whatever the iteration budget; for all other sizes three
iterations of each strided loop suffice.  (`hairInpaintingCPU`,
`PDEHeatDiffusionCPU` and `convertToMatArrayFormat` consist of counted loops
only and are total functions of the embedding.) -/
theorem normalizeImage_returns_iff {F : Type} (ops : FloatOps F) (width height : Int)
    (src_image_ptr src_mask_ptr : Int → UChar) (dstImage dstMask dstMaskImage : Int → F)
    (info : HairInpaintInfo F) :
    ((∃ fuel r, normalizeImage ops fuel width height src_image_ptr src_mask_ptr dstImage dstMask
        dstMaskImage info = some r) ↔ width ≠ 1 ∧ height ≠ 1) ∧
    (width = 1 ∨ height = 1 →
      ∀ fuel, normalizeImage ops fuel width height src_image_ptr src_mask_ptr dstImage dstMask
        dstMaskImage info = none) := by
  refine ⟨⟨?_, ?_⟩, fun h fuel => normalizeImage_stuck ops fuel width height src_image_ptr
    src_mask_ptr dstImage dstMask dstMaskImage info h⟩
  · rintro ⟨fuel, r, hr⟩
    by_contra hne
    have h : width = 1 ∨ height = 1 := by
      by_cases hw : width = 1
      · exact Or.inl hw
      · by_cases hh : height = 1
        · exact Or.inr hh
        · exact absurd ⟨hw, hh⟩ hne
    rw [normalizeImage_stuck ops fuel width height src_image_ptr src_mask_ptr dstImage dstMask
      dstMaskImage info h] at hr
    exact Option.noConfusion hr
  · rintro ⟨hw, hh⟩
    exact ⟨3, _, normalizeImage_eq ops 3 width height src_image_ptr src_mask_ptr dstImage dstMask
      dstMaskImage info hw hh (le_refl 3)⟩

/-- C15 (range scan).  For every non-empty 3-channel image (`1 ≤ width`,
`1 ≤ height`), every channel `k < 3` and any seeds, after the scan of
`normalizeImage` (lines 12-23) `MinRgb[k]` is the minimum of the seed and the
channel-`k` bytes: it is at most the seed and at most every byte, and it is
the seed or one of the bytes; likewise `MaxRgb[k]` is the maximum of the seed
and the bytes; and `MinRgb[k] ≤ MaxRgb[k]`.  With sentinel seeds
(`MinRgb[k] ≥ 255`, `MaxRgb[k] ≤ 0`) `MinRgb[k]` is the smallest and
`MaxRgb[k]` the largest channel-`k` byte of the image: each is attained by a
pixel and bounds every pixel.  The scan result is the parameter block that
`normalizeImage` holds when it returns. -/
theorem scanRange_min_max {F : Type} (width height : Int) (src_image_ptr : Int → UChar)
    (info : HairInpaintInfo F) (k : Int) (hw : 1 ≤ width) (hh : 1 ≤ height)
    (hk0 : 0 ≤ k) (hk1 : k < 3) :
    (∀ (ops : FloatOps F) (fuel : Nat) (src_mask_ptr : Int → UChar)
        (dstImage dstMask dstMaskImage : Int → F) (r : Planes F × HairInpaintInfo F),
      normalizeImage ops fuel width height src_image_ptr src_mask_ptr dstImage dstMask
        dstMaskImage info = some r → r.2 = scanRange width height src_image_ptr info) ∧
    (∀ y x : Int, 0 ≤ y → y < height → 0 ≤ x → x < width →
      (scanRange width height src_image_ptr info).MinRgb k ≤
          (((src_image_ptr (y * (width * 3) + (x * 3) + k)).val : Nat) : Int) ∧
        (((src_image_ptr (y * (width * 3) + (x * 3) + k)).val : Nat) : Int) ≤
          (scanRange width height src_image_ptr info).MaxRgb k) ∧
    (scanRange width height src_image_ptr info).MinRgb k ≤ info.MinRgb k ∧
    info.MaxRgb k ≤ (scanRange width height src_image_ptr info).MaxRgb k ∧
    ((scanRange width height src_image_ptr info).MinRgb k = info.MinRgb k ∨
      ∃ y x : Int, 0 ≤ y ∧ y < height ∧ 0 ≤ x ∧ x < width ∧
        (((src_image_ptr (y * (width * 3) + (x * 3) + k)).val : Nat) : Int) =
          (scanRange width height src_image_ptr info).MinRgb k) ∧
    ((scanRange width height src_image_ptr info).MaxRgb k = info.MaxRgb k ∨
      ∃ y x : Int, 0 ≤ y ∧ y < height ∧ 0 ≤ x ∧ x < width ∧
        (((src_image_ptr (y * (width * 3) + (x * 3) + k)).val : Nat) : Int) =
          (scanRange width height src_image_ptr info).MaxRgb k) ∧
    (scanRange width height src_image_ptr info).MinRgb k ≤
      (scanRange width height src_image_ptr info).MaxRgb k ∧
    (255 ≤ info.MinRgb k →
      ∃ y x : Int, 0 ≤ y ∧ y < height ∧ 0 ≤ x ∧ x < width ∧
        (((src_image_ptr (y * (width * 3) + (x * 3) + k)).val : Nat) : Int) =
          (scanRange width height src_image_ptr info).MinRgb k) ∧
    (info.MaxRgb k ≤ 0 →
      ∃ y x : Int, 0 ≤ y ∧ y < height ∧ 0 ≤ x ∧ x < width ∧
        (((src_image_ptr (y * (width * 3) + (x * 3) + k)).val : Nat) : Int) =
          (scanRange width height src_image_ptr info).MaxRgb k) := by
  have hb := fun y x a b c d =>
    scanRange_bounds width height src_image_ptr info k y x hk0 hk1 a b c d
  have hm := scanRange_mono width height src_image_ptr info k
  have ha := scanRange_attained width height src_image_ptr info k
  have h00 := hb 0 0 (le_refl 0) (by omega) (le_refl 0) (by omega)
  have hbyte := (src_image_ptr (0 * (width * 3) + (0 * 3) + k)).isLt
  refine ⟨fun ops fuel m a b c r hr => normalizeImage_info ops fuel width height src_image_ptr
    m a b c info r hr, hb, hm.1, hm.2, ha.1, ha.2, le_trans h00.1 h00.2, ?_, ?_⟩
  · intro hs
    rcases ha.1 with e | e
    · exact ⟨0, 0, le_refl 0, by omega, le_refl 0, by omega, by omega⟩
    · exact e
  · intro hs
    rcases ha.2 with e | e
    · exact ⟨0, 0, le_refl 0, by omega, le_refl 0, by omega, by omega⟩
    · exact e

/-- Witness for C15: channel 1 of a 3x3 test image, sentinel seeds. -/
theorem scanRange_min_max_witness :
    (1 : Int) ≤ 3 ∧ (0 : Int) ≤ 1 ∧ (1 : Int) < 3 ∧
    (scanRange 3 3 sampleImage sampleInfo).MinRgb 1 ≤
      (scanRange 3 3 sampleImage sampleInfo).MaxRgb 1 ∧
    (255 ≤ sampleInfo.MinRgb 1 →
      ∃ y x : Int, 0 ≤ y ∧ y < 3 ∧ 0 ≤ x ∧ x < 3 ∧
        (((sampleImage (y * (3 * 3) + (x * 3) + 1)).val : Nat) : Int) =
          (scanRange 3 3 sampleImage sampleInfo).MinRgb 1) :=
  ⟨by decide, by decide, by decide,
    (scanRange_min_max 3 3 sampleImage sampleInfo 1 (by decide) (by decide) (by decide)
      (by decide)).2.2.2.2.2.2.1,
    (scanRange_min_max 3 3 sampleImage sampleInfo 1 (by decide) (by decide) (by decide)
      (by decide)).2.2.2.2.2.2.2.1⟩

/-- C16 (normalized range), counterexample.  In binary32, with the seeds
`MinRgb = -16777219` and `MaxRgb = 0` and a 2x2 image whose every byte is 2,
the scan leaves `MinRgb = -16777219 < MaxRgb = 2` in every channel, and the
value stored for the first byte is `(2 - (float)(-16777219)) /
(float)16777221 = 16777222 / 16777220`, rounded to `1 + 2 ^ (-23)`: the
conversion of `MinRgb` to `float` rounds down, to `-16777220`, that of the
range rounds down too, to `16777220`, and the normalized value exceeds 1. -/
theorem normalized_range_counterexample :
    (normalizeImage binary32Ops 3 2 2 (fun _ => 2) (fun _ => 0) (fun _ => Binary32.finite 0)
      (fun _ => Binary32.finite 0) (fun _ => Binary32.finite 0) wideSeedInfo).map
      (fun r => [r.2.MinRgb 0, r.2.MaxRgb 0, r.2.MinRgb 1, r.2.MaxRgb 1, r.2.MinRgb 2,
        r.2.MaxRgb 2]) =
      some [-16777219, 2, -16777219, 2, -16777219, 2] ∧
    (normalizeImage binary32Ops 3 2 2 (fun _ => 2) (fun _ => 0) (fun _ => Binary32.finite 0)
      (fun _ => Binary32.finite 0) (fun _ => Binary32.finite 0) wideSeedInfo).map
      (fun r => r.1.dstImage 0) = some (Binary32.finite (8388609 / 8388608)) ∧
    (1 : ℚ) < 8388609 / 8388608 ∧
    roundBinary32 (-16777219) = -16777220 := by
  decide!

/-- C16 (normalized range), amended: binary32, any seeds for which the
conversion of the minimum to `float` does not round down.  Take a 3-channel
image with `width` and `height` different from 1, any mask, and any seeds such
that after the scan each channel has `MinRgb[k] < MaxRgb[k]`, `MinRgb[k]` and
`MaxRgb[k] - MinRgb[k]` are values of `int` (no overflow in line 24), and
`(float)MinRgb[k] ≥ MinRgb[k]`; the last holds whenever `MinRgb[k]` is exactly
representable, in particular for every seed `MinRgb[k] ≥ 0`, the minimum after
the scan then being a byte.  Then `normalizeImage` returns, and at every pixel
`(y, x)` of every channel `k` the fully-normalized plane holds at
`k * width * height + y * width + x` the normalized value
`(v - MinRgb[k]) / (MaxRgb[k] - MinRgb[k])` of the source byte `v` at
`y * (width * 3) + x * 3 + k`, the masked-source plane holds there that value
or the sentinel `1.0`, and both entries are finite values of `[0, 1]`. -/
theorem normalizeImage_unit_range (fuel : Nat) (width height : Int)
    (src_image_ptr src_mask_ptr : Int → UChar) (dstImage dstMask dstMaskImage : Int → Binary32)
    (info : HairInpaintInfo Binary32) (hw : width ≠ 1) (hh : height ≠ 1) (hf : 3 ≤ fuel)
    (hrange : ∀ k : Int, 0 ≤ k → k < 3 →
      (scanRange width height src_image_ptr info).MinRgb k <
        (scanRange width height src_image_ptr info).MaxRgb k)
    (hint : ∀ k : Int, 0 ≤ k → k < 3 →
      -2147483648 ≤ (scanRange width height src_image_ptr info).MinRgb k ∧
      (scanRange width height src_image_ptr info).MaxRgb k -
        (scanRange width height src_image_ptr info).MinRgb k ≤ 2147483647)
    (hconv : ∀ k : Int, 0 ≤ k → k < 3 →
      (((scanRange width height src_image_ptr info).MinRgb k : Int) : ℚ) ≤
        roundBinary32 (((scanRange width height src_image_ptr info).MinRgb k : Int) : ℚ)) :
    ∃ r, normalizeImage binary32Ops fuel width height src_image_ptr src_mask_ptr dstImage dstMask
        dstMaskImage info = some r ∧
      ∀ k y x : Int, 0 ≤ k → k < 3 → 0 ≤ y → y < height → 0 ≤ x → x < width →
        r.1.dstImage (k * width * height + (y * width + x)) =
          binary32Ops.div
            (binary32Ops.sub
              (binary32Ops.ofInt
                (((src_image_ptr (y * (width * 3) + (x * 3) + k)).val : Nat) : Int))
              (binary32Ops.ofInt (r.2.MinRgb k)))
            (binary32Ops.ofInt (r.2.MaxRgb k - r.2.MinRgb k)) ∧
        (r.1.dstMaskImage (k * width * height + (y * width + x)) =
            r.1.dstImage (k * width * height + (y * width + x)) ∨
          r.1.dstMaskImage (k * width * height + (y * width + x)) = binary32Ops.one) ∧
        (∃ q : ℚ, r.1.dstImage (k * width * height + (y * width + x)) = Binary32.finite q ∧
          0 ≤ q ∧ q ≤ 1) ∧
        (∃ q : ℚ, r.1.dstMaskImage (k * width * height + (y * width + x)) = Binary32.finite q ∧
          0 ≤ q ∧ q ≤ 1) := by
  refine normalizeImage_planes_all binary32Ops
    (fun v => ∃ q : ℚ, v = Binary32.finite q ∧ 0 ≤ q ∧ q ≤ 1) fuel width
    height src_image_ptr src_mask_ptr dstImage dstMask dstMaskImage info (by decide) (by decide)
    hw hh hf ⟨1, rfl, zero_le_one, le_refl _⟩ ?_
  intro k y x hk0 hk1 hy0 hy1 hx0 hx1
  have hb := scanRange_bounds width height src_image_ptr info k y x hk0 hk1 hy0 hy1 hx0 hx1
  have hbyte := (src_image_ptr (y * (width * 3) + (x * 3) + k)).isLt
  exact binary32_normalized_unit_of _ _ _ (by omega) (by omega) hb.1 hb.2 (hrange k hk0 hk1)
    (hint k hk0 hk1).1 (hint k hk0 hk1).2 (hconv k hk0 hk1)

/-- Witness for C16: a 3x3 test image with the seeds `MinRgb = 2147483647` and
`MaxRgb = -2147483648`, in binary32. -/
theorem normalizeImage_unit_range_witness :
    (3 : Int) ≠ 1 ∧ 3 ≤ 3 ∧
    (∀ k : Int, 0 ≤ k → k < 3 →
      (scanRange 3 3 sampleImage extremeSeedInfo).MinRgb k <
        (scanRange 3 3 sampleImage extremeSeedInfo).MaxRgb k) ∧
    (∀ k : Int, 0 ≤ k → k < 3 →
      (((scanRange 3 3 sampleImage extremeSeedInfo).MinRgb k : Int) : ℚ) ≤
        roundBinary32 (((scanRange 3 3 sampleImage extremeSeedInfo).MinRgb k : Int) : ℚ)) ∧
    ∃ r, normalizeImage binary32Ops 3 3 3 sampleImage centreHairMask
        (fun _ => Binary32.finite 0) (fun _ => Binary32.finite 0) (fun _ => Binary32.finite 0)
        extremeSeedInfo = some r ∧
      ∀ k y x : Int, 0 ≤ k → k < 3 → 0 ≤ y → y < 3 → 0 ≤ x → x < 3 →
        r.1.dstImage (k * 3 * 3 + (y * 3 + x)) =
          binary32Ops.div
            (binary32Ops.sub
              (binary32Ops.ofInt (((sampleImage (y * (3 * 3) + (x * 3) + k)).val : Nat) : Int))
              (binary32Ops.ofInt (r.2.MinRgb k)))
            (binary32Ops.ofInt (r.2.MaxRgb k - r.2.MinRgb k)) ∧
        (r.1.dstMaskImage (k * 3 * 3 + (y * 3 + x)) = r.1.dstImage (k * 3 * 3 + (y * 3 + x)) ∨
          r.1.dstMaskImage (k * 3 * 3 + (y * 3 + x)) = binary32Ops.one) ∧
        (∃ q : ℚ, r.1.dstImage (k * 3 * 3 + (y * 3 + x)) = Binary32.finite q ∧ 0 ≤ q ∧ q ≤ 1) ∧
        (∃ q : ℚ, r.1.dstMaskImage (k * 3 * 3 + (y * 3 + x)) = Binary32.finite q ∧
          0 ≤ q ∧ q ≤ 1) :=
  ⟨by decide, by decide,
    (by intro k h0 h1
        have hk : k = 0 ∨ k = 1 ∨ k = 2 := by omega
        rcases hk with rfl | rfl | rfl <;> decide!),
    (by intro k h0 h1
        have hk : k = 0 ∨ k = 1 ∨ k = 2 := by omega
        rcases hk with rfl | rfl | rfl <;> decide!),
    normalizeImage_unit_range 3 3 3 sampleImage centreHairMask
      (fun _ => Binary32.finite 0) (fun _ => Binary32.finite 0) (fun _ => Binary32.finite 0)
      extremeSeedInfo (by decide) (by decide) (by decide)
      (by intro k h0 h1
          have hk : k = 0 ∨ k = 1 ∨ k = 2 := by omega
          rcases hk with rfl | rfl | rfl <;> decide!)
      (by intro k h0 h1
          have hk : k = 0 ∨ k = 1 ∨ k = 2 := by omega
          rcases hk with rfl | rfl | rfl <;> decide!)
      (by intro k h0 h1
          have hk : k = 0 ∨ k = 1 ∨ k = 2 := by omega
          rcases hk with rfl | rfl | rfl <;> decide!)⟩

/-- C17 (invalid-dimension reporting), counterexample.  Called with a 2x2 image
and a 1x1 mask, `normalizeImage` returns normally, with the output buffer
`dstMask` written at the indices 0 to 3 (here with `0.0`, over the initial 5):
nothing is detected or signalled before the write.  The mask indices it reads
are 0, 1, 2, 3, and 3 lies outside the single byte of the mask. -/
theorem mask_size_counterexample :
    (normalizeImageMat exactOps 3 { cols := 2, rows := 2, data := sampleImage }
        { cols := 1, rows := 1, data := allHairMask } (fun _ => 5) (fun _ => 5) (fun _ => 5)
        (rationalInfo 2 2 3 1)).map (fun r => [r.1.dstMask 0, r.1.dstMask 1, r.1.dstMask 2,
          r.1.dstMask 3]) = some [0, 0, 0, 0] ∧
    maskReads { cols := 2, rows := 2, data := sampleImage } = [0, 1, 2, 3] ∧
    ¬ ((3 : Int) < 1 * 1) := by
  refine ⟨by decide!, by decide!, by decide⟩

/-- C17 (invalid-dimension reporting), amended: the size of the mask is a
precondition of the caller.  `normalizeImage` takes `width` and `height` from
the source image and makes no check of the mask: lines 9-11 read the mask
exactly at the indices `0 ≤ i < rows * cols` of the image, and the result of
the call is the same for any two masks whose bytes agree at these indices,
whatever their dimensions and their other bytes.  Hence when the mask has the
width and height of the source image, every index read lies within the
`cols * rows` bytes of the mask. -/
theorem normalizeImageMat_mask_reads {F : Type} (ops : FloatOps F) (fuel : Nat)
    (srcImage srcMask srcMask2 : Mat) (dstImage dstMask dstMaskImage : Int → F)
    (info : HairInpaintInfo F) :
    (∀ i : Int, i ∈ maskReads srcImage ↔ 0 ≤ i ∧ i < srcImage.rows * srcImage.cols) ∧
    ((∀ i ∈ maskReads srcImage, srcMask.data i = srcMask2.data i) →
      normalizeImageMat ops fuel srcImage srcMask dstImage dstMask dstMaskImage info =
        normalizeImageMat ops fuel srcImage srcMask2 dstImage dstMask dstMaskImage info) ∧
    (srcMask.cols = srcImage.cols → srcMask.rows = srcImage.rows →
      ∀ i ∈ maskReads srcImage, 0 ≤ i ∧ i < srcMask.cols * srcMask.rows) := by
  refine ⟨maskReads_iff srcImage, ?_, ?_⟩
  · intro h
    have hb := buildMask_congr ops srcImage.cols srcImage.rows srcMask.data srcMask2.data dstMask
      (fun i h0 h1 => h i ((maskReads_iff srcImage i).mpr ⟨h0, h1⟩))
    unfold normalizeImageMat normalizeImage
    simp only [hb]
  · intro hc hr i hi
    obtain ⟨h0, h1⟩ := (maskReads_iff srcImage i).mp hi
    rw [hc, hr, mul_comm]
    exact ⟨h0, h1⟩

/-- C18 (maximum principle), counterexample.  In binary32, on a 3x3 plane
that holds 1 at the centre and `2 ^ (-25)` elsewhere, with the masked-source
plane `2 ^ (-25)` everywhere, mask 0, `Dt = 1/4` and `Cw = 4` (so
`Dt * (4 + m) = 1`), every entry lies in `[2 ^ (-25), 1]`, but one iteration
stores 0 at the centre: `up + down + left + right = 2 ^ (-23)`, the difference
`2 ^ (-23) - 4` rounds to `-4`, and `1 + (1/4) * (-4) = 0`, below the
interval. -/
theorem maximum_principle_counterexample :
    PDEHeatDiffusionCPU binary32Ops (fun _ => Binary32.finite 0)
      (fun _ => Binary32.finite (1 / 33554432)) spikeBuffer 1 quarterStepInfo 4 =
      Binary32.finite 0 ∧
    (0 : ℚ) < 1 / 33554432 := by
  decide!

/-- C18 (maximum principle), amended: exact arithmetic.  If `Cw = 4`,
`Dt ≥ 0`, every mask value `m` of the plane satisfies `0 ≤ m` and
`Dt * (4 + m) ≤ 1`, and every entry of the working buffer and of the
masked-source plane (the `ch * Width * Height` elements of the `ch` channels)
lies in `[lo, hi]`, then after `Iters` iterations of the sequential scalar
`PDEHeatDiffusionCPU`, for any `Iters`, every entry of the working buffer
still lies in `[lo, hi]`. -/
theorem PDEHeatDiffusionCPU_maximum_principle (mask src dst : Int → ℚ) (ch : Int)
    (info : HairInpaintInfo ℚ) (lo hi : ℚ) (hCw : info.Cw = 4) (hDt : 0 ≤ info.Dt)
    (hmask : ∀ i, 0 ≤ i → i < info.Width * info.Height →
      0 ≤ mask i ∧ info.Dt * (4 + mask i) ≤ 1)
    (hsrc : ∀ i, 0 ≤ i → i < ch * info.Width * info.Height → lo ≤ src i ∧ src i ≤ hi)
    (hdst : ∀ i, 0 ≤ i → i < ch * info.Width * info.Height → lo ≤ dst i ∧ dst i ≤ hi) :
    ∀ i, 0 ≤ i → i < ch * info.Width * info.Height →
      lo ≤ PDEHeatDiffusionCPU exactOps mask src dst ch info i ∧
        PDEHeatDiffusionCPU exactOps mask src dst ch info i ≤ hi := by
  unfold PDEHeatDiffusionCPU sweepRows channelRows scalarRow
  refine forLoop2_inv (fun (d : Int → ℚ) =>
      ∀ i, 0 ≤ i → i < ch * info.Width * info.Height → lo ≤ d i ∧ d i ≤ hi)
    0 info.Iters 0 ch _ dst hdst ?_
  intro _ k d _ _ hk0 hk1 hd
  refine forLoop2_inv (fun (d : Int → ℚ) =>
      ∀ i, 0 ≤ i → i < ch * info.Width * info.Height → lo ≤ d i ∧ d i ≤ hi)
    1 (info.Height - 1) 1 (info.Width - 1) _ d hd ?_
  intro y x t hy0 hy1 hx0 hx1 ht
  exact updatePixel_range mask src info ch lo hi hCw hDt hmask hsrc k y x hk0 hk1 hy0 hy1 hx0 hx1
    t ht

/-- Witness for C18: the 5x5 scenario (`Dt = 1/10`, 50 iterations) stays in
`[0, 100]`. -/
theorem PDEHeatDiffusionCPU_maximum_principle_witness :
    (scenarioInfo exactOps (1 / 10) 50).Cw = 4 ∧ (0 : ℚ) ≤ (scenarioInfo exactOps (1 / 10) 50).Dt ∧
    ∀ i, 0 ≤ i → i < 1 * (scenarioInfo exactOps (1 / 10) 50).Width *
        (scenarioInfo exactOps (1 / 10) 50).Height →
      0 ≤ PDEHeatDiffusionCPU exactOps (scenarioMask exactOps) (scenarioBuffer exactOps)
          (scenarioBuffer exactOps) 1 (scenarioInfo exactOps (1 / 10) 50) i ∧
        PDEHeatDiffusionCPU exactOps (scenarioMask exactOps) (scenarioBuffer exactOps)
          (scenarioBuffer exactOps) 1 (scenarioInfo exactOps (1 / 10) 50) i ≤ 100 :=
  ⟨by decide!, by decide!,
    PDEHeatDiffusionCPU_maximum_principle (scenarioMask exactOps) (scenarioBuffer exactOps)
      (scenarioBuffer exactOps) 1 (scenarioInfo exactOps (1 / 10) 50) 0 100 (by decide!)
      (by decide!)
      (by intro i _ _
          unfold scenarioMask
          split_ifs <;> decide!)
      (by intro i _ _
          unfold scenarioBuffer
          split_ifs <;> decide!)
      (by intro i _ _
          unfold scenarioBuffer
          split_ifs <;> decide!)⟩

/-- C19 (buffer extent), counterexample.  For `width = height = 26755`,
`channels = 3`, `rescale = 1` the product `width * height * channels` is
`2147490075`, above the largest `int`; wrapped to 32 bits the constructor
yields `NumberOfC3Elements = -2147477221`, below
`Width * Height * Channels = 2147490075`. -/
theorem buffer_extent_counterexample :
    (newHairInpaintInfo sampleInfo.toRangeAndStep 26755 26755 3 1).NumberOfC3Elements =
      -2147477221 ∧
    (newHairInpaintInfo sampleInfo.toRangeAndStep 26755 26755 3 1).Width *
      (newHairInpaintInfo sampleInfo.toRangeAndStep 26755 26755 3 1).Height *
      (newHairInpaintInfo sampleInfo.toRangeAndStep 26755 26755 3 1).Channels = 2147490075 := by
  decide

/-- C19 (buffer extent), amended: no overflow.  For every `width`, `height`,
`channels ≥ 0` and `rescale ≥ 1` with `width * height` and
`width * height * channels` below `2 ^ 31`, the constructor yields
`NumberOfC1Elements ≥ Width * Height` and
`NumberOfC3Elements ≥ Width * Height * Channels`, every index
`k * Width * Height + y * Width + x` with `0 ≤ k < Channels`, `0 ≤ y < Height`,
`0 ≤ x < Width` is below `NumberOfC3Elements`, and
`NumberOfC3Elements = Width * Height * Channels` whenever `rescale` divides
both `width` and `height`. -/
theorem newHairInpaintInfo_extent {F : Type} (rest : RangeAndStep F)
    (width height channels rescale : Int) (hw : 0 ≤ width) (hh : 0 ≤ height)
    (hc : 0 ≤ channels) (hr : 1 ≤ rescale) (h1 : width * height < 2147483648)
    (h3 : width * height * channels < 2147483648) :
    (newHairInpaintInfo rest width height channels rescale).Width *
        (newHairInpaintInfo rest width height channels rescale).Height ≤
      (newHairInpaintInfo rest width height channels rescale).NumberOfC1Elements ∧
    (newHairInpaintInfo rest width height channels rescale).Width *
        (newHairInpaintInfo rest width height channels rescale).Height *
        (newHairInpaintInfo rest width height channels rescale).Channels ≤
      (newHairInpaintInfo rest width height channels rescale).NumberOfC3Elements ∧
    (∀ k y x : Int, 0 ≤ k →
      k < (newHairInpaintInfo rest width height channels rescale).Channels → 0 ≤ y →
      y < (newHairInpaintInfo rest width height channels rescale).Height → 0 ≤ x →
      x < (newHairInpaintInfo rest width height channels rescale).Width →
      k * (newHairInpaintInfo rest width height channels rescale).Width *
          (newHairInpaintInfo rest width height channels rescale).Height +
          (y * (newHairInpaintInfo rest width height channels rescale).Width + x) <
        (newHairInpaintInfo rest width height channels rescale).NumberOfC3Elements) ∧
    (rescale ∣ width → rescale ∣ height →
      (newHairInpaintInfo rest width height channels rescale).NumberOfC3Elements =
        (newHairInpaintInfo rest width height channels rescale).Width *
          (newHairInpaintInfo rest width height channels rescale).Height *
          (newHairInpaintInfo rest width height channels rescale).Channels) := by
  have hr0 : (0 : Int) ≤ rescale := by omega
  have hrne : rescale ≠ 0 := by omega
  have hwh : 0 ≤ width * height := mul_nonneg hw hh
  have hwhc : 0 ≤ width * height * channels := mul_nonneg hwh hc
  have eW : (newHairInpaintInfo rest width height channels rescale).Width = width / rescale :=
    Int.tdiv_eq_ediv hw hr0
  have eH : (newHairInpaintInfo rest width height channels rescale).Height = height / rescale :=
    Int.tdiv_eq_ediv hh hr0
  have eC : (newHairInpaintInfo rest width height channels rescale).Channels = channels := rfl
  have e1 : (newHairInpaintInfo rest width height channels rescale).NumberOfC1Elements =
      Int.tdiv (Int.tdiv (width * height) rescale) rescale := by
    show Int.tdiv (Int.tdiv (wrap32 (width * height)) rescale) rescale = _
    rw [wrap32_of_small _ hwh h1]
  have e3 : (newHairInpaintInfo rest width height channels rescale).NumberOfC3Elements =
      Int.tdiv (Int.tdiv (width * height * channels) rescale) rescale := by
    show Int.tdiv (Int.tdiv (wrap32 (wrap32 (width * height) * channels)) rescale) rescale = _
    rw [wrap32_of_small _ hwh h1, wrap32_of_small _ hwhc h3]
  rw [eW, eH, eC, e1, e3]
  have hW0 : 0 ≤ width / rescale := Int.ediv_nonneg hw hr0
  have hH0 : 0 ≤ height / rescale := Int.ediv_nonneg hh hr0
  have hWr : width / rescale * rescale ≤ width := Int.ediv_mul_le _ hrne
  have hHr : height / rescale * rescale ≤ height := Int.ediv_mul_le _ hrne
  have hprod : (width / rescale * rescale) * (height / rescale * rescale) ≤ width * height :=
    mul_le_mul hWr hHr (mul_nonneg hH0 hr0) hw
  have g1 : width / rescale * (height / rescale) ≤
      Int.tdiv (Int.tdiv (width * height) rescale) rescale :=
    tdiv_tdiv_ge _ _ _ hwh hr (by nlinarith)
  have g3 : width / rescale * (height / rescale) * channels ≤
      Int.tdiv (Int.tdiv (width * height * channels) rescale) rescale := by
    refine tdiv_tdiv_ge _ _ _ hwhc hr ?_
    have := mul_le_mul_of_nonneg_right hprod hc
    nlinarith
  refine ⟨g1, g3, ?_, ?_⟩
  · intro k y x hk0 hk1 hy0 hy1 hx0 hx1
    have := plane_index_bounds (width / rescale) (height / rescale) channels k y x hk0 hk1 hy0
      hy1 hx0 hx1
    have h2 : channels * (width / rescale) * (height / rescale) =
        width / rescale * (height / rescale) * channels := by ring
    omega
  · rintro ⟨a, rfl⟩ ⟨b, rfl⟩
    rw [Int.mul_ediv_cancel_left _ hrne, Int.mul_ediv_cancel_left _ hrne]
    have ha : 0 ≤ a := by
      by_contra hneg
      have : rescale * a < 0 := mul_neg_of_pos_of_neg (by omega) (by omega)
      omega
    have hb : 0 ≤ b := by
      by_contra hneg
      have : rescale * b < 0 := mul_neg_of_pos_of_neg (by omega) (by omega)
      omega
    have e : rescale * a * (rescale * b) * channels = rescale * (rescale * (a * b * channels)) := by
      ring
    rw [e]
    exact tdiv_tdiv_exact _ _ (mul_nonneg (mul_nonneg ha hb) hc) hr

/-- Witness for C19: a 7x5 image with three channels, halved. -/
theorem newHairInpaintInfo_extent_witness :
    (0 : Int) ≤ 7 ∧ (1 : Int) ≤ 2 ∧ (7 : Int) * 5 * 3 < 2147483648 ∧
    (newHairInpaintInfo sampleInfo.toRangeAndStep 7 5 3 2).Width *
        (newHairInpaintInfo sampleInfo.toRangeAndStep 7 5 3 2).Height ≤
      (newHairInpaintInfo sampleInfo.toRangeAndStep 7 5 3 2).NumberOfC1Elements ∧
    (newHairInpaintInfo sampleInfo.toRangeAndStep 7 5 3 2).Width *
        (newHairInpaintInfo sampleInfo.toRangeAndStep 7 5 3 2).Height *
        (newHairInpaintInfo sampleInfo.toRangeAndStep 7 5 3 2).Channels ≤
      (newHairInpaintInfo sampleInfo.toRangeAndStep 7 5 3 2).NumberOfC3Elements :=
  ⟨by decide, by decide, by decide,
    (newHairInpaintInfo_extent sampleInfo.toRangeAndStep 7 5 3 2 (by decide) (by decide)
      (by decide) (by decide) (by decide) (by decide)).1,
    (newHairInpaintInfo_extent sampleInfo.toRangeAndStep 7 5 3 2 (by decide) (by decide)
      (by decide) (by decide) (by decide) (by decide)).2.1⟩

/-- C20 (hair pixels do not leak into the solver input).  Take two 3-channel
source images of the same size (`width` and `height` different from 1) that
agree at every border pixel and at every pixel whose mask byte is zero, and
whose per-channel `MinRgb` and `MaxRgb` after the range scan are the same.
Then `normalizeImage`, called with the same mask, seeds and output buffers,
returns for both, with the same float-mask plane and the same masked-source
plane, and `hairInpaintingCPU` run on these planes gives the same result for
both.  The float comparison is only assumed to satisfy `1.0 > 0.0` and not
`0.0 > 0.0`. -/
theorem normalizeImage_no_leak {F : Type} (ops : FloatOps F) (fuel : Nat) (width height : Int)
    (image1 image2 src_mask_ptr : Int → UChar) (dstImage dstMask dstMaskImage : Int → F)
    (info : HairInpaintInfo F) (hgt1 : ops.gt ops.one ops.zero = true)
    (hgt0 : ops.gt ops.zero ops.zero = false) (hw : width ≠ 1) (hh : height ≠ 1)
    (hf : 3 ≤ fuel)
    (hsame : ∀ k y x : Int, 0 ≤ k → k < 3 → 0 ≤ y → y < height → 0 ≤ x → x < width →
      (y = 0 ∨ y = height - 1 ∨ x = 0 ∨ x = width - 1 ∨ src_mask_ptr (y * width + x) = 0) →
      image1 (y * (width * 3) + (x * 3) + k) = image2 (y * (width * 3) + (x * 3) + k))
    (hmin : ∀ k : Int, 0 ≤ k → k < 3 →
      (scanRange width height image1 info).MinRgb k =
        (scanRange width height image2 info).MinRgb k)
    (hmax : ∀ k : Int, 0 ≤ k → k < 3 →
      (scanRange width height image1 info).MaxRgb k =
        (scanRange width height image2 info).MaxRgb k) :
    ∃ r1 r2, normalizeImage ops fuel width height image1 src_mask_ptr dstImage dstMask
        dstMaskImage info = some r1 ∧
      normalizeImage ops fuel width height image2 src_mask_ptr dstImage dstMask
        dstMaskImage info = some r2 ∧
      r1.1.dstMask = r2.1.dstMask ∧ r1.1.dstMaskImage = r2.1.dstMaskImage ∧
      ∀ (fresh : Int → F) (solverInfo : HairInpaintInfo F),
        hairInpaintingCPU ops r1.1.dstMask r1.1.dstMaskImage fresh solverInfo =
          hairInpaintingCPU ops r2.1.dstMask r2.1.dstMaskImage fresh solverInfo := by
  obtain ⟨r1, hr1, hi1, hm1, hp1, ho1⟩ := normalizeImage_result ops fuel width height image1
    src_mask_ptr dstImage dstMask dstMaskImage info hgt1 hgt0 hw hh hf
  obtain ⟨r2, hr2, hi2, hm2, hp2, ho2⟩ := normalizeImage_result ops fuel width height image2
    src_mask_ptr dstImage dstMask dstMaskImage info hgt1 hgt0 hw hh hf
  have hmask : r1.1.dstMask = r2.1.dstMask := by rw [hm1, hm2]
  have hplane : r1.1.dstMaskImage = r2.1.dstMaskImage := by
    funext j
    by_cases hj : ∃ k y x : Int, (0 ≤ k ∧ k < 3 ∧ 0 ≤ y ∧ y < height ∧ 0 ≤ x ∧ x < width) ∧
        j = k * width * height + (y * width + x)
    · obtain ⟨k, y, x, ⟨hk0, hk1, hy0, hy1, hx0, hx1⟩, rfl⟩ := hj
      rw [(hp1 k y x hk0 hk1 hy0 hy1 hx0 hx1).2, (hp2 k y x hk0 hk1 hy0 hy1 hx0 hx1).2]
      by_cases hc : y = 0 ∨ y = height - 1 ∨ x = 0 ∨ x = width - 1 ∨
          src_mask_ptr (y * width + x) = 0
      · rw [if_pos hc, if_pos hc]
        unfold normalizedValue
        simp only
        rw [hsame k y x hk0 hk1 hy0 hy1 hx0 hx1 hc, hi1, hi2, hmin k hk0 hk1, hmax k hk0 hk1]
      · rw [if_neg hc, if_neg hc]
    · have hout : ∀ k y x : Int, 0 ≤ k → k < 3 → 0 ≤ y → y < height → 0 ≤ x → x < width →
          j ≠ k * width * height + (y * width + x) := by
        intro k y x a b c d e f hEq
        exact hj ⟨k, y, x, ⟨a, b, c, d, e, f⟩, hEq⟩
      rw [(ho1 j hout).2, (ho2 j hout).2]
  refine ⟨r1, r2, hr1, hr2, hmask, hplane, ?_⟩
  intro fresh solverInfo
  rw [hmask, hplane]

/-- Witness for C20: two 3x3 images that differ only at the centre pixel, which
the mask marks as hair. -/
theorem normalizeImage_no_leak_witness :
    (3 : Int) ≠ 1 ∧ 3 ≤ 3 ∧
    (∀ k : Int, 0 ≤ k → k < 3 →
      (scanRange 3 3 (centreImage 100) sampleInfo).MinRgb k =
        (scanRange 3 3 (centreImage 150) sampleInfo).MinRgb k) ∧
    centreImage 100 12 ≠ centreImage 150 12 ∧
    ∃ r1 r2, normalizeImage exactOps 3 3 3 (centreImage 100) centreHairMask (fun _ => 0)
        (fun _ => 0) (fun _ => 0) sampleInfo = some r1 ∧
      normalizeImage exactOps 3 3 3 (centreImage 150) centreHairMask (fun _ => 0)
        (fun _ => 0) (fun _ => 0) sampleInfo = some r2 ∧
      r1.1.dstMask = r2.1.dstMask ∧ r1.1.dstMaskImage = r2.1.dstMaskImage ∧
      ∀ (fresh : Int → ℚ) (solverInfo : HairInpaintInfo ℚ),
        hairInpaintingCPU exactOps r1.1.dstMask r1.1.dstMaskImage fresh solverInfo =
          hairInpaintingCPU exactOps r2.1.dstMask r2.1.dstMaskImage fresh solverInfo :=
  ⟨by decide, by decide,
    (by intro k h0 h1
        have hk : k = 0 ∨ k = 1 ∨ k = 2 := by omega
        rcases hk with rfl | rfl | rfl <;> decide!),
    by decide,
    normalizeImage_no_leak exactOps 3 3 3 (centreImage 100) (centreImage 150) centreHairMask
      (fun _ => 0) (fun _ => 0) (fun _ => 0) sampleInfo (by decide) (by decide) (by decide)
      (by decide) (by decide)
      (by intro k y x hk0 hk1 hy0 hy1 hx0 hx1 hc
          have hne : ¬ (y * (3 * 3) + (x * 3) + k = 12 ∨ y * (3 * 3) + (x * 3) + k = 13 ∨
              y * (3 * 3) + (x * 3) + k = 14) := by
            rcases hc with h | h | h | h | h
            · omega
            · omega
            · omega
            · omega
            · unfold centreHairMask at h
              split_ifs at h with h4
              · exact absurd h (by decide)
              · omega
          unfold centreImage
          rw [if_neg hne, if_neg hne])
      (by intro k h0 h1
          have hk : k = 0 ∨ k = 1 ∨ k = 2 := by omega
          rcases hk with rfl | rfl | rfl <;> decide!)
      (by intro k h0 h1
          have hk : k = 0 ∨ k = 1 ∨ k = 2 := by omega
          rcases hk with rfl | rfl | rfl <;> decide!)⟩

end HairRemoval
